import Mathlib

/-!
Verification development for the PCGen spell .lst codec
(src/pcgen_spell_lst_generator.py).

Text is modelled as lists of characters.  Python string operations
(strip, split, join, replace, substring search, slicing, int parsing,
negative list indexing) are embedded as executable Lean functions with
Python semantics.  The decoder (SpellGenerator.load_spell_lst), the
encoder (Spell.str, Spell.calculate_tabs_raw) and the .MOD merge step
are translated statement by statement from the source.
-/

namespace PCGen

abbrev Str := List Char

def chars (s : String) : Str := s.data

/-- Python whitespace characters (ASCII subset used by str.strip). -/
def pyIsSpace (c : Char) : Bool :=
  c == ' ' || c == '\t' || c == '\n' || c == '\r' || c == '\x0b' || c == '\x0c'

def pyStripLeft (s : Str) : Str := s.dropWhile pyIsSpace

def pyStripRight (s : Str) : Str := (pyStripLeft s.reverse).reverse

/-- Python str.strip(): remove leading and trailing whitespace. -/
def pyStrip (s : Str) : Str := pyStripRight (pyStripLeft s)

/-- Python s.split(sep) for a single-character separator: keeps empty pieces. -/
def splitCh (sep : Char) : Str → List Str
  | [] => [[]]
  | c :: rest =>
    if c = sep then [] :: splitCh sep rest
    else
      match splitCh sep rest with
      | [] => [[c]]
      | t :: ts => (c :: t) :: ts

/-- Python sep.join(parts) for a single-character separator. -/
def joinCh (sep : Char) : List Str → Str
  | [] => []
  | [p] => p
  | p :: ps => p ++ sep :: joinCh sep ps

/-- Python s.split(sep, maxsplit=1): the part before the first separator,
and, when the separator occurs, the remainder after it. -/
def splitFirst (sep : Char) : Str → Str × Option Str
  | [] => ([], none)
  | c :: rest =>
    if c = sep then ([], some rest)
    else
      let r := splitFirst sep rest
      (c :: r.1, r.2)

/-- Python sub in s (equivalently s.count(sub) > 0). -/
def hasSub (sub : Str) : Str → Bool
  | [] => sub.isPrefixOf ([] : Str)
  | c :: rest => sub.isPrefixOf (c :: rest) || hasSub sub rest

def replaceAllGo (sub repl : Str) : Nat → Str → Str
  | _, [] => []
  | 0, s => s
  | fuel + 1, c :: rest =>
    if sub.isPrefixOf (c :: rest) then
      repl ++ replaceAllGo sub repl fuel (List.drop (sub.length - 1) rest)
    else
      c :: replaceAllGo sub repl fuel rest

/-- Python s.replace(sub, repl): replace every (leftmost, non-overlapping)
occurrence; sub is assumed nonempty at every use site. -/
def replaceAll (sub repl s : Str) : Str := replaceAllGo sub repl s.length s

/-- Index of the first occurrence of a character (length if absent); used
only under a containment guard, mirroring Python str.index. -/
def idxOfCh (c : Char) : Str → Nat
  | [] => 0
  | d :: rest => if d = c then 0 else idxOfCh c rest + 1

/-- Python s[a:b] for nonnegative bounds. -/
def pySlice (s : Str) (a b : Nat) : Str := (s.take b).drop a

/-- Resolve a Python list index (negative counts from the end); none is an
IndexError. -/
def pyIdx (len : Nat) (i : Int) : Option Nat :=
  if 0 ≤ i then (if i < (len : Int) then some i.toNat else none)
  else (if -i ≤ (len : Int) then some (len - (-i).toNat) else none)

def pySetL (l : List α) (i : Int) (a : α) : Option (List α) :=
  match pyIdx l.length i with
  | none => none
  | some n => some (l.set n a)

def digitVal (c : Char) : Option Nat :=
  if '0' ≤ c ∧ c ≤ '9' then some (c.toNat - 48) else none

/-- Digit string after the first digit: Python allows single underscores
between digits. -/
def digitsCore : Str → Nat → Option Nat
  | [], acc => some acc
  | ['_'], _ => none
  | '_' :: d :: rest, acc =>
    match digitVal d with
    | none => none
    | some v => digitsCore rest (acc * 10 + v)
  | c :: rest, acc =>
    match digitVal c with
    | none => none
    | some v => digitsCore rest (acc * 10 + v)

/-- Python int(s): optional surrounding whitespace, optional sign, then a
nonempty digit string (single underscores between digits permitted). -/
def pyInt (s : Str) : Option Int :=
  match pyStrip s with
  | [] => none
  | '+' :: rest =>
    match rest with
    | [] => none
    | d :: ds =>
      match digitVal d with
      | none => none
      | some v => (digitsCore ds v).map fun n => (n : Int)
  | '-' :: rest =>
    match rest with
    | [] => none
    | d :: ds =>
      match digitVal d with
      | none => none
      | some v => (digitsCore ds v).map fun n => -(n : Int)
  | d :: ds =>
    match digitVal d with
    | none => none
    | some v => (digitsCore ds v).map fun n => (n : Int)

/-- Python str.upper (ASCII). -/
def pyUpper (s : Str) : Str := s.map Char.toUpper

/-- Python "\t" * t (empty for a nonpositive count). -/
def tabMul (t : Int) : Str := List.replicate t.toNat '\t'

def digitChar (d : Nat) : Char := Char.ofNat (48 + d)

def natDigitsGo : Nat → Nat → Str → Str
  | 0, _, acc => acc
  | fuel + 1, n, acc =>
    if n < 10 then digitChar n :: acc
    else natDigitsGo fuel (n / 10) (digitChar (n % 10) :: acc)

/-- Python str(n) for a natural number. -/
def natDigits (n : Nat) : Str := natDigitsGo (n + 1) n []

/-- Remove the first element equal to a (Python list.remove; used only when
the element is present). -/
def removeFirst (a : Str) : List Str → List Str
  | [] => []
  | x :: xs => if x == a then xs else x :: removeFirst a xs

inductive PyErr where
  | valueError
  | indexError
deriving DecidableEq

/-- Result of running Python code that may raise. -/
inductive Res (α : Type) where
  | ok (a : α)
  | err (e : PyErr)
deriving DecidableEq

def Res.bind : Res α → (α → Res β) → Res β
  | .ok a, f => f a
  | .err e, _ => .err e

def Res.map (f : α → β) : Res α → Res β
  | .ok a => .ok (f a)
  | .err e => .err e

def foldRes (f : β → α → Res β) : β → List α → Res β
  | b, [] => .ok b
  | b, a :: as_ =>
    match f b a with
    | .ok b2 => foldRes f b2 as_
    | .err e => .err e

/-- The Spell record as built by Spell.init: every plain text field is
stripped at construction, descriptors and other fields elementwise; the
classes-by-level list is stored as given. -/
structure Spell where
  name : Str
  school : Str
  subschool : Str
  casting_time : Str
  range : Str
  save : Str
  target : Str
  duration : Str
  sr : Str
  desc : Str
  material_desc : Str
  class_suffix : Str
  classes : List (List Str)
  arcane : Bool
  divine : Bool
  psychic : Bool
  verbal : Bool
  somatic : Bool
  material : Bool
  focus : Bool
  divine_focus : Bool
  descriptors : List Str
  other_fields : List Str
  mode : Str
deriving DecidableEq

/-- Spell.eq: two spells are the same iff their names match
case-insensitively. -/
def spellEq (s t : Spell) : Bool := pyUpper s.name == pyUpper t.name

/-- The mutable spell_dict accumulated while parsing one record line. -/
structure SD where
  name : Str
  classes : List (List Str)
  class_suffix : Str
  verbal : Bool
  somatic : Bool
  material : Bool
  focus : Bool
  divine_focus : Bool
  arcane : Bool
  divine : Bool
  psychic : Bool
  school : Str
  casting_time : Str
  range : Str
  duration : Str
  desc : Str
  sr : Str
  save : Str
  target : Str
  descriptors : List Str
  subschool : Str
  material_desc : Str
  other_fields : List Str
deriving DecidableEq

def initSD (name : Str) : SD where
  name := name
  classes := [[], [], [], [], [], [], [], [], [], []]
  class_suffix := []
  verbal := false
  somatic := false
  material := false
  focus := false
  divine_focus := false
  arcane := false
  divine := false
  psychic := false
  school := []
  casting_time := []
  range := []
  duration := []
  desc := []
  sr := []
  save := []
  target := []
  descriptors := []
  subschool := []
  material_desc := []
  other_fields := []

/-- Spell.init applied to the parsed dictionary (the exact argument list of
the Spell(...) call at the end of load_spell_lst; mode defaults to
Pathfinder 1e). -/
def mkSpell (sd : SD) : Spell where
  name := pyStrip sd.name
  school := pyStrip sd.school
  subschool := pyStrip sd.subschool
  casting_time := pyStrip sd.casting_time
  range := pyStrip sd.range
  save := pyStrip sd.save
  target := pyStrip sd.target
  duration := pyStrip sd.duration
  sr := pyStrip sd.sr
  desc := pyStrip sd.desc
  material_desc := pyStrip sd.material_desc
  class_suffix := pyStrip sd.class_suffix
  classes := sd.classes
  arcane := sd.arcane
  divine := sd.divine
  psychic := sd.psychic
  verbal := sd.verbal
  somatic := sd.somatic
  material := sd.material
  focus := sd.focus
  divine_focus := sd.divine_focus
  descriptors := sd.descriptors.map pyStrip
  other_fields := sd.other_fields.map pyStrip
  mode := chars "Pathfinder 1e"

/-- The bracket-suffix extraction on a CLASSES value: when both brackets
occur, the slice from the first open bracket through the first close
bracket is the suffix and the prefix before the open bracket remains. -/
def stripBracketSq (s : Str) : Option Str × Str :=
  if s.contains '[' && s.contains ']' then
    let start := idxOfCh '[' s
    let stop := idxOfCh ']' s
    (some (pySlice s start (stop + 1)), pySlice s 0 start)
  else (none, s)

/-- The level-group loop of the record-line CLASSES parser: each group is
names=level; the level is parsed with int() (ValueError on failure) and
used as a Python list index (IndexError outside -10..9); the class list
replaces the slot. -/
def parseClassesGroups : List Str → List (List Str) → Res (List (List Str))
  | [], classes => .ok classes
  | g :: gs, classes =>
    let pr := splitFirst '=' g
    match pr.2 with
    | none => .err .indexError
    | some lv =>
      match pyInt lv with
      | none => .err .valueError
      | some n =>
        match pySetL classes n (splitCh ',' pr.1) with
        | none => .err .indexError
        | some cl => parseClassesGroups gs cl

/-- The comma loop of the COMPS parser: each stripped entry switches on the
recognized flag abbreviations. -/
def parseComps : List Str → SD → SD
  | [], sd => sd
  | c :: cs, sd =>
    let t := pyStrip c
    let sd :=
      if t == chars "V" then { sd with verbal := true }
      else if t == chars "S" then { sd with somatic := true }
      else if t == chars "M" then { sd with material := true }
      else if t == chars "F" then { sd with focus := true }
      else if t == chars "DF" then { sd with divine_focus := true }
      else if t == chars "F/DF" then { sd with focus := true, divine_focus := true }
      else sd
    parseComps cs sd

/-- The tag-dispatch chain of load_spell_lst applied to an
already-stripped token. -/
def recStepT (sd : SD) (t : Str) : Res SD :=
  if (chars "TYPE:").isPrefixOf t then
    .ok { sd with
          arcane := hasSub (chars "Arcane") t
          divine := hasSub (chars "Divine") t
          psychic := hasSub (chars "Psychic") t }
  else if (chars "CLASSES:").isPrefixOf t && !((chars "CLASSES:").isSuffixOf t) then
    match (splitFirst ':' t).2 with
    | none => .err .indexError
    | some v =>
      let br := stripBracketSq v
      let sd :=
        match br.1 with
        | some su => { sd with class_suffix := su }
        | none => sd
      (parseClassesGroups (splitCh '|' br.2) sd.classes).map fun cl =>
        { sd with classes := cl }
  else if (chars "SCHOOL:").isPrefixOf t then
    match (splitFirst ':' t).2 with
    | none => .err .indexError
    | some v => .ok { sd with school := v }
  else if (chars "SUBSCHOOL:").isPrefixOf t then
    match (splitFirst ':' t).2 with
    | none => .err .indexError
    | some v => .ok { sd with subschool := v }
  else if (chars "CASTTIME:").isPrefixOf t then
    match (splitFirst ':' t).2 with
    | none => .err .indexError
    | some v => .ok { sd with casting_time := v }
  else if (chars "RANGE:").isPrefixOf t then
    match (splitFirst ':' t).2 with
    | none => .err .indexError
    | some v => .ok { sd with range := v }
  else if (chars "DURATION:").isPrefixOf t then
    match (splitFirst ':' t).2 with
    | none => .err .indexError
    | some v => .ok { sd with duration := v }
  else if (chars "TARGETAREA:").isPrefixOf t then
    match (splitFirst ':' t).2 with
    | none => .err .indexError
    | some v => .ok { sd with target := v }
  else if (chars "SAVEINFO:").isPrefixOf t then
    match (splitFirst ':' t).2 with
    | none => .err .indexError
    | some v => .ok { sd with save := v }
  else if (chars "SPELLRES:").isPrefixOf t then
    match (splitFirst ':' t).2 with
    | none => .err .indexError
    | some v => .ok { sd with sr := v }
  else if (chars "DESCRIPTOR:").isPrefixOf t then
    match (splitFirst ':' t).2 with
    | none => .err .indexError
    | some v => .ok { sd with descriptors := splitCh '|' v }
  else if (chars "DESC:").isPrefixOf t then
    match (splitFirst ':' t).2 with
    | none => .err .indexError
    | some v => .ok { sd with desc := v }
  else if (chars "COMPS:").isPrefixOf t then
    match (splitFirst ':' t).2 with
    | none => .err .indexError
    | some v =>
      let pe :=
        if v.contains '(' && v.contains ')' then
          let start := idxOfCh '(' v
          let stop := idxOfCh ')' v
          (some (pySlice v (start + 1) stop), pySlice v 0 start)
        else (none, v)
      let sd :=
        match pe.1 with
        | some m => { sd with material_desc := m }
        | none => sd
      .ok (parseComps (splitCh ',' pe.2) sd)
  else if !((chars "CLASSES:").isSuffixOf t) then
    .ok { sd with other_fields := sd.other_fields ++ [t] }
  else
    .ok sd

/-- One token of a record line: token = token.strip() followed by the
tag dispatch. -/
def recStep (sd : SD) (tok : Str) : Res SD := recStepT sd (pyStrip tok)

/-- list(filter(None, line.split("\t"))): the nonempty tab-separated
tokens of a line. -/
def tokensOf (line : Str) : List Str :=
  (splitCh '\t' line).filter (fun t => !t.isEmpty)

/-- Parse one record line (already stripped, nonempty, not a header, not a
modification directive, not a comment). -/
def parseSpellLine (line : Str) : Res Spell :=
  match tokensOf line with
  | [] => .err .indexError
  | name :: rest => (foldRes recStep (initSD name) rest).map mkSpell

/-- The caster loop of the .MOD merge: spell.classes[level].append(caster)
with Python index semantics. -/
def mergeCasters : List Str → Int → Spell → Res Spell
  | [], _, sp => .ok sp
  | c :: cs, n, sp =>
    match pyIdx sp.classes.length n with
    | none => .err .indexError
    | some j =>
      mergeCasters cs n { sp with classes := sp.classes.set j (sp.classes.getD j [] ++ [c]) }

/-- The level-group loop of the .MOD merge. -/
def mergeGroups : List Str → Spell → Res Spell
  | [], sp => .ok sp
  | g :: gs, sp =>
    let pr := splitFirst '=' g
    match pr.2 with
    | none => .err .indexError
    | some lv =>
      match pyInt lv with
      | none => .err .valueError
      | some n =>
        match mergeCasters (splitCh ',' pr.1) n sp with
        | .err e => .err e
        | .ok sp2 => mergeGroups gs sp2

/-- Merging one CLASSES value of a modification directive into a spell:
the bracket suffix is accumulated onto class_suffix, then every class of
every level group is appended to the slot for its level. -/
def mergeClassesValue (v : Str) (sp : Spell) : Res Spell :=
  let br := stripBracketSq v
  let sp :=
    match br.1 with
    | some su => { sp with class_suffix := sp.class_suffix ++ su }
    | none => sp
  mergeGroups (splitCh '|' br.2) sp

/-- The token loop of the .MOD branch over one matching spell: Python
iterates by an internal index while tokens.remove mutates the list, so an
element sliding into a consumed position is skipped. -/
def modTokenLoop : Nat → List Str → Nat → Spell → Res (Spell × List Str)
  | 0, toks, _, sp => .ok (sp, toks)
  | fuel + 1, toks, i, sp =>
    match toks.get? i with
    | none => .ok (sp, toks)
    | some t =>
      if (chars "CLASSES:").isPrefixOf t && !((chars "CLASSES:").isSuffixOf t) then
        match (splitFirst ':' t).2 with
        | none => .err .indexError
        | some v =>
          match mergeClassesValue v sp with
          | .err e => .err e
          | .ok sp2 => modTokenLoop fuel (removeFirst t toks) (i + 1) sp2
      else modTokenLoop fuel toks (i + 1) sp

/-- The spell loop of the .MOD branch: every spell whose stored name equals
the target exactly (case-sensitive) runs the token loop; the token list is
threaded through. -/
def modSpellsLoop : List Spell → Str → List Str → Res (List Spell × List Str)
  | [], _, toks => .ok ([], toks)
  | sp :: rest, nm, toks =>
    if sp.name == nm then
      match modTokenLoop (toks.length + 1) toks 0 sp with
      | .err e => .err e
      | .ok (sp2, toks2) =>
        match modSpellsLoop rest nm toks2 with
        | .err e => .err e
        | .ok (rest2, toks3) => .ok (sp2 :: rest2, toks3)
    else
      match modSpellsLoop rest nm toks with
      | .err e => .err e
      | .ok (rest2, toks2) => .ok (sp :: rest2, toks2)

/-- Processing a modification directive line: split and drop empty tokens,
strip the .MOD marker from the first token to get the target name, merge
into every matching spell, and keep the joined remaining tokens as a
modification line when more than one token remains. -/
def processModLine (line : Str) (spells : List Spell) (mods : List Str) :
    Res (List Spell × List Str) :=
  match tokensOf line with
  | [] => .err .indexError
  | t0 :: rest =>
    let nm := replaceAll (chars ".MOD") [] t0
    match modSpellsLoop spells nm (t0 :: rest) with
    | .err e => .err e
    | .ok (spells2, toks2) =>
      .ok (spells2, if toks2.length > 1 then mods ++ [joinCh '\t' toks2] else mods)

/-- The state accumulated by load_spell_lst. -/
structure DState where
  header : Str
  spells : List Spell
  mods : List Str
deriving DecidableEq

def initDState : DState := ⟨[], [], []⟩

/-- One line of load_spell_lst: strip, then classify as header (contains
SOURCELONG), modification directive (contains .MOD), comment/blank, or
record. -/
def processLine (st : DState) (raw : Str) : Res DState :=
  let line := pyStrip raw
  if hasSub (chars "SOURCELONG") line then .ok { st with header := line }
  else if hasSub (chars ".MOD") line then
    match processModLine line st.spells st.mods with
    | .err e => .err e
    | .ok (sp, md) => .ok { st with spells := sp, mods := md }
  else
    match line with
    | [] => .ok st
    | c :: _ =>
      if c = '#' then .ok st
      else
        match parseSpellLine line with
        | .err e => .err e
        | .ok sp => .ok { st with spells := st.spells ++ [sp] }

/-- SpellGenerator.load_spell_lst on the list of file lines. -/
def load_spell_lst (lines : List Str) : Res DState :=
  foldRes processLine initDState lines

/-! ## Encoder (Spell.str and helpers) -/

/-- PCGEN_TAB_SIZE. -/
def tabSize : Nat := 6

/-- Spell.calculate_tabs_raw: padding count for a token of a column of the
given width, plus the excess (debt) when the token overflows the column. -/
def calculate_tabs_raw (token : Str) (width : Nat) : Int × Nat :=
  let t := pyStrip token
  let tabs : Int := (width : Int) - ((t.length / tabSize : Nat) : Int)
  let excess : Nat := if t.length > width * tabSize then t.length / tabSize - width else 0
  (tabs, excess)

def payDebtGo : Nat → Int → Int → Int × Int
  | 0, tabs, excess => (tabs, excess)
  | fuel + 1, tabs, excess =>
    if tabs > 0 ∧ excess > 0 then payDebtGo fuel (tabs - 1) (excess - 1)
    else (tabs, excess)

/-- The debt pay-down loop of Spell.str: while tabs > 0 and excess_tabs > 0
decrement both. -/
def payDebt (tabs excess : Int) : Int × Int := payDebtGo excess.toNat tabs excess

/-- Pay the pending debt against the computed padding, then append the
surviving padding tabs. -/
def payAndPad (out : Str) (tabs excess : Int) : Str × Int :=
  let r := payDebt tabs excess
  (out ++ tabMul r.1, r.2)

/-- One pass of the fields loop in Spell.str: emit tag+value when the value
is nonempty (tracking debt from calculate_tabs), or the over-padded empty
column otherwise. -/
def emitField (tag value : Str) (width : Nat) (st : Str × Int) : Str × Int :=
  if value.length > 0 then
    let out := st.1 ++ '\t' :: (tag ++ value)
    let r := calculate_tabs_raw (tag ++ value) width
    payAndPad out r.1 (st.2 + (r.2 : Int))
  else payAndPad st.1 ((width : Int) + 1) st.2

/-- The TYPE token together with the running type_string_length counter. -/
def typeToken (s : Spell) : Str × Nat :=
  let acc : Str := chars "TYPE:"
  let tl : Nat := 5
  let st :=
    if s.arcane then (acc ++ chars "Arcane", tl + 6, false)
    else (acc, tl, true)
  let st :=
    if s.divine then
      let pre := if st.2.2 then (st.1, st.2.1) else (st.1 ++ ['.'], st.2.1 + 1)
      (pre.1 ++ chars "Divine", pre.2 + 6, false)
    else st
  let st :=
    if s.psychic && s.mode == chars "Pathfinder 1e" then
      let pre := if st.2.2 then (st.1, st.2.1) else (st.1 ++ ['.'], st.2.1 + 1)
      (pre.1 ++ chars "Psychic", pre.2 + 7, false)
    else st
  if s.mode == chars "D&D 5e" then (st.1 ++ chars ".Spell", st.2.1 + 6)
  else (st.1, st.2.1)

/-- The COMPS token of Spell.str, including its leading tab (the string the
source calls component_string). -/
def compsToken (s : Spell) : Str :=
  let acc : Str := chars "\tCOMPS:"
  let st := if s.verbal then (acc ++ ['V'], false) else (acc, true)
  let st :=
    if s.somatic then ((if st.2 then st.1 else st.1 ++ [',']) ++ ['S'], false)
    else st
  let st :=
    if s.material then
      let acc2 := (if st.2 then st.1 else st.1 ++ [',']) ++ ['M']
      let acc2 :=
        if s.material_desc.length > 0 && s.mode == chars "D&D 5e" then
          acc2 ++ chars " (" ++ s.material_desc ++ [')']
        else acc2
      (acc2, false)
    else st
  if s.mode != chars "D&D 5e" then
    if s.focus then
      (if st.2 then st.1 else st.1 ++ [',']) ++ ['F'] ++
        (if s.divine_focus then chars "/DF" else [])
    else if s.divine_focus then
      (if st.2 then st.1 else st.1 ++ [',']) ++ chars "DF"
    else st.1
  else st.1

/-- The level-group list of the CLASSES token: classes at each level in
ascending level order, comma-joined, with =level appended. -/
def classGroupsGo : List (List Str) → Nat → Bool → Str
  | [], _, _ => []
  | l :: rest, lv, first =>
    if l.length > 0 then
      (if first then [] else ['|']) ++ joinCh ',' l ++ '=' :: natDigits lv ++
        classGroupsGo rest (lv + 1) false
    else classGroupsGo rest (lv + 1) first

/-- The CLASSES token of Spell.str including its leading tab, with any
stored class_suffix appended raw. -/
def classesToken (s : Spell) : Str :=
  chars "\tCLASSES:" ++ classGroupsGo s.classes 0 true ++
    (if s.class_suffix.length > 0 then s.class_suffix else [])

/-- The trailing other_fields loop of Spell.str. -/
def otherFieldsStr : List Str → Str
  | [] => []
  | f :: fs =>
    (if (pyStrip f).length > 0 then chars "\t\t" ++ pyStrip f else []) ++ otherFieldsStr fs

/-- Spell.str: the full .lst line for one spell, with the column-alignment
(debt) arithmetic of the source. -/
def spellStr (s : Spell) : Str :=
  let is5e := s.mode == chars "D&D 5e"
  -- name and its padding
  let out := s.name ++ List.replicate (6 - s.name.length / tabSize) '\t'
  let excess : Int :=
    if s.name.length > 6 * tabSize then (((s.name.length - 6 * tabSize) / tabSize : Nat) : Int)
    else 0
  -- TYPE (field width 4)
  let st :=
    if s.arcane || s.divine || s.psychic then
      let tt := typeToken s
      payAndPad (out ++ '\t' :: tt.1) ((4 : Int) - ((tt.2 / tabSize : Nat) : Int)) excess
    else payAndPad out ((4 : Int) + 1) excess
  -- SCHOOL (field width 4)
  let st :=
    if s.school.length > 0 then
      payAndPad (st.1 ++ chars "\tSCHOOL:" ++ s.school)
        ((4 : Int) - (((s.school.length + 7) / tabSize : Nat) : Int)) st.2
    else payAndPad st.1 ((4 : Int) + 1) st.2
  -- SUBSCHOOL (field width 3 for 5e, else 4)
  let sw : Nat := if is5e then 3 else 4
  let st :=
    if s.subschool.length > 0 then
      payAndPad (st.1 ++ chars "\tSUBSCHOOL:" ++ s.subschool)
        ((sw : Int) - (((s.subschool.length + 10) / tabSize : Nat) : Int)) st.2
    else payAndPad st.1 ((sw : Int) + 1) st.2
  -- the fields loop
  let st := emitField (chars "CASTTIME:") s.casting_time 5 st
  let st := emitField (chars "RANGE:") s.range 4 st
  let st := emitField (chars "DURATION:") s.duration (if is5e then 7 else 10) st
  let st := emitField (chars "SAVEINFO:") s.save (if is5e then 4 else 7) st
  let st :=
    if !is5e then
      let st := emitField (chars "SPELLRES:") s.sr 4 st
      emitField (chars "TARGETAREA:") s.target 10 st
    else st
  -- COMPS
  let cw : Nat := if is5e then 11 else 3
  let st :=
    if s.verbal || s.somatic || s.material || s.focus || s.divine_focus then
      let ct := compsToken s
      let r := calculate_tabs_raw ct cw
      payAndPad (st.1 ++ ct) r.1 (st.2 + (r.2 : Int))
    else payAndPad st.1 ((cw : Int) + 1) st.2
  -- CLASSES (field width 10)
  let st :=
    if s.classes.any (fun l => l.length > 0) then
      let ct := classesToken s
      let r := calculate_tabs_raw ct 10
      payAndPad (st.1 ++ ct) r.1 (st.2 + (r.2 : Int))
    else payAndPad st.1 ((10 : Int) + 1) st.2
  -- DESCRIPTOR (field width 7 unless 5e where it is 0; when empty and 5e the
  -- padding stays at its initial zero)
  let dw : Nat := if is5e then 0 else 7
  let st :=
    if s.descriptors.length > 0 then
      let dt := chars "\tDESCRIPTOR:" ++ joinCh '|' s.descriptors
      let r := calculate_tabs_raw dt dw
      payAndPad (st.1 ++ dt) r.1 (st.2 + (r.2 : Int))
    else if !is5e then payAndPad st.1 ((dw : Int) + 1) st.2
    else payAndPad st.1 0 st.2
  -- DESC and other fields
  let out := st.1 ++ (if s.desc.length > 0 then chars "\t\tDESC:" ++ s.desc else [])
  out ++ otherFieldsStr s.other_fields

/-- The per-spell mutation performed by generate_spell_lst before writing:
spell.mode = mode. -/
def setMode (s : Spell) (m : Str) : Spell := { s with mode := m }

/-- The spell loop of generate_spell_lst: returns the written record lines
and the spell objects as they stand after the loop (each has had its mode
assigned). -/
def genSpellLines : List Spell → Str → List Str × List Spell
  | [], _ => ([], [])
  | s :: rest, m =>
    let s2 := setMode s m
    let r := genSpellLines rest m
    (spellStr s2 :: r.1, s2 :: r.2)

/-- SpellGenerator.generate_spell_lst as the list of lines written plus the
post-call state of the spell list (the source mutates each spell's mode
while writing). -/
def generate_spell_lst (spells : List Spell) (mods : List Str) (header : Str)
    (m : Str) : List Str × List Spell :=
  let r := genSpellLines spells m
  (header :: [] :: r.1 ++ [[], chars "# BEGIN MODS"] ++ mods, r.2)

/-! ## Round-trip infrastructure (claim C1) -/

/-- A text field that survives a decode: stripped, tab free, and free of
the two line-classification markers. -/
def strClean (f : Str) : Bool :=
  (pyStrip f == f) && !(f.contains '\t') && !(hasSub (chars ".MOD") f) &&
    !(hasSub (chars "SOURCELONG") f)

/-- A class name as produced by the decoder: free of the separators the
classes syntax uses, and of the classification markers. -/
def classNameClean (n : Str) : Bool :=
  !(n.contains '\t') && !(n.contains ',') && !(n.contains '|') && !(n.contains '=') &&
    !(hasSub (chars ".MOD") n) && !(hasSub (chars "SOURCELONG") n)

/-- The shape a nonempty decoded class suffix always has: one open bracket
first, one close bracket last, no close bracket in between. -/
def suffixStructOK (su : Str) : Bool :=
  (su.headD ' ' == '[') && (su.getLastD ' ' == ']') && !(su.dropLast.contains ']')

/-- The thirteen recognized tag prefixes of the record-line tokenizer. -/
def tagList : List Str :=
  [chars "TYPE:", chars "CLASSES:", chars "SCHOOL:", chars "SUBSCHOOL:",
    chars "CASTTIME:", chars "RANGE:", chars "DURATION:", chars "TARGETAREA:",
    chars "SAVEINFO:", chars "SPELLRES:", chars "DESCRIPTOR:", chars "DESC:",
    chars "COMPS:"]

/-- An opaque extra token as the decoder stores it: nonempty, clean, not
carrying a recognized tag, and not ending in the bare CLASSES: artifact. -/
def otherFieldClean (f : Str) : Bool :=
  !f.isEmpty && strClean f && (tagList.all fun tg => !(tg.isPrefixOf f)) &&
    !((chars "CLASSES:").isSuffixOf f)

def descriptorClean (d : Str) : Bool := strClean d && !(d.contains '|')

/-- The record well-formedness under which decode-encode-decode preserves
the tuple: every condition here holds of records the decoder itself
produces from ordinary .lst lines. -/
def CleanSpell (s : Spell) : Bool :=
  !s.name.isEmpty && strClean s.name && (s.name.headD '#' != '#') &&
    strClean s.school && strClean s.subschool && strClean s.casting_time &&
    strClean s.range && strClean s.save && strClean s.target &&
    strClean s.duration && strClean s.sr && strClean s.desc &&
    strClean s.class_suffix &&
    (s.classes.length == 10) &&
    (s.classes.all fun slot => slot.all classNameClean) &&
    (if s.class_suffix.isEmpty then
      (s.classes.all fun slot => slot.all fun n => !(n.contains '[')) ||
        (s.classes.all fun slot => slot.all fun n => !(n.contains ']'))
    else
      suffixStructOK s.class_suffix &&
        (s.classes.all fun slot =>
          slot.all fun n => !(n.contains '[') && !(n.contains ']'))) &&
    (s.class_suffix.isEmpty || s.classes.any fun l => l.length > 0) &&
    (s.descriptors.all descriptorClean) &&
    (s.other_fields.all otherFieldClean)

/-- The tag-value tuple the round-trip claim compares, with the material
description (dropped outside D&D 5e) pinned to empty on the right. -/
def TupleEq (r r2 : Spell) : Bool :=
  (r2.name == r.name) && (r2.school == r.school) && (r2.subschool == r.subschool) &&
    (r2.casting_time == r.casting_time) && (r2.range == r.range) &&
    (r2.save == r.save) && (r2.target == r.target) && (r2.duration == r.duration) &&
    (r2.sr == r.sr) && (r2.desc == r.desc) && (r2.class_suffix == r.class_suffix) &&
    (r2.classes == r.classes) && (r2.arcane == r.arcane) &&
    (r2.divine == r.divine) && (r2.psychic == r.psychic) &&
    (r2.verbal == r.verbal) && (r2.somatic == r.somatic) &&
    (r2.material == r.material) && (r2.focus == r.focus) &&
    (r2.divine_focus == r.divine_focus) && (r2.descriptors == r.descriptors) &&
    (r2.other_fields == r.other_fields) && (r2.material_desc == ([] : Str))

/-- A preserved modification line that decodes back inertly: it is its own
strip and the join of its at-least-two tokens, it carries the .MOD marker
but not the header marker, and its target matches none of the given record
names. -/
def ModLineOK (m : Str) (names : List Str) : Bool :=
  (pyStrip m == m) && hasSub (chars ".MOD") m &&
    !(hasSub (chars "SOURCELONG") m) &&
    decide (2 ≤ (tokensOf m).length) && (joinCh '\t' (tokensOf m) == m) &&
    (match tokensOf m with
      | [] => false
      | t0 :: _ => names.all fun nm => !(nm == replaceAll (chars ".MOD") [] t0))

/-- The level groups of the CLASSES token in list form. -/
def groupStrs : List (List Str) → Nat → List Str
  | [], _ => []
  | l :: rest, lv =>
    (if l.length > 0 then [joinCh ',' l ++ '=' :: natDigits lv] else []) ++
      groupStrs rest (lv + 1)

/-- The nonempty tokens of the Pathfinder-mode encoded line, in encoding
order, name excluded. -/
def pfTokens (s : Spell) : List Str :=
  (if s.arcane || s.divine || s.psychic then [(typeToken s).1] else []) ++
    (if s.school.length > 0 then [chars "SCHOOL:" ++ s.school] else []) ++
    (if s.subschool.length > 0 then [chars "SUBSCHOOL:" ++ s.subschool] else []) ++
    (if s.casting_time.length > 0 then [chars "CASTTIME:" ++ s.casting_time] else []) ++
    (if s.range.length > 0 then [chars "RANGE:" ++ s.range] else []) ++
    (if s.duration.length > 0 then [chars "DURATION:" ++ s.duration] else []) ++
    (if s.save.length > 0 then [chars "SAVEINFO:" ++ s.save] else []) ++
    (if s.sr.length > 0 then [chars "SPELLRES:" ++ s.sr] else []) ++
    (if s.target.length > 0 then [chars "TARGETAREA:" ++ s.target] else []) ++
    (if s.verbal || s.somatic || s.material || s.focus || s.divine_focus then
      [(compsToken s).tail] else []) ++
    (if s.classes.any fun l => l.length > 0 then [(classesToken s).tail] else []) ++
    (if s.descriptors.length > 0 then
      [chars "DESCRIPTOR:" ++ joinCh '|' s.descriptors] else []) ++
    (if s.desc.length > 0 then [chars "DESC:" ++ s.desc] else []) ++
    ((s.other_fields.filter fun f => (pyStrip f).length > 0).map pyStrip)

/-- The spell_dict state after parsing all the Pathfinder-encoded tokens
of a clean record. -/
def sdFinal (s : Spell) : SD where
  name := s.name
  classes := s.classes
  class_suffix := s.class_suffix
  verbal := s.verbal
  somatic := s.somatic
  material := s.material
  focus := s.focus
  divine_focus := s.divine_focus
  arcane := s.arcane
  divine := s.divine
  psychic := s.psychic
  school := s.school
  casting_time := s.casting_time
  range := s.range
  duration := s.duration
  desc := s.desc
  sr := s.sr
  save := s.save
  target := s.target
  descriptors := s.descriptors
  subschool := s.subschool
  material_desc := []
  other_fields := s.other_fields

/-! ## Concrete data used by specific claims -/

/-- The record line of the concrete scenario in the spec. -/
def fireballLine : Str :=
  chars "Fireball\t\t\tTYPE:Arcane\tCLASSES:Wizard,Sorcerer=3\tSCHOOL:Evocation\tCOMPS:V,S,M\tCASTTIME:1 standard action\tRANGE:Long\tDURATION:Instantaneous\tDESC:A ball of fire."

/-- The spell value the decoder produces for fireballLine. -/
def fireballSpell : Spell where
  name := chars "Fireball"
  school := chars "Evocation"
  subschool := []
  casting_time := chars "1 standard action"
  range := chars "Long"
  save := []
  target := []
  duration := chars "Instantaneous"
  sr := []
  desc := chars "A ball of fire."
  material_desc := []
  class_suffix := []
  classes := [[], [], [], [chars "Wizard", chars "Sorcerer"], [], [], [], [], [], []]
  arcane := true
  divine := false
  psychic := false
  verbal := true
  somatic := true
  material := true
  focus := false
  divine_focus := false
  descriptors := []
  other_fields := []
  mode := chars "Pathfinder 1e"

/-- A record line whose COMPS token carries a material description; under
any rule system other than D&D 5e the encoder drops that description. -/
def lossLine : Str := chars "X\tCOMPS:M,V (gold)\tCASTTIME:1 action"

/-- The spell value the decoder produces for lossLine. -/
def lossSpell : Spell where
  name := chars "X"
  school := []
  subschool := []
  casting_time := chars "1 action"
  range := []
  save := []
  target := []
  duration := []
  sr := []
  desc := []
  material_desc := chars "gold"
  class_suffix := []
  classes := [[], [], [], [], [], [], [], [], [], []]
  arcane := false
  divine := false
  psychic := false
  verbal := true
  somatic := false
  material := true
  focus := false
  divine_focus := false
  descriptors := []
  other_fields := []
  mode := chars "Pathfinder 1e"

/-- A spell whose school token (59 characters stripped) overflows the
school column of nominal width 4 by 5 tab units. -/
def longSchoolSpell : Spell where
  name := chars "Y"
  school := chars "AbcdefghijklmnopqrstuvwxyzAbcdefghijklmnopqrstuvwxyz"
  subschool := []
  casting_time := []
  range := []
  save := []
  target := []
  duration := []
  sr := []
  desc := []
  material_desc := []
  class_suffix := []
  classes := [[], [], [], [], [], [], [], [], [], []]
  arcane := false
  divine := false
  psychic := false
  verbal := false
  somatic := false
  material := false
  focus := false
  divine_focus := false
  descriptors := []
  other_fields := []
  mode := chars "Pathfinder 1e"

/-- A default spell value, used only to state getD-based conclusions. -/
def defaultSpell : Spell := mkSpell (initSD [])

/-- The additive-merge relation between a spell before and after .MOD
processing: every field is unchanged except that the class suffix may be
extended on the right and each classes-by-level slot may have entries
appended on the right. -/
def spellExtends (s s' : Spell) : Prop :=
  s'.name = s.name ∧ s'.school = s.school ∧ s'.subschool = s.subschool ∧
    s'.casting_time = s.casting_time ∧ s'.range = s.range ∧ s'.save = s.save ∧
    s'.target = s.target ∧ s'.duration = s.duration ∧ s'.sr = s.sr ∧
    s'.desc = s.desc ∧ s'.material_desc = s.material_desc ∧
    s.class_suffix.isPrefixOf s'.class_suffix = true ∧
    s'.arcane = s.arcane ∧ s'.divine = s.divine ∧ s'.psychic = s.psychic ∧
    s'.verbal = s.verbal ∧ s'.somatic = s.somatic ∧ s'.material = s.material ∧
    s'.focus = s.focus ∧ s'.divine_focus = s.divine_focus ∧
    s'.descriptors = s.descriptors ∧ s'.other_fields = s.other_fields ∧
    s'.mode = s.mode ∧ s'.classes.length = s.classes.length ∧
    ∀ j, j < s.classes.length →
      (s.classes.getD j []).isPrefixOf (s'.classes.getD j []) = true

instance (s s' : Spell) : Decidable (spellExtends s s') := by
  unfold spellExtends; infer_instance

/-- The line-shape invariant maintained while Spell.str builds its output:
the nonempty tab-separated tokens so far, a name prefix, and a
stripped-body-plus-tab-padding decomposition. -/
def lineShape (nm out : Str) (toks : List Str) : Prop :=
  tokensOf out = nm :: toks ∧ (∃ r2, out = nm ++ r2) ∧
    (∃ b k, out = b ++ List.replicate k '\t' ∧ pyStripRight b = b ∧ b ≠ []) ∧
    hasSub (chars ".MOD") out = false ∧ hasSub (chars "SOURCELONG") out = false

/-- The facts about one emitted token that the line-shape and
classification arguments need. -/
def TokOk (tok : Str) : Prop :=
  tok.contains '\t' = false ∧ tok ≠ [] ∧ pyIsSpace (tok.getLastD ' ') = false ∧
    hasSub (chars ".MOD") tok = false ∧ hasSub (chars "SOURCELONG") tok = false

instance (tok : Str) : Decidable (TokOk tok) := by
  unfold TokOk; infer_instance

/-- A level group that the claim calls malformed: no level at all, a
non-integer level, or an integer level that is not a valid index into the
ten level slots (greater than 9 or less than -10). -/
def badLevelB (g : Str) : Bool :=
  match (splitFirst '=' g).2 with
  | none => true
  | some lv =>
    match pyInt lv with
    | none => true
    | some n => decide (9 < n) || decide (n < -10)

end PCGen

namespace PCGen

/-! ## Helper lemmas -/

theorem payDebtGo_spec (f : Nat) (t e : Int) (ht : 0 ≤ t) (he : 0 ≤ e)
    (hf : e.toNat ≤ f) : payDebtGo f t e = (t - min t e, e - min t e) := by
  induction f generalizing t e with
  | zero =>
    have he0 : e = 0 := by omega
    subst he0
    simp only [payDebtGo, Prod.mk.injEq]
    constructor <;> omega
  | succ f ih =>
    rw [payDebtGo]
    by_cases h : t > 0 ∧ e > 0
    · rw [if_pos h]
      rw [ih (t - 1) (e - 1) (by omega) (by omega) (by omega)]
      simp only [Prod.mk.injEq]
      constructor <;> omega
    · rw [if_neg h]
      simp only [Prod.mk.injEq]
      constructor <;> omega

theorem payDebt_spec (t e : Int) (ht : 0 ≤ t) (he : 0 ≤ e) :
    payDebt t e = (t - min t e, e - min t e) :=
  payDebtGo_spec e.toNat t e ht he le_rfl

theorem isPrefixOf_iff_exists [BEq α] [LawfulBEq α] (a b : List α) :
    a.isPrefixOf b = true ↔ ∃ t, a ++ t = b := by
  induction a generalizing b with
  | nil => simp [List.isPrefixOf]
  | cons x xs ih =>
    cases b with
    | nil => simp [List.isPrefixOf]
    | cons y ys =>
      simp only [List.isPrefixOf, Bool.and_eq_true, beq_iff_eq, ih, List.cons_append,
        List.cons.injEq]
      constructor
      · rintro ⟨rfl, t, rfl⟩
        exact ⟨t, rfl, rfl⟩
      · rintro ⟨t, rfl, rfl⟩
        exact ⟨rfl, t, rfl⟩

theorem isPrefixOf_refl [BEq α] [LawfulBEq α] (a : List α) : a.isPrefixOf a = true :=
  (isPrefixOf_iff_exists a a).mpr ⟨[], by simp⟩

theorem isPrefixOf_append_right [BEq α] [LawfulBEq α] (a t : List α) :
    a.isPrefixOf (a ++ t) = true :=
  (isPrefixOf_iff_exists a (a ++ t)).mpr ⟨t, rfl⟩

theorem isPrefixOf_trans [BEq α] [LawfulBEq α] {a b c : List α}
    (h1 : a.isPrefixOf b = true)
    (h2 : b.isPrefixOf c = true) : a.isPrefixOf c = true := by
  obtain ⟨t1, rfl⟩ := (isPrefixOf_iff_exists a b).mp h1
  obtain ⟨t2, rfl⟩ := (isPrefixOf_iff_exists _ c).mp h2
  exact (isPrefixOf_iff_exists _ _).mpr ⟨t1 ++ t2, by simp⟩

theorem getD_set_self (l : List α) (j : Nat) (a d : α) (h : j < l.length) :
    (l.set j a).getD j d = a := by
  induction l generalizing j with
  | nil => simp at h
  | cons x xs ih =>
    cases j with
    | zero => simp
    | succ j => simpa using ih j (by simpa using h)

theorem getD_set_other (l : List α) (i j : Nat) (a d : α) (h : i ≠ j) :
    (l.set j a).getD i d = l.getD i d := by
  induction l generalizing i j with
  | nil => simp
  | cons x xs ih =>
    cases j with
    | zero =>
      cases i with
      | zero => exact absurd rfl h
      | succ i => simp
    | succ j =>
      cases i with
      | zero => simp
      | succ i => simpa using ih i j (fun hc => h (congrArg Nat.succ hc))

theorem spellExtends_refl (s : Spell) : spellExtends s s := by
  refine ⟨rfl, rfl, rfl, rfl, rfl, rfl, rfl, rfl, rfl, rfl, rfl, isPrefixOf_refl _,
    rfl, rfl, rfl, rfl, rfl, rfl, rfl, rfl, rfl, rfl, rfl, rfl, ?_⟩
  intro j _
  exact isPrefixOf_refl _

theorem spellExtends_trans {s1 s2 s3 : Spell} (h12 : spellExtends s1 s2)
    (h23 : spellExtends s2 s3) : spellExtends s1 s3 := by
  obtain ⟨a1, a2, a3, a4, a5, a6, a7, a8, a9, a10, a11, a12, a13, a14, a15, a16, a17,
    a18, a19, a20, a21, a22, a23, a24, a25⟩ := h12
  obtain ⟨b1, b2, b3, b4, b5, b6, b7, b8, b9, b10, b11, b12, b13, b14, b15, b16, b17,
    b18, b19, b20, b21, b22, b23, b24, b25⟩ := h23
  refine ⟨b1.trans a1, b2.trans a2, b3.trans a3, b4.trans a4, b5.trans a5, b6.trans a6,
    b7.trans a7, b8.trans a8, b9.trans a9, b10.trans a10, b11.trans a11,
    isPrefixOf_trans a12 b12, b13.trans a13, b14.trans a14, b15.trans a15,
    b16.trans a16, b17.trans a17, b18.trans a18, b19.trans a19, b20.trans a20,
    b21.trans a21, b22.trans a22, b23.trans a23, b24.trans a24, ?_⟩
  intro j hj
  exact isPrefixOf_trans (a25 j hj) (b25 j (a24 ▸ hj))

theorem pyIdx_lt {len : Nat} {i : Int} {j : Nat} (h : pyIdx len i = some j) :
    j < len := by
  unfold pyIdx at h
  by_cases h1 : 0 ≤ i
  · rw [if_pos h1] at h
    by_cases h2 : i < (len : Int)
    · rw [if_pos h2] at h
      cases h
      omega
    · rw [if_neg h2] at h
      cases h
  · rw [if_neg h1] at h
    by_cases h2 : -i ≤ (len : Int)
    · rw [if_pos h2] at h
      cases h
      omega
    · rw [if_neg h2] at h
      cases h

theorem mergeCasters_extends (cs : List Str) (n : Int) (sp sp2 : Spell)
    (h : mergeCasters cs n sp = .ok sp2) : spellExtends sp sp2 := by
  induction cs generalizing sp with
  | nil =>
    cases h
    exact spellExtends_refl _
  | cons c cs ih =>
    rw [mergeCasters] at h
    cases hidx : pyIdx sp.classes.length n with
    | none =>
      simp only [hidx] at h
      exact Res.noConfusion h
    | some j =>
      simp only [hidx] at h
      have hj : j < sp.classes.length := pyIdx_lt hidx
      refine spellExtends_trans ?_ (ih _ h)
      refine ⟨rfl, rfl, rfl, rfl, rfl, rfl, rfl, rfl, rfl, rfl, rfl, isPrefixOf_refl _,
        rfl, rfl, rfl, rfl, rfl, rfl, rfl, rfl, rfl, rfl, rfl, by simp, ?_⟩
      intro jj hjj
      by_cases hcase : jj = j
      · subst hcase
        rw [getD_set_self _ _ _ _ hj]
        exact isPrefixOf_append_right _ _
      · rw [getD_set_other _ _ _ _ _ hcase]
        exact isPrefixOf_refl _

theorem mergeGroups_extends (gs : List Str) (sp sp2 : Spell)
    (h : mergeGroups gs sp = .ok sp2) : spellExtends sp sp2 := by
  induction gs generalizing sp with
  | nil =>
    cases h
    exact spellExtends_refl _
  | cons g gs ih =>
    rw [mergeGroups] at h
    cases hpost : (splitFirst '=' g).2 with
    | none =>
      simp only [hpost] at h
      exact Res.noConfusion h
    | some lv =>
      simp only [hpost] at h
      cases hint : pyInt lv with
      | none =>
        simp only [hint] at h
        exact Res.noConfusion h
      | some n =>
        simp only [hint] at h
        cases hmc : mergeCasters (splitCh ',' (splitFirst '=' g).1) n sp with
        | err e =>
          simp only [hmc] at h
          exact Res.noConfusion h
        | ok spm =>
          simp only [hmc] at h
          exact spellExtends_trans (mergeCasters_extends _ _ _ _ hmc) (ih _ h)

theorem mergeClassesValue_extends (v : Str) (sp sp2 : Spell)
    (h : mergeClassesValue v sp = .ok sp2) : spellExtends sp sp2 := by
  unfold mergeClassesValue at h
  cases hbr : (stripBracketSq v).1 with
  | none =>
    simp only [hbr] at h
    exact mergeGroups_extends _ _ _ h
  | some su =>
    simp only [hbr] at h
    refine spellExtends_trans ?_ (mergeGroups_extends _ _ _ h)
    exact ⟨rfl, rfl, rfl, rfl, rfl, rfl, rfl, rfl, rfl, rfl, rfl,
      isPrefixOf_append_right _ _, rfl, rfl, rfl, rfl, rfl, rfl, rfl, rfl, rfl, rfl,
      rfl, rfl, fun j _ => isPrefixOf_refl _⟩

theorem modTokenLoop_extends (fuel : Nat) (toks : List Str) (i : Nat) (sp : Spell)
    (sp2 : Spell) (toks2 : List Str)
    (h : modTokenLoop fuel toks i sp = .ok (sp2, toks2)) : spellExtends sp sp2 := by
  induction fuel generalizing toks i sp with
  | zero =>
    cases h
    exact spellExtends_refl _
  | succ fuel ih =>
    rw [modTokenLoop] at h
    cases hget : toks.get? i with
    | none =>
      simp only [hget] at h
      cases h
      exact spellExtends_refl _
    | some t =>
      simp only [hget] at h
      by_cases hcl : ((chars "CLASSES:").isPrefixOf t &&
          !((chars "CLASSES:").isSuffixOf t)) = true
      · rw [if_pos hcl] at h
        cases hsp : (splitFirst ':' t).2 with
        | none =>
          simp only [hsp] at h
          exact Res.noConfusion h
        | some v =>
          simp only [hsp] at h
          cases hm : mergeClassesValue v sp with
          | err e =>
            simp only [hm] at h
            exact Res.noConfusion h
          | ok spm =>
            simp only [hm] at h
            exact spellExtends_trans (mergeClassesValue_extends _ _ _ hm) (ih _ _ _ h)
      · rw [if_neg hcl] at h
        exact ih _ _ _ h

theorem modSpellsLoop_spec (sps : List Spell) (nm : Str) (toks : List Str)
    (sps2 : List Spell) (toks2 : List Str)
    (h : modSpellsLoop sps nm toks = .ok (sps2, toks2)) :
    sps2.length = sps.length ∧
      (∀ i, i < sps.length →
        spellExtends (sps.getD i defaultSpell) (sps2.getD i defaultSpell)) ∧
      (∀ i, i < sps.length → (sps.getD i defaultSpell).name ≠ nm →
        sps2.getD i defaultSpell = sps.getD i defaultSpell) := by
  induction sps generalizing toks sps2 toks2 with
  | nil =>
    cases h
    exact ⟨rfl, fun i hi => absurd hi (by simp), fun i hi _ => absurd hi (by simp)⟩
  | cons sp rest ih =>
    rw [modSpellsLoop] at h
    by_cases hname : (sp.name == nm) = true
    · rw [if_pos hname] at h
      cases htl : modTokenLoop (toks.length + 1) toks 0 sp with
      | err e =>
        simp only [htl] at h
        exact Res.noConfusion h
      | ok pr =>
        obtain ⟨spb, toksb⟩ := pr
        simp only [htl] at h
        cases hrec : modSpellsLoop rest nm toksb with
        | err e =>
          simp only [hrec] at h
          exact Res.noConfusion h
        | ok pr2 =>
          obtain ⟨restb, toksc⟩ := pr2
          simp only [hrec] at h
          cases h
          obtain ⟨hlen, hext, hunt⟩ := ih _ _ _ hrec
          refine ⟨by simpa using hlen, ?_, ?_⟩
          · intro i hi
            cases i with
            | zero => simpa using modTokenLoop_extends _ _ _ _ _ _ htl
            | succ i => simpa using hext i (by simpa using hi)
          · intro i hi hne
            cases i with
            | zero =>
              exfalso
              exact hne (by simpa using eq_of_beq hname)
            | succ i => simpa using hunt i (by simpa using hi) (by simpa using hne)
    · rw [if_neg hname] at h
      cases hrec : modSpellsLoop rest nm toks with
      | err e =>
        simp only [hrec] at h
        exact Res.noConfusion h
      | ok pr2 =>
        obtain ⟨restb, toksc⟩ := pr2
        simp only [hrec] at h
        cases h
        obtain ⟨hlen, hext, hunt⟩ := ih _ _ _ hrec
        refine ⟨by simpa using hlen, ?_, ?_⟩
        · intro i hi
          cases i with
          | zero => simpa using spellExtends_refl sp
          | succ i => simpa using hext i (by simpa using hi)
        · intro i hi hne
          cases i with
          | zero => simp
          | succ i => simpa using hunt i (by simpa using hi) (by simpa using hne)

theorem processModLine_spec (line : Str) (spells : List Spell) (mods : List Str)
    (r : List Spell × List Str) (h : processModLine line spells mods = .ok r) :
    r.1.length = spells.length ∧
      (∀ i, i < spells.length →
        spellExtends (spells.getD i defaultSpell) (r.1.getD i defaultSpell)) ∧
      (∀ i, i < spells.length →
        (spells.getD i defaultSpell).name ≠
            replaceAll (chars ".MOD") [] ((tokensOf line).headD []) →
        r.1.getD i defaultSpell = spells.getD i defaultSpell) := by
  unfold processModLine at h
  cases htoks : tokensOf line with
  | nil =>
    simp only [htoks] at h
    exact Res.noConfusion h
  | cons t0 rest =>
    simp only [htoks] at h
    cases hloop : modSpellsLoop spells (replaceAll (chars ".MOD") [] t0) (t0 :: rest) with
    | err e =>
      simp only [hloop] at h
      exact Res.noConfusion h
    | ok pr =>
      obtain ⟨sps2, toks2⟩ := pr
      simp only [hloop] at h
      cases h
      obtain ⟨hlen, hext, hunt⟩ := modSpellsLoop_spec _ _ _ _ _ hloop
      exact ⟨hlen, hext, fun i hi hne => hunt i hi (by simpa using hne)⟩

theorem processLine_modBranch (st : DState) (raw : Str)
    (hsrc : hasSub (chars "SOURCELONG") (pyStrip raw) = false)
    (hmod : hasSub (chars ".MOD") (pyStrip raw) = true) :
    processLine st raw =
      match processModLine (pyStrip raw) st.spells st.mods with
      | .err e => .err e
      | .ok pr => .ok ⟨st.header, pr.1, pr.2⟩ := by
  cases hp : processModLine (pyStrip raw) st.spells st.mods with
  | err e => simp [processLine, hsrc, hmod, hp]
  | ok pr => simp [processLine, hsrc, hmod, hp]

theorem map_name_of_extends (l l2 : List Spell) (hlen : l2.length = l.length)
    (hext : ∀ i, i < l.length →
      spellExtends (l.getD i defaultSpell) (l2.getD i defaultSpell)) :
    l2.map Spell.name = l.map Spell.name := by
  induction l generalizing l2 with
  | nil =>
    cases l2 with
    | nil => rfl
    | cons a tl => simp at hlen
  | cons x xs ih =>
    cases l2 with
    | nil => simp at hlen
    | cons y ys =>
      have h0 := (hext 0 (by simp)).1
      simp only [List.getD_cons_zero] at h0
      have htl : ys.map Spell.name = xs.map Spell.name := by
        refine ih ys (by simpa using hlen) ?_
        intro i hi
        simpa using hext (i + 1) (by simpa using hi)
      simp [h0, htl]

theorem modTokenLoop_skip (fuel : Nat) (toks : List Str) (i : Nat) (sp : Spell)
    (h : ∀ k t, i ≤ k → toks.get? k = some t →
      (chars "CLASSES:").isPrefixOf t = false) :
    modTokenLoop fuel toks i sp = .ok (sp, toks) := by
  induction fuel generalizing i with
  | zero => rfl
  | succ fuel ih =>
    cases hget : toks.get? i with
    | none => simp only [modTokenLoop, hget]
    | some t =>
      have hpre := h i t le_rfl hget
      have hcond : ((chars "CLASSES:").isPrefixOf t &&
          !((chars "CLASSES:").isSuffixOf t)) = false := by simp [hpre]
      simp only [modTokenLoop, hget, hcond, Bool.false_eq_true, if_false]
      exact ih (i + 1) fun k t hk => h k t (by omega)

theorem modSpellsLoop_inert (sps : List Spell) (nm : Str) (toks : List Str)
    (h : ∀ t, t ∈ toks → (chars "CLASSES:").isPrefixOf t = false) :
    modSpellsLoop sps nm toks = .ok (sps, toks) := by
  induction sps with
  | nil => rfl
  | cons sp rest ih =>
    have hskip := modTokenLoop_skip (toks.length + 1) toks 0 sp
      fun k t _ hget => h t (List.get?_mem hget)
    by_cases hname : (sp.name == nm) = true
    · simp only [modSpellsLoop, if_pos hname, hskip, ih]
    · simp only [modSpellsLoop, if_neg hname, ih]

theorem modSpellsLoop_nomatch (sps : List Spell) (nm : Str) (toks : List Str)
    (h : ∀ sp, sp ∈ sps → sp.name ≠ nm) :
    modSpellsLoop sps nm toks = .ok (sps, toks) := by
  induction sps with
  | nil => rfl
  | cons sp rest ih =>
    have hname : (sp.name == nm) = false := by simp [h sp (by simp)]
    simp only [modSpellsLoop, hname, Bool.false_eq_true, if_false,
      ih fun s hs => h s (by simp [hs])]

theorem tokenLoop_consume (n c : Str) (rest : List Str) (v : Str) (sp sp2 : Spell)
    (fuel : Nat)
    (hn : (chars "CLASSES:").isPrefixOf n = false)
    (hc1 : (chars "CLASSES:").isPrefixOf c = true)
    (hc2 : (chars "CLASSES:").isSuffixOf c = false)
    (hrest : ∀ t, t ∈ rest → (chars "CLASSES:").isPrefixOf t = false)
    (hv : (splitFirst ':' c).2 = some v)
    (hmerge : mergeClassesValue v sp = .ok sp2) :
    modTokenLoop (fuel + 1 + 1) (n :: c :: rest) 0 sp = .ok (sp2, n :: rest) := by
  have hne : n ≠ c := fun hh => by rw [hh, hc1] at hn; exact Bool.noConfusion hn
  have hcond0 : ((chars "CLASSES:").isPrefixOf n &&
      !((chars "CLASSES:").isSuffixOf n)) = false := by simp [hn]
  have hcond1 : ((chars "CLASSES:").isPrefixOf c &&
      !((chars "CLASSES:").isSuffixOf c)) = true := by simp [hc1, hc2]
  have hrem : removeFirst c (n :: c :: rest) = n :: rest := by
    unfold removeFirst
    rw [if_neg (by simp [hne])]
    unfold removeFirst
    rw [if_pos (by simp)]
  have hskip : modTokenLoop fuel (n :: rest) (0 + 1 + 1) sp2 = .ok (sp2, n :: rest) := by
    apply modTokenLoop_skip
    intro k t hk hget
    match k, hk with
    | k + 2, _ =>
      have hmem : rest.get? (k + 1) = some t := by simpa using hget
      exact hrest t (List.get?_mem hmem)
  simp only [modTokenLoop, List.get?, hcond0, hcond1, Bool.false_eq_true, if_false,
    if_true, hv, hmerge, hrem, hskip]

theorem modSpellsLoop_consume (sps : List Spell) (nm : Str) (n c : Str)
    (rest : List Str) (v : Str) (j : Nat) (sp2 : Spell)
    (hn : (chars "CLASSES:").isPrefixOf n = false)
    (hc1 : (chars "CLASSES:").isPrefixOf c = true)
    (hc2 : (chars "CLASSES:").isSuffixOf c = false)
    (hrest : ∀ t, t ∈ rest → (chars "CLASSES:").isPrefixOf t = false)
    (hv : (splitFirst ':' c).2 = some v)
    (hj : j < sps.length)
    (hname : (sps.getD j defaultSpell).name = nm)
    (hbefore : ∀ i, i < j → (sps.getD i defaultSpell).name ≠ nm)
    (hmerge : mergeClassesValue v (sps.getD j defaultSpell) = .ok sp2) :
    modSpellsLoop sps nm (n :: c :: rest) = .ok (sps.set j sp2, n :: rest) := by
  induction sps generalizing j with
  | nil => simp at hj
  | cons sp tail ih =>
    cases j with
    | zero =>
      simp only [List.getD_cons_zero] at hname hmerge
      have hbeq : (sp.name == nm) = true := by simp [hname]
      have hinert : modSpellsLoop tail nm (n :: rest) = .ok (tail, n :: rest) := by
        apply modSpellsLoop_inert
        intro t ht
        rcases List.mem_cons.mp ht with rfl | htl
        · exact hn
        · exact hrest t htl
      have htok : modTokenLoop ((n :: c :: rest).length + 1) (n :: c :: rest) 0 sp =
          .ok (sp2, n :: rest) := by
        simp only [List.length_cons]
        exact tokenLoop_consume n c rest v sp sp2 (rest.length + 1) hn hc1 hc2 hrest
          hv hmerge
      simp only [modSpellsLoop, hbeq, if_true, htok, hinert, List.set]
    | succ j =>
      have hne := hbefore 0 (by omega)
      simp only [List.getD_cons_zero] at hne
      simp only [List.getD_cons_succ] at hname hmerge
      have hbeq : (sp.name == nm) = false := by simp [hne]
      have hrec := ih j (by simpa using hj) hname
        (fun i hi => by simpa using hbefore (i + 1) (by omega)) hmerge
      simp only [modSpellsLoop, hbeq, Bool.false_eq_true, if_false, hrec, List.set]

theorem isPrefixOf_ne_head [BEq α] [LawfulBEq α] {a b : α} (h : a ≠ b)
    (as bs : List α) : (a :: as).isPrefixOf (b :: bs) = false := by
  simp [List.isPrefixOf, h]

theorem pySetL_len {l : List α} {i : Int} {a : α} {l2 : List α}
    (h : pySetL l i a = some l2) : l2.length = l.length := by
  unfold pySetL at h
  cases hidx : pyIdx l.length i with
  | none => rw [hidx] at h; exact Option.noConfusion h
  | some j =>
    rw [hidx] at h
    cases h
    simp

theorem parseClassesGroups_len (gs : List Str) (cl cl2 : List (List Str))
    (h : parseClassesGroups gs cl = .ok cl2) : cl2.length = cl.length := by
  induction gs generalizing cl with
  | nil => cases h; rfl
  | cons g gs ih =>
    rw [parseClassesGroups] at h
    cases hpost : (splitFirst '=' g).2 with
    | none =>
      simp only [hpost] at h
      exact Res.noConfusion h
    | some lv =>
      simp only [hpost] at h
      cases hint : pyInt lv with
      | none =>
        simp only [hint] at h
        exact Res.noConfusion h
      | some n =>
        simp only [hint] at h
        cases hset : pySetL cl n (splitCh ',' (splitFirst '=' g).1) with
        | none =>
          simp only [hset] at h
          exact Res.noConfusion h
        | some cl3 =>
          simp only [hset] at h
          rw [ih cl3 h]
          exact pySetL_len hset

theorem parseComps_classes (cs : List Str) (sd : SD) :
    (parseComps cs sd).classes = sd.classes := by
  induction cs generalizing sd with
  | nil => rfl
  | cons c cs ih =>
    rw [parseComps, ih]
    repeat' split
    all_goals rfl

theorem pyIdx_ten_none {n : Int} (h : 9 < n ∨ n < -10) : pyIdx 10 n = none := by
  unfold pyIdx
  by_cases h1 : 0 ≤ n
  · rw [if_pos h1, if_neg (by omega)]
  · rw [if_neg h1, if_neg (by omega)]

theorem parseClassesGroups_err (gs : List Str) (cl : List (List Str)) (g : Str)
    (hmem : g ∈ gs) (hbad : badLevelB g = true) (hlen : cl.length = 10) :
    ∃ e, parseClassesGroups gs cl = .err e := by
  induction gs generalizing cl with
  | nil => exact absurd hmem (List.not_mem_nil g)
  | cons g0 gs ih =>
    rcases List.mem_cons.mp hmem with rfl | htail
    · unfold badLevelB at hbad
      cases hpost : (splitFirst '=' g).2 with
      | none => exact ⟨.indexError, by simp only [parseClassesGroups, hpost]⟩
      | some lv =>
        simp only [hpost] at hbad
        cases hint : pyInt lv with
        | none => exact ⟨.valueError, by simp only [parseClassesGroups, hpost, hint]⟩
        | some n =>
          simp only [hint] at hbad
          have hrange : 9 < n ∨ n < -10 := by
            rcases Bool.or_eq_true_iff.mp hbad with hh | hh
            · exact Or.inl (of_decide_eq_true hh)
            · exact Or.inr (of_decide_eq_true hh)
          have hset : pySetL cl n (splitCh ',' (splitFirst '=' g).1) = none := by
            unfold pySetL
            rw [hlen, pyIdx_ten_none hrange]
          exact ⟨.indexError, by simp only [parseClassesGroups, hpost, hint, hset]⟩
    · rw [parseClassesGroups]
      cases hpost : (splitFirst '=' g0).2 with
      | none => exact ⟨.indexError, by simp only [hpost]⟩
      | some lv =>
        cases hint : pyInt lv with
        | none => exact ⟨.valueError, by simp only [hpost, hint]⟩
        | some n =>
          cases hset : pySetL cl n (splitCh ',' (splitFirst '=' g0).1) with
          | none => exact ⟨.indexError, by simp only [hpost, hint, hset]⟩
          | some cl3 =>
            have hlen3 : cl3.length = 10 := (pySetL_len hset).trans hlen
            obtain ⟨e, he⟩ := ih cl3 htail hlen3
            exact ⟨e, by simp only [hpost, hint, hset, he]⟩

theorem recStep_err (sd : SD) (tok : Str) (v g : Str)
    (hlen : sd.classes.length = 10)
    (hc1 : (chars "CLASSES:").isPrefixOf (pyStrip tok) = true)
    (hc2 : (chars "CLASSES:").isSuffixOf (pyStrip tok) = false)
    (hv : (splitFirst ':' (pyStrip tok)).2 = some v)
    (hg : g ∈ splitCh '|' (stripBracketSq v).2)
    (hbad : badLevelB g = true) :
    ∃ e, recStep sd tok = .err e := by
  obtain ⟨tl, htl⟩ := (isPrefixOf_iff_exists _ _).mp hc1
  have htype : (chars "TYPE:").isPrefixOf (pyStrip tok) = false := by
    rw [← htl]
    exact isPrefixOf_ne_head (by decide) _ _
  have hcls : ((chars "CLASSES:").isPrefixOf (pyStrip tok) &&
      !((chars "CLASSES:").isSuffixOf (pyStrip tok))) = true := by
    simp [hc1, hc2]
  have hlen2 : (match (stripBracketSq v).1 with
      | some su => { sd with class_suffix := su }
      | none => sd).classes = sd.classes := by
    cases (stripBracketSq v).1 <;> rfl
  obtain ⟨e, he⟩ := parseClassesGroups_err (splitCh '|' (stripBracketSq v).2)
    sd.classes g hg hbad hlen
  refine ⟨e, ?_⟩
  unfold recStep recStepT
  rw [if_neg (by simp [htype]), if_pos hcls, hv]
  simp only [hlen2, he, Res.map]

theorem recStepT_classes_len (sd : SD) (tok : Str) (sd2 : SD)
    (h : recStepT sd tok = .ok sd2) : sd2.classes.length = sd.classes.length := by
  unfold recStepT at h
  by_cases c1 : (chars "TYPE:").isPrefixOf tok = true
  · rw [if_pos c1] at h
    cases h
    rfl
  · rw [if_neg c1] at h
    by_cases c2 : ((chars "CLASSES:").isPrefixOf tok && !((chars "CLASSES:").isSuffixOf tok)) = true
    · rw [if_pos c2] at h
      cases hsp : (splitFirst ':' tok).2 with
      | none =>
        simp only [hsp] at h
        exact Res.noConfusion h
      | some v =>
        simp only [hsp] at h
        have hbase : (match (stripBracketSq v).1 with
            | some su => { sd with class_suffix := su }
            | none => sd).classes = sd.classes := by
          cases (stripBracketSq v).1 <;> rfl
        cases hp : parseClassesGroups (splitCh '|' (stripBracketSq v).2)
            (match (stripBracketSq v).1 with
              | some su => { sd with class_suffix := su }
              | none => sd).classes with
        | err e =>
          simp only [hp, Res.map] at h
          exact Res.noConfusion h
        | ok cl =>
          simp only [hp, Res.map] at h
          cases h
          rw [← hbase]
          exact parseClassesGroups_len _ _ _ hp
    · rw [if_neg c2] at h
      by_cases f0 : (chars "SCHOOL:").isPrefixOf tok = true
      · rw [if_pos f0] at h
        cases hsp : (splitFirst ':' tok).2 with
        | none =>
          simp only [hsp] at h
          exact Res.noConfusion h
        | some v =>
          simp only [hsp] at h
          cases h
          rfl
      · rw [if_neg f0] at h
        by_cases f1 : (chars "SUBSCHOOL:").isPrefixOf tok = true
        · rw [if_pos f1] at h
          cases hsp : (splitFirst ':' tok).2 with
          | none =>
            simp only [hsp] at h
            exact Res.noConfusion h
          | some v =>
            simp only [hsp] at h
            cases h
            rfl
        · rw [if_neg f1] at h
          by_cases f2 : (chars "CASTTIME:").isPrefixOf tok = true
          · rw [if_pos f2] at h
            cases hsp : (splitFirst ':' tok).2 with
            | none =>
              simp only [hsp] at h
              exact Res.noConfusion h
            | some v =>
              simp only [hsp] at h
              cases h
              rfl
          · rw [if_neg f2] at h
            by_cases f3 : (chars "RANGE:").isPrefixOf tok = true
            · rw [if_pos f3] at h
              cases hsp : (splitFirst ':' tok).2 with
              | none =>
                simp only [hsp] at h
                exact Res.noConfusion h
              | some v =>
                simp only [hsp] at h
                cases h
                rfl
            · rw [if_neg f3] at h
              by_cases f4 : (chars "DURATION:").isPrefixOf tok = true
              · rw [if_pos f4] at h
                cases hsp : (splitFirst ':' tok).2 with
                | none =>
                  simp only [hsp] at h
                  exact Res.noConfusion h
                | some v =>
                  simp only [hsp] at h
                  cases h
                  rfl
              · rw [if_neg f4] at h
                by_cases f5 : (chars "TARGETAREA:").isPrefixOf tok = true
                · rw [if_pos f5] at h
                  cases hsp : (splitFirst ':' tok).2 with
                  | none =>
                    simp only [hsp] at h
                    exact Res.noConfusion h
                  | some v =>
                    simp only [hsp] at h
                    cases h
                    rfl
                · rw [if_neg f5] at h
                  by_cases f6 : (chars "SAVEINFO:").isPrefixOf tok = true
                  · rw [if_pos f6] at h
                    cases hsp : (splitFirst ':' tok).2 with
                    | none =>
                      simp only [hsp] at h
                      exact Res.noConfusion h
                    | some v =>
                      simp only [hsp] at h
                      cases h
                      rfl
                  · rw [if_neg f6] at h
                    by_cases f7 : (chars "SPELLRES:").isPrefixOf tok = true
                    · rw [if_pos f7] at h
                      cases hsp : (splitFirst ':' tok).2 with
                      | none =>
                        simp only [hsp] at h
                        exact Res.noConfusion h
                      | some v =>
                        simp only [hsp] at h
                        cases h
                        rfl
                    · rw [if_neg f7] at h
                      by_cases f8 : (chars "DESCRIPTOR:").isPrefixOf tok = true
                      · rw [if_pos f8] at h
                        cases hsp : (splitFirst ':' tok).2 with
                        | none =>
                          simp only [hsp] at h
                          exact Res.noConfusion h
                        | some v =>
                          simp only [hsp] at h
                          cases h
                          rfl
                      · rw [if_neg f8] at h
                        by_cases f9 : (chars "DESC:").isPrefixOf tok = true
                        · rw [if_pos f9] at h
                          cases hsp : (splitFirst ':' tok).2 with
                          | none =>
                            simp only [hsp] at h
                            exact Res.noConfusion h
                          | some v =>
                            simp only [hsp] at h
                            cases h
                            rfl
                        · rw [if_neg f9] at h
                          by_cases cc : (chars "COMPS:").isPrefixOf tok = true
                          · rw [if_pos cc] at h
                            cases hsp : (splitFirst ':' tok).2 with
                            | none =>
                              simp only [hsp] at h
                              exact Res.noConfusion h
                            | some v =>
                              simp only [hsp] at h
                              cases h
                              rw [parseComps_classes]
                              split <;> rfl
                          · rw [if_neg cc] at h
                            by_cases co : (!((chars "CLASSES:").isSuffixOf tok)) = true
                            · rw [if_pos co] at h
                              cases h
                              rfl
                            · rw [if_neg co] at h
                              cases h
                              rfl

theorem recStep_classes_len (sd : SD) (tok : Str) (sd2 : SD)
    (h : recStep sd tok = .ok sd2) : sd2.classes.length = sd.classes.length :=
  recStepT_classes_len sd (pyStrip tok) sd2 h

theorem foldRes_recStep_err (toks : List Str) (sd : SD) (tok v g : Str)
    (hmem : tok ∈ toks) (hlen : sd.classes.length = 10)
    (hc1 : (chars "CLASSES:").isPrefixOf (pyStrip tok) = true)
    (hc2 : (chars "CLASSES:").isSuffixOf (pyStrip tok) = false)
    (hv : (splitFirst ':' (pyStrip tok)).2 = some v)
    (hg : g ∈ splitCh '|' (stripBracketSq v).2)
    (hbad : badLevelB g = true) :
    ∃ e, foldRes recStep sd toks = .err e := by
  induction toks generalizing sd with
  | nil => exact absurd hmem (List.not_mem_nil tok)
  | cons x xs ih =>
    rcases List.mem_cons.mp hmem with rfl | htail
    · obtain ⟨e, he⟩ := recStep_err sd tok v g hlen hc1 hc2 hv hg hbad
      exact ⟨e, by simp only [foldRes, he]⟩
    · cases hx : recStep sd x with
      | err e => exact ⟨e, by simp only [foldRes, hx]⟩
      | ok sd3 =>
        have hlen3 : sd3.classes.length = 10 :=
          (recStep_classes_len sd x sd3 hx).trans hlen
        obtain ⟨e, he⟩ := ih sd3 htail hlen3
        exact ⟨e, by simp only [foldRes, hx, he]⟩

/-! ## String-structure lemmas for the round trip -/

theorem splitCh_ne_nil (sep : Char) (l : Str) : splitCh sep l ≠ [] := by
  cases l with
  | nil => simp [splitCh]
  | cons c rest =>
    rw [splitCh]
    by_cases h : c = sep
    · simp [h]
    · rw [if_neg h]
      cases hs : splitCh sep rest with
      | nil => simp
      | cons t ts => simp

theorem splitCh_append_cons (sep : Char) (a b : Str) :
    splitCh sep (a ++ sep :: b) = splitCh sep a ++ splitCh sep b := by
  induction a with
  | nil => simp [splitCh]
  | cons c rest ih =>
    by_cases h : c = sep
    · subst h
      show splitCh c (c :: (rest ++ c :: b)) = splitCh c (c :: rest) ++ splitCh c b
      rw [splitCh, if_pos rfl]
      conv_rhs => rw [splitCh, if_pos rfl]
      rw [ih]
      simp
    · show splitCh sep (c :: (rest ++ sep :: b)) = splitCh sep (c :: rest) ++ splitCh sep b
      rw [splitCh, if_neg h]
      conv_rhs => rw [splitCh, if_neg h]
      rw [ih]
      cases hs : splitCh sep rest with
      | nil => exact absurd hs (splitCh_ne_nil sep rest)
      | cons t ts => simp

theorem splitCh_no_sep (sep : Char) (a : Str) (h : a.contains sep = false) :
    splitCh sep a = [a] := by
  induction a with
  | nil => rfl
  | cons c rest ih =>
    have hcne : ¬c = sep := by
      intro hc
      subst hc
      simp [List.contains_cons] at h
    have h2 : rest.contains sep = false := by
      have := h
      simp only [List.contains_cons, Bool.or_eq_false_iff] at this
      exact this.2
    rw [splitCh, if_neg hcne, ih h2]

theorem tokensOf_nil : tokensOf [] = [] := rfl

theorem tokensOf_append_tab (a b : Str) :
    tokensOf (a ++ '\t' :: b) = tokensOf a ++ tokensOf b := by
  unfold tokensOf
  rw [splitCh_append_cons, List.filter_append]

theorem tokensOf_replicate (k : Nat) : tokensOf (List.replicate k '\t') = [] := by
  induction k with
  | zero => rfl
  | succ k ih =>
    have : List.replicate (k + 1) '\t' = ([] : Str) ++ '\t' :: List.replicate k '\t' := by
      simp [List.replicate_succ]
    rw [this, tokensOf_append_tab, ih, tokensOf_nil]
    rfl

theorem tokensOf_tabMul (t : Int) : tokensOf (tabMul t) = [] :=
  tokensOf_replicate t.toNat

theorem tokensOf_append_tabMul (a : Str) (t : Int) :
    tokensOf (a ++ tabMul t) = tokensOf a := by
  unfold tabMul
  generalize t.toNat = k
  induction k generalizing a with
  | zero => simp
  | succ k ih =>
    have : a ++ List.replicate (k + 1) '\t' = (a ++ ['\t']) ++ List.replicate k '\t' := by
      simp [List.replicate_succ, List.append_assoc]
    rw [this, ih, ← List.append_nil (a ++ ['\t'])]
    have h2 : a ++ ['\t'] ++ [] = a ++ '\t' :: [] := by simp
    rw [h2, tokensOf_append_tab, tokensOf_nil, List.append_nil]

theorem tokensOf_clean (a : Str) (h : a.contains '\t' = false) (hne : a ≠ []) :
    tokensOf a = [a] := by
  unfold tokensOf
  rw [splitCh_no_sep _ _ h]
  cases a with
  | nil => exact absurd rfl hne
  | cons c rest => rfl

theorem payAndPad_fst (out : Str) (t e : Int) :
    (payAndPad out t e).1 = out ++ tabMul (payDebt t e).1 := rfl

/-! ## Strip lemmas -/

theorem pyStripLeft_cons (c : Char) (x : Str) (h : pyIsSpace c = false) :
    pyStripLeft (c :: x) = c :: x := by
  simp [pyStripLeft, List.dropWhile, h]

theorem length_dropWhile_le (p : Char → Bool) (l : Str) :
    (l.dropWhile p).length ≤ l.length := by
  induction l with
  | nil => simp
  | cons c rest ih =>
    rw [List.dropWhile]
    cases p c with
    | true => exact le_trans ih (by simp)
    | false => simp

theorem pyStripLeft_length_le (x : Str) : (pyStripLeft x).length ≤ x.length :=
  length_dropWhile_le _ _

theorem pyStripRight_length_le (x : Str) : (pyStripRight x).length ≤ x.length := by
  unfold pyStripRight
  calc (pyStripLeft x.reverse).reverse.length
      = (pyStripLeft x.reverse).length := by simp
    _ ≤ x.reverse.length := pyStripLeft_length_le _
    _ = x.length := by simp

theorem pyStrip_length_le (x : Str) : (pyStrip x).length ≤ x.length :=
  le_trans (pyStripRight_length_le _) (pyStripLeft_length_le _)

theorem pyStripRight_last (y : Str) (c : Char) (h : pyIsSpace c = false) :
    pyStripRight (y ++ [c]) = y ++ [c] := by
  unfold pyStripRight
  rw [show (y ++ [c]).reverse = c :: y.reverse by simp]
  rw [show pyStripLeft (c :: y.reverse) = c :: y.reverse from pyStripLeft_cons c _ h]
  simp

theorem pyStrip_eq_self (x : Str) (hne : x ≠ [])
    (h1 : pyIsSpace (x.headD ' ') = false)
    (h2 : pyIsSpace (x.getLastD ' ') = false) : pyStrip x = x := by
  cases x with
  | nil => exact absurd rfl hne
  | cons c rest =>
    unfold pyStrip
    rw [show pyStripLeft (c :: rest) = c :: rest from pyStripLeft_cons c rest (by simpa using h1)]
    have hdec : c :: rest = (c :: rest).dropLast ++ [(c :: rest).getLast (by simp)] :=
      (List.dropLast_append_getLast (by simp)).symm
    rw [hdec, pyStripRight_last]
    rw [List.getLastD_eq_getLast?, List.getLast?_eq_getLast _ (by simp)] at h2
    simpa using h2

theorem pyStripRight_append_tabs (x : Str) (k : Nat) :
    pyStripRight (x ++ List.replicate k '\t') = pyStripRight x := by
  induction k generalizing x with
  | zero => simp
  | succ k ih =>
    have : x ++ List.replicate (k + 1) '\t' = (x ++ ['\t']) ++ List.replicate k '\t' := by
      simp [List.replicate_succ, List.append_assoc]
    rw [this, ih]
    unfold pyStripRight
    rw [List.reverse_append]
    simp [pyStripLeft, List.dropWhile, pyIsSpace]

theorem pyStrip_append_tabMul (x : Str) (t : Int) (hne : x ≠ [])
    (h1 : pyIsSpace (x.headD ' ') = false) :
    pyStrip (x ++ tabMul t) = pyStripRight x := by
  cases x with
  | nil => exact absurd rfl hne
  | cons c rest =>
    unfold pyStrip tabMul
    rw [show (c :: rest) ++ List.replicate t.toNat '\t' =
      c :: (rest ++ List.replicate t.toNat '\t') by simp]
    rw [pyStripLeft_cons c _ (by simpa using h1)]
    rw [show c :: (rest ++ List.replicate t.toNat '\t') =
      (c :: rest) ++ List.replicate t.toNat '\t' by simp]
    exact pyStripRight_append_tabs _ _

/-! ## Substring and token-shape lemmas -/

theorem isPrefixOf_longer [BEq α] [LawfulBEq α] {a b : List α}
    (h : b.length < a.length) : a.isPrefixOf b = false := by
  cases ha : a.isPrefixOf b with
  | false => rfl
  | true =>
    obtain ⟨t, rfl⟩ := (isPrefixOf_iff_exists _ _).mp ha
    simp only [List.length_append] at h
    omega

theorem isPrefixOf_append_left (p q v : Str) (h : p.length ≤ q.length) :
    p.isPrefixOf (q ++ v) = p.isPrefixOf q := by
  cases hq : p.isPrefixOf q with
  | true =>
    obtain ⟨t, rfl⟩ := (isPrefixOf_iff_exists _ _).mp hq
    rw [List.append_assoc]
    exact isPrefixOf_append_right _ _
  | false =>
    cases hqv : p.isPrefixOf (q ++ v) with
    | false => rfl
    | true =>
      exfalso
      obtain ⟨t, ht⟩ := (isPrefixOf_iff_exists _ _).mp hqv
      have htake : (q ++ v).take p.length = p := by
        rw [← ht]
        exact List.take_left p t
      rw [List.take_append_of_le_length h] at htake
      have hpq : p.isPrefixOf q = true :=
        (isPrefixOf_iff_exists _ _).mpr ⟨q.drop p.length, by
          have h3 := List.take_append_drop p.length q
          rw [htake] at h3
          exact h3⟩
      rw [hpq] at hq
      exact Bool.noConfusion hq

theorem isPrefixOf_append_sep (sub : Str) (c : Char) (a b : Str)
    (hc : sub.contains c = false) :
    sub.isPrefixOf (a ++ c :: b) = sub.isPrefixOf a := by
  by_cases h : sub.length ≤ a.length
  · exact isPrefixOf_append_left sub a _ h
  · push_neg at h
    rw [isPrefixOf_longer h]
    cases hp : sub.isPrefixOf (a ++ c :: b) with
    | false => rfl
    | true =>
      exfalso
      obtain ⟨t, ht⟩ := (isPrefixOf_iff_exists _ _).mp hp
      have hmem : c ∈ sub := by
        have : sub.get? a.length = some c := by
          have : (sub ++ t).get? a.length = some c := by
            rw [ht]
            rw [List.get?_append_right (by omega)]
            simp
          rwa [List.get?_append (by omega)] at this
        exact List.get?_mem this
      rw [List.contains_eq_any_beq] at hc
      simp only [List.any_eq_false] at hc
      exact absurd (by simp : (c == c) = true) (by simpa using hc c hmem)

theorem hasSub_append_sep (sub : Str) (c : Char) (a b : Str) (hne : sub ≠ [])
    (hc : sub.contains c = false) :
    hasSub sub (a ++ c :: b) = (hasSub sub a || hasSub sub b) := by
  induction a with
  | nil =>
    simp only [List.nil_append]
    have hp : sub.isPrefixOf (c :: b) = false := by
      cases sub with
      | nil => exact absurd rfl hne
      | cons s0 srest =>
        apply isPrefixOf_ne_head
        intro hh
        subst hh
        simp [List.contains_cons] at hc
    have hl : hasSub sub (c :: b) = (sub.isPrefixOf (c :: b) || hasSub sub b) := rfl
    have h0 : hasSub sub [] = false := by
      cases sub with
      | nil => exact absurd rfl hne
      | cons s0 srest => rfl
    rw [hl, hp, h0]
  | cons x a ih =>
    show hasSub sub (x :: (a ++ c :: b)) = _
    rw [hasSub, ih]
    rw [show (x :: (a ++ c :: b)) = (x :: a) ++ c :: b from rfl]
    rw [isPrefixOf_append_sep sub c (x :: a) b hc]
    rw [show hasSub sub (x :: a) = (sub.isPrefixOf (x :: a) || hasSub sub a) from rfl]
    cases sub.isPrefixOf (x :: a) <;> cases hasSub sub a <;> cases hasSub sub b <;> rfl

theorem hasSub_short (sub b : Str) (h : b.length < sub.length) :
    hasSub sub b = false := by
  induction b with
  | nil =>
    cases sub with
    | nil => simp at h
    | cons s0 srest => rfl
  | cons x bs ih =>
    rw [hasSub, isPrefixOf_longer h, ih (by simp at h; omega)]
    rfl

theorem hasSub_cons_false (sub : Str) (x : Char) (bs : Str)
    (h : hasSub sub (x :: bs) = false) : hasSub sub bs = false := by
  rw [hasSub] at h
  rcases Bool.or_eq_false_iff.mp h with ⟨_, h2⟩
  exact h2

theorem hasSub_append_sep_parts (sub : Str) (c : Char) (a b : Str) (hne : sub ≠ [])
    (hc : sub.contains c = false) (ha : hasSub sub a = false)
    (hb : hasSub sub b = false) : hasSub sub (a ++ c :: b) = false := by
  rw [hasSub_append_sep sub c a b hne hc, ha, hb]
  rfl

theorem hasSub_joinCh (sub : Str) (c : Char) (parts : List Str) (hne : sub ≠ [])
    (hc : sub.contains c = false) (h : ∀ p ∈ parts, hasSub sub p = false) :
    hasSub sub (joinCh c parts) = false := by
  induction parts with
  | nil =>
    cases sub with
    | nil => exact absurd rfl hne
    | cons s0 srest => rfl
  | cons p ps ih =>
    cases ps with
    | nil => exact h p (by simp)
    | cons q qs =>
      rw [show joinCh c (p :: q :: qs) = p ++ c :: joinCh c (q :: qs) from rfl]
      exact hasSub_append_sep_parts sub c _ _ hne hc (h p (by simp))
        (ih fun x hx => h x (by simp [hx]))

theorem hasSub_of_left (sub a b : Str) (h : hasSub sub a = true) :
    hasSub sub (a ++ b) = true := by
  induction a with
  | nil =>
    cases sub with
    | nil =>
      cases b with
      | nil => rfl
      | cons c rest => rfl
    | cons s0 srest => simp [hasSub, List.isPrefixOf] at h
  | cons x xs ih =>
    rw [List.cons_append, hasSub]
    rw [hasSub] at h
    rcases Bool.or_eq_true_iff.mp h with h1 | h2
    · have hp := isPrefixOf_trans h1 (isPrefixOf_append_right (x :: xs) b)
      rw [List.cons_append] at hp
      rw [hp]
      rfl
    · rw [ih h2]
      simp

theorem hasSub_left_false (sub a b : Str) (h : hasSub sub (a ++ b) = false) :
    hasSub sub a = false := by
  cases ha : hasSub sub a with
  | false => rfl
  | true => exact absurd h (by rw [hasSub_of_left sub a b ha]; simp)

theorem hasSub_append_tabs (sub x : Str) (k : Nat) (hne : sub ≠ [])
    (htab : sub.contains '\t' = false) (h : hasSub sub x = false) :
    hasSub sub (x ++ List.replicate k '\t') = false := by
  induction k with
  | zero => simpa using h
  | succ n ih =>
    rw [List.replicate_succ', ← List.append_assoc]
    have hnil : hasSub sub [] = false := by
      cases sub with
      | nil => exact absurd rfl hne
      | cons s0 srest => rfl
    exact hasSub_append_sep_parts sub '\t' _ [] hne htab ih hnil

theorem splitFirst_marker (sep : Char) (p x : Str) (h : p.contains sep = false) :
    splitFirst sep (p ++ sep :: x) = (p, some x) := by
  induction p with
  | nil => simp [splitFirst]
  | cons c rest ih =>
    have hcne : ¬c = sep := by
      intro hc
      subst hc
      simp [List.contains_cons] at h
    have h2 : rest.contains sep = false := by
      have := h
      simp only [List.contains_cons, Bool.or_eq_false_iff] at this
      exact this.2
    show splitFirst sep (c :: (rest ++ sep :: x)) = _
    rw [splitFirst, if_neg hcne, ih h2]

theorem splitCh_joinCh (sep : Char) (parts : List Str) (hne : parts ≠ [])
    (h : ∀ p ∈ parts, p.contains sep = false) :
    splitCh sep (joinCh sep parts) = parts := by
  induction parts with
  | nil => exact absurd rfl hne
  | cons p ps ih =>
    cases ps with
    | nil =>
      rw [show joinCh sep [p] = p from rfl]
      exact splitCh_no_sep sep p (h p (by simp))
    | cons q qs =>
      rw [show joinCh sep (p :: q :: qs) = p ++ sep :: joinCh sep (q :: qs) from rfl]
      rw [splitCh_append_cons, splitCh_no_sep sep p (h p (by simp))]
      rw [ih (by simp) fun x hx => h x (by simp [hx])]
      rfl

theorem idxOfCh_append_not_mem (c : Char) (a b : Str) (h : a.contains c = false) :
    idxOfCh c (a ++ b) = a.length + idxOfCh c b := by
  induction a with
  | nil => simp [idxOfCh]
  | cons x rest ih =>
    have hcne : ¬x = c := by
      intro hc
      subst hc
      simp [List.contains_cons] at h
    have h2 : rest.contains c = false := by
      have := h
      simp only [List.contains_cons, Bool.or_eq_false_iff] at this
      exact this.2
    show idxOfCh c (x :: (rest ++ b)) = _
    rw [idxOfCh, if_neg hcne, ih h2]
    simp
    omega

theorem idxOfCh_cons_self (c : Char) (x : Str) : idxOfCh c (c :: x) = 0 := by
  simp [idxOfCh]

theorem pySlice_middle (a b : Str) :
    pySlice (a ++ b) a.length (a.length + b.length) = b := by
  unfold pySlice
  rw [show a.length + b.length = (a ++ b).length by simp]
  rw [List.take_length]
  exact List.drop_left a b

theorem pySlice_left (a b : Str) : pySlice (a ++ b) 0 a.length = a := by
  unfold pySlice
  rw [List.take_left]
  rfl

theorem isSuffixOf_last_ne (d : Char) (x : Str) (c : Char)
    (hpne : ¬c = d) (y : Str) :
    (x ++ [c]).isSuffixOf (y ++ [d]) = false := by
  show ((x ++ [c]).reverse.isPrefixOf (y ++ [d]).reverse) = false
  rw [show (x ++ [c]).reverse = c :: x.reverse by simp]
  rw [show (y ++ [d]).reverse = d :: y.reverse by simp]
  exact isPrefixOf_ne_head hpne _ _

theorem pyInt_natDigits (n : Nat) (h : n < 10) : pyInt (natDigits n) = some n := by
  interval_cases n <;> decide

/-! ## Line-shape invariant for the encoder -/

/-- The invariant maintained along Spell.str's construction: the nonempty
tokens so far are the name followed by toks, the line extends the name,
and the line is a right-stripped body followed by padding tabs. -/
theorem dropWhile_eq_self_of_length (p : Char → Bool) (l : Str)
    (h : (l.dropWhile p).length = l.length) : l.dropWhile p = l := by
  cases l with
  | nil => rfl
  | cons c rest =>
    rw [List.dropWhile]
    cases hp : p c with
    | false => rfl
    | true =>
      exfalso
      rw [List.dropWhile, hp] at h
      have := length_dropWhile_le p rest
      simp at h
      omega

theorem pyStripLeft_of_strip (x : Str) (h : pyStrip x = x) : pyStripLeft x = x := by
  have h1 : (pyStripLeft x).length ≤ x.length := pyStripLeft_length_le x
  have h2 : (pyStrip x).length ≤ (pyStripLeft x).length := pyStripRight_length_le _
  rw [h] at h2
  apply dropWhile_eq_self_of_length
  unfold pyStripLeft at h1 h2
  omega

theorem pyStripRight_of_strip (x : Str) (h : pyStrip x = x) : pyStripRight x = x := by
  have h1 := pyStripLeft_of_strip x h
  unfold pyStrip at h
  rwa [h1] at h

theorem pyStrip_head_not_space (x : Str) (h : pyStrip x = x) (hne : x ≠ []) :
    pyIsSpace (x.headD ' ') = false := by
  cases x with
  | nil => exact absurd rfl hne
  | cons c rest =>
    have h1 := pyStripLeft_of_strip _ h
    unfold pyStripLeft at h1
    rw [List.dropWhile] at h1
    cases hp : pyIsSpace c with
    | false => simpa using hp
    | true =>
      exfalso
      rw [hp] at h1
      have := length_dropWhile_le pyIsSpace rest
      have h2 := congrArg List.length h1
      simp at h2
      omega

theorem pyStrip_last_not_space (x : Str) (h : pyStrip x = x) (hne : x ≠ []) :
    pyIsSpace (x.getLastD ' ') = false := by
  have h1 := pyStripRight_of_strip x h
  unfold pyStripRight at h1
  cases hx : x.reverse with
  | nil =>
    exfalso
    apply hne
    simpa using congrArg List.reverse hx
  | cons c rest =>
    have hlast : x.getLastD ' ' = c := by
      have : x = (c :: rest).reverse := by
        rw [← hx]
        simp
      rw [this]
      simp [List.getLastD_eq_getLast?]
    rw [hlast]
    rw [hx] at h1
    unfold pyStripLeft at h1
    rw [List.dropWhile] at h1
    cases hp : pyIsSpace c with
    | false => rfl
    | true =>
      exfalso
      rw [hp] at h1
      have h2 := congrArg List.length h1
      have h4 := length_dropWhile_le pyIsSpace rest
      have h3 : x.length = rest.length + 1 := by
        have h5 := congrArg List.length hx
        simpa using h5
      simp at h2
      omega

theorem lineShape_init (nm : Str) (k : Nat) (hne : nm ≠ [])
    (hstrip : pyStrip nm = nm) (hnotab : nm.contains '\t' = false)
    (hmod : hasSub (chars ".MOD") nm = false)
    (hsrc : hasSub (chars "SOURCELONG") nm = false) :
    lineShape nm (nm ++ List.replicate k '\t') [] := by
  refine ⟨?_, ⟨List.replicate k '\t', rfl⟩,
    ⟨nm, k, rfl, pyStripRight_of_strip nm hstrip, hne⟩,
    hasSub_append_tabs _ _ _ (by decide) (by decide) hmod,
    hasSub_append_tabs _ _ _ (by decide) (by decide) hsrc⟩
  rw [show nm ++ List.replicate k '\t' = nm ++ tabMul (k : Int) by simp [tabMul]]
  rw [tokensOf_append_tabMul, tokensOf_clean nm hnotab hne]

theorem lineShape_pad (nm out : Str) (toks : List Str) (t e : Int)
    (h : lineShape nm out toks) : lineShape nm (payAndPad out t e).1 toks := by
  obtain ⟨h1, ⟨r2, hr2⟩, ⟨b, k, hb, hbs, hbne⟩, hmod, hsrc⟩ := h
  rw [payAndPad_fst]
  refine ⟨?_, ⟨r2 ++ tabMul (payDebt t e).1, by rw [hr2, List.append_assoc]⟩,
    ⟨b, k + (payDebt t e).1.toNat, ?_, hbs, hbne⟩,
    hasSub_append_tabs _ _ _ (by decide) (by decide) hmod,
    hasSub_append_tabs _ _ _ (by decide) (by decide) hsrc⟩
  · rw [tokensOf_append_tabMul, h1]
  · rw [hb, List.append_assoc]
    unfold tabMul
    rw [← List.replicate_add]

theorem lineShape_tabs (nm out : Str) (toks : List Str) (j : Nat)
    (h : lineShape nm out toks) :
    lineShape nm (out ++ List.replicate j '\t') toks := by
  obtain ⟨h1, ⟨r2, hr2⟩, ⟨b, k, hb, hbs, hbne⟩, hmod, hsrc⟩ := h
  refine ⟨?_, ⟨r2 ++ List.replicate j '\t', by rw [hr2, List.append_assoc]⟩,
    ⟨b, k + j, ?_, hbs, hbne⟩,
    hasSub_append_tabs _ _ _ (by decide) (by decide) hmod,
    hasSub_append_tabs _ _ _ (by decide) (by decide) hsrc⟩
  · rw [show out ++ List.replicate j '\t' = out ++ tabMul (j : Int) by simp [tabMul]]
    rw [tokensOf_append_tabMul, h1]
  · rw [hb, List.append_assoc, ← List.replicate_add]

theorem lineShape_tok (nm out tok : Str) (toks : List Str)
    (h : lineShape nm out toks) (hnotab : tok.contains '\t' = false)
    (hne : tok ≠ []) (hlast : pyIsSpace (tok.getLastD ' ') = false)
    (hmodT : hasSub (chars ".MOD") tok = false)
    (hsrcT : hasSub (chars "SOURCELONG") tok = false) :
    lineShape nm (out ++ '\t' :: tok) (toks ++ [tok]) := by
  obtain ⟨h1, ⟨r2, hr2⟩, ⟨b, k, hb, hbs, hbne⟩, hmod, hsrc⟩ := h
  refine ⟨?_, ⟨r2 ++ '\t' :: tok, by rw [hr2, List.append_assoc]⟩,
    ⟨out ++ '\t' :: tok, 0, by simp, ?_, by simp⟩,
    hasSub_append_sep_parts _ '\t' _ _ (by decide) (by decide) hmod hmodT,
    hasSub_append_sep_parts _ '\t' _ _ (by decide) (by decide) hsrc hsrcT⟩
  · rw [tokensOf_append_tab, h1, tokensOf_clean tok hnotab hne]
    rfl
  · have hdec : tok = tok.dropLast ++ [tok.getLast hne] :=
      (List.dropLast_append_getLast hne).symm
    have hlast2 : pyIsSpace (tok.getLast hne) = false := by
      rw [List.getLastD_eq_getLast?, List.getLast?_eq_getLast _ hne] at hlast
      simpa using hlast
    calc pyStripRight (out ++ '\t' :: tok)
        = pyStripRight ((out ++ '\t' :: tok.dropLast) ++ [tok.getLast hne]) := by
          conv_lhs => rw [hdec]
          simp [List.append_assoc]
      _ = (out ++ '\t' :: tok.dropLast) ++ [tok.getLast hne] :=
          pyStripRight_last _ _ hlast2
      _ = out ++ '\t' :: tok := by
          conv_rhs => rw [hdec]
          simp [List.append_assoc]

theorem lineShape_tok2 (nm out tok : Str) (toks : List Str)
    (h : lineShape nm out toks) (hnotab : tok.contains '\t' = false)
    (hne : tok ≠ []) (hlast : pyIsSpace (tok.getLastD ' ') = false)
    (hmodT : hasSub (chars ".MOD") tok = false)
    (hsrcT : hasSub (chars "SOURCELONG") tok = false) :
    lineShape nm (out ++ '\t' :: '\t' :: tok) (toks ++ [tok]) := by
  have h1 := lineShape_tabs nm out toks 1 h
  have h2 := lineShape_tok nm (out ++ List.replicate 1 '\t') tok toks h1 hnotab hne hlast
    hmodT hsrcT
  have heq : (out ++ List.replicate 1 '\t') ++ '\t' :: tok = out ++ '\t' :: '\t' :: tok := by
    simp [List.append_assoc]
  rwa [heq] at h2

theorem lineShape_strip (nm out : Str) (toks : List Str) (h : lineShape nm out toks)
    (hnm : nm ≠ []) (hhead : pyIsSpace (nm.headD ' ') = false) :
    tokensOf (pyStrip out) = nm :: toks := by
  obtain ⟨h1, ⟨r2, hr2⟩, ⟨b, k, hb, hbs, hbne⟩, hmod, hsrc⟩ := h
  cases hn : nm with
  | nil => exact absurd hn hnm
  | cons c rest =>
    have hout : out = c :: (rest ++ r2) := by
      rw [hr2, hn]
      rfl
    have hps : pyStrip out = b := by
      unfold pyStrip
      rw [hout, pyStripLeft_cons c _ (by rw [hn] at hhead; simpa using hhead)]
      rw [← hout, hb, pyStripRight_append_tabs, hbs]
    rw [hps]
    have htb : tokensOf out = tokensOf b := by
      rw [hb]
      rw [show b ++ List.replicate k '\t' = b ++ tabMul (k : Int) by simp [tabMul]]
      exact tokensOf_append_tabMul b (k : Int)
    rw [← htb, h1, hn]

theorem lineShape_stripped (nm out : Str) (toks : List Str) (h : lineShape nm out toks)
    (hnm : nm ≠ []) (hhead : pyIsSpace (nm.headD ' ') = false) :
    pyStrip out ≠ [] ∧ (pyStrip out).headD ' ' = nm.headD ' ' ∧
      hasSub (chars ".MOD") (pyStrip out) = false ∧
      hasSub (chars "SOURCELONG") (pyStrip out) = false := by
  obtain ⟨h1, ⟨r2, hr2⟩, ⟨b, k, hb, hbs, hbne⟩, hmod, hsrc⟩ := h
  cases hn : nm with
  | nil => exact absurd hn hnm
  | cons c rest =>
    have hout : out = c :: (rest ++ r2) := by
      rw [hr2, hn]
      rfl
    have hps : pyStrip out = b := by
      unfold pyStrip
      rw [hout, pyStripLeft_cons c _ (by rw [hn] at hhead; simpa using hhead)]
      rw [← hout, hb, pyStripRight_append_tabs, hbs]
    rw [hps]
    refine ⟨hbne, ?_, hasSub_left_false _ _ _ (hb ▸ hmod),
      hasSub_left_false _ _ _ (hb ▸ hsrc)⟩
    have e1 : out.headD ' ' = nm.headD ' ' := by
      rw [hout, hn]
      rfl
    have e2 : out.headD ' ' = b.headD ' ' := by
      cases hbn : b with
      | nil => exact absurd hbn hbne
      | cons b0 brest =>
        rw [hb, hbn]
        rfl
    rw [← e2, e1, hn]

/-! ## Token-content lemmas -/

theorem contains_false_iff (l : Str) (c : Char) : l.contains c = false ↔ c ∉ l := by
  rw [← Bool.not_eq_true, List.elem_iff]

theorem digitChar_bounds (d : Nat) (h : d < 10) :
    '0' ≤ digitChar d ∧ digitChar d ≤ '9' := by
  interval_cases d <;> exact ⟨by decide, by decide⟩

theorem digit_facts (c : Char) (h : '0' ≤ c ∧ c ≤ '9') :
    pyIsSpace c = false ∧ c ≠ '\t' ∧ c ≠ ',' ∧ c ≠ '|' ∧ c ≠ '=' ∧ c ≠ '[' ∧
      c ≠ ']' ∧ c ≠ '.' ∧ c ≠ 'S' := by
  obtain ⟨h1, h2⟩ := h
  rw [Char.le_def] at h1 h2
  refine ⟨?_, ?_, ?_, ?_, ?_, ?_, ?_, ?_, ?_⟩
  · unfold pyIsSpace
    have : ∀ d : Char, c = d → c.val = d.val := fun d hd => by rw [hd]
    simp only [Bool.or_eq_false_iff]
    refine ⟨⟨⟨⟨⟨?_, ?_⟩, ?_⟩, ?_⟩, ?_⟩, ?_⟩ <;>
      (rw [beq_eq_false_iff_ne]; intro hc; rw [hc] at h1; revert h1; decide)
  all_goals (intro hc; rw [hc] at h1 h2; revert h1 h2; decide)

theorem natDigitsGo_digits (fuel n : Nat) (acc : Str)
    (hacc : ∀ c ∈ acc, '0' ≤ c ∧ c ≤ '9') :
    ∀ c ∈ natDigitsGo fuel n acc, '0' ≤ c ∧ c ≤ '9' := by
  induction fuel generalizing n acc with
  | zero => exact hacc
  | succ fuel ih =>
    rw [natDigitsGo]
    by_cases h : n < 10
    · rw [if_pos h]
      intro c hc
      rcases List.mem_cons.mp hc with rfl | hmem
      · exact digitChar_bounds n h
      · exact hacc c hmem
    · rw [if_neg h]
      exact ih (n / 10) _ fun c hc => by
        rcases List.mem_cons.mp hc with rfl | hmem
        · exact digitChar_bounds _ (Nat.mod_lt _ (by omega))
        · exact hacc c hmem

theorem natDigits_digits (n : Nat) : ∀ c ∈ natDigits n, '0' ≤ c ∧ c ≤ '9' :=
  natDigitsGo_digits (n + 1) n [] (by simp)

theorem natDigitsGo_acc (fuel n : Nat) (acc : Str) :
    ∃ front, natDigitsGo fuel n acc = front ++ acc := by
  induction fuel generalizing n acc with
  | zero => exact ⟨[], rfl⟩
  | succ fuel ih =>
    rw [natDigitsGo]
    by_cases h : n < 10
    · rw [if_pos h]
      exact ⟨[digitChar n], rfl⟩
    · rw [if_neg h]
      obtain ⟨front, hf⟩ := ih (n / 10) (digitChar (n % 10) :: acc)
      exact ⟨front ++ [digitChar (n % 10)], by rw [hf]; simp⟩

theorem natDigits_last (n : Nat) :
    ∃ front, natDigits n = front ++ [digitChar (n % 10)] := by
  unfold natDigits
  rw [natDigitsGo]
  by_cases h : n < 10
  · rw [if_pos h, Nat.mod_eq_of_lt h]
    exact ⟨[], rfl⟩
  · rw [if_neg h]
    obtain ⟨front, hf⟩ := natDigitsGo_acc n (n / 10) [digitChar (n % 10)]
    exact ⟨front, hf⟩

theorem natDigits_ne_nil (n : Nat) : natDigits n ≠ [] := by
  obtain ⟨front, hf⟩ := natDigits_last n
  rw [hf]
  simp

theorem mem_joinCh (c : Char) (parts : List Str) (x : Char)
    (h : x ∈ joinCh c parts) : x = c ∨ ∃ p ∈ parts, x ∈ p := by
  induction parts with
  | nil => simp [joinCh] at h
  | cons p ps ih =>
    cases ps with
    | nil =>
      right
      exact ⟨p, by simp, by simpa [joinCh] using h⟩
    | cons q qs =>
      rw [show joinCh c (p :: q :: qs) = p ++ c :: joinCh c (q :: qs) from rfl] at h
      rcases List.mem_append.mp h with hp | hrest
      · exact Or.inr ⟨p, by simp, hp⟩
      · rcases List.mem_cons.mp hrest with rfl | hj
        · exact Or.inl rfl
        · rcases ih hj with hc | ⟨r, hr1, hr2⟩
          · exact Or.inl hc
          · exact Or.inr ⟨r, by simp [hr1], hr2⟩

theorem getLastD_irrel (l : Str) (hl : l ≠ []) (d1 d2 : Char) :
    l.getLastD d1 = l.getLastD d2 := by
  cases l with
  | nil => exact absurd rfl hl
  | cons x xs => rw [List.getLastD_cons, List.getLastD_cons]

theorem getLastD_append_of_ne_nil (a b : Str) (d : Char) (hb : b ≠ []) :
    (a ++ b).getLastD d = b.getLastD d := by
  induction a generalizing d with
  | nil => rfl
  | cons x xs ih =>
    cases b with
    | nil => exact absurd rfl hb
    | cons y ys =>
      rw [List.cons_append, List.getLastD_cons, ih x,
        getLastD_irrel (y :: ys) (by simp) x d]

theorem joinCh_last (c : Char) (hc : pyIsSpace c = false) (parts : List Str)
    (h : ∀ p ∈ parts, p ≠ [] → pyIsSpace (p.getLastD ' ') = false) :
    joinCh c parts = [] ∨ pyIsSpace ((joinCh c parts).getLastD ' ') = false := by
  induction parts with
  | nil => exact Or.inl rfl
  | cons p ps ih =>
    cases ps with
    | nil =>
      by_cases hp : p = []
      · exact Or.inl (by rw [show joinCh c [p] = p from rfl, hp])
      · right
        rw [show joinCh c [p] = p from rfl]
        exact h p (by simp) hp
    | cons q qs =>
      right
      rw [show joinCh c (p :: q :: qs) = p ++ c :: joinCh c (q :: qs) from rfl]
      rw [getLastD_append_of_ne_nil _ _ _ (by simp)]
      rcases ih (fun r hr => h r (by simp [List.mem_cons] at hr ⊢; tauto)) with hnil | hlast
      · rw [hnil, List.getLastD_cons]
        simpa using hc
      · rw [List.getLastD_cons]
        cases hj : joinCh c (q :: qs) with
        | nil => exact hc
        | cons y ys =>
          rw [getLastD_irrel (y :: ys) (by simp) c ' ']
          first
          | exact hlast
          | exact hj ▸ hlast

theorem hasSub_head_not_mem (c0 : Char) (srest l : Str) (h : c0 ∉ l) :
    hasSub (c0 :: srest) l = false := by
  induction l with
  | nil => rfl
  | cons x xs ih =>
    rw [hasSub]
    have hx : c0 ≠ x := fun hh => h (by simp [hh])
    rw [isPrefixOf_ne_head hx]
    rw [ih fun hm => h (by simp [hm])]
    rfl

theorem strClean_parts (f : Str) (h : strClean f = true) :
    pyStrip f = f ∧ f.contains '\t' = false ∧ hasSub (chars ".MOD") f = false ∧
      hasSub (chars "SOURCELONG") f = false := by
  unfold strClean at h
  simp only [Bool.and_eq_true, Bool.not_eq_true'] at h
  exact ⟨eq_of_beq h.1.1.1, h.1.1.2, h.1.2, h.2⟩

theorem tagTokOkV (tb : Str) (v : Str)
    (htb1 : tb.contains '\t' = false)
    (htb2 : hasSub (chars ".MOD") tb = false)
    (htb3 : hasSub (chars "SOURCELONG") tb = false)
    (hv1 : v.contains '\t' = false)
    (hv2 : hasSub (chars ".MOD") v = false)
    (hv3 : hasSub (chars "SOURCELONG") v = false)
    (hv4 : v ≠ [] → pyIsSpace (v.getLastD ' ') = false) :
    TokOk (tb ++ ':' :: v) := by
  refine ⟨?_, by simp, ?_, ?_, ?_⟩
  · rw [contains_false_iff] at htb1 hv1 ⊢
    intro hmem
    rcases List.mem_append.mp hmem with hm | hm
    · exact htb1 hm
    · rcases List.mem_cons.mp hm with hh | hm2
      · exact absurd hh (by decide)
      · exact hv1 hm2
  · rw [getLastD_append_of_ne_nil _ _ _ (by simp), List.getLastD_cons]
    by_cases hve : v = []
    · rw [hve]
      decide
    · rw [getLastD_irrel v hve ':' ' ']
      exact hv4 hve
  · exact hasSub_append_sep_parts _ ':' _ _ (by decide) (by decide) htb2 hv2
  · exact hasSub_append_sep_parts _ ':' _ _ (by decide) (by decide) htb3 hv3

theorem tagTokOk (tb : Str) (v : Str)
    (htb1 : tb.contains '\t' = false)
    (htb2 : hasSub (chars ".MOD") tb = false)
    (htb3 : hasSub (chars "SOURCELONG") tb = false)
    (hv : strClean v = true) : TokOk (tb ++ ':' :: v) := by
  obtain ⟨hv1, hv2, hv3, hv4⟩ := strClean_parts v hv
  exact tagTokOkV tb v htb1 htb2 htb3 hv2 hv3 hv4
    (fun hne => pyStrip_last_not_space v hv1 hne)

/-! ## Facts about the individual encoded tokens -/

theorem pf_beq_5e : (chars "Pathfinder 1e" == chars "D&D 5e") = false := by decide

theorem contains_append_false (a b : Str) (c : Char) (ha : a.contains c = false)
    (hb : b.contains c = false) : (a ++ b).contains c = false := by
  rw [contains_false_iff] at ha hb ⊢
  intro h
  rcases List.mem_append.mp h with h | h
  · exact ha h
  · exact hb h

theorem classNameClean_parts (n : Str) (h : classNameClean n = true) :
    n.contains '\t' = false ∧ n.contains ',' = false ∧ n.contains '|' = false ∧
      n.contains '=' = false ∧ hasSub (chars ".MOD") n = false ∧
      hasSub (chars "SOURCELONG") n = false := by
  unfold classNameClean at h
  simp only [Bool.and_eq_true, Bool.not_eq_true'] at h
  exact ⟨h.1.1.1.1.1, h.1.1.1.1.2, h.1.1.1.2, h.1.1.2, h.1.2, h.2⟩

theorem classGroupsGo_rep (cls : List (List Str)) (lv : Nat) :
    classGroupsGo cls lv true = joinCh '|' (groupStrs cls lv) ∧
      classGroupsGo cls lv false = joinCh '|' ([] :: groupStrs cls lv) := by
  induction cls generalizing lv with
  | nil => exact ⟨rfl, rfl⟩
  | cons l rest ih =>
    obtain ⟨ihT, ihF⟩ := ih (lv + 1)
    simp only [classGroupsGo, groupStrs]
    by_cases hl : l.length > 0
    · rw [if_pos hl, if_pos hl, if_pos hl, ihF]
      cases hgs : groupStrs rest (lv + 1) with
      | nil => constructor <;> simp [joinCh]
      | cons q qs => constructor <;> simp [joinCh, List.append_assoc]
    · rw [if_neg hl, if_neg hl, if_neg hl]
      simp only [List.nil_append]
      exact ⟨ihT, ihF⟩

theorem groupStrs_facts (cls : List (List Str)) (lv : Nat)
    (hcls : ∀ slot ∈ cls, ∀ n ∈ slot, classNameClean n = true) :
    ∀ g ∈ groupStrs cls lv,
      g ≠ [] ∧ g.contains '\t' = false ∧ g.contains '|' = false ∧
        hasSub (chars ".MOD") g = false ∧ hasSub (chars "SOURCELONG") g = false ∧
        pyIsSpace (g.getLastD ' ') = false := by
  induction cls generalizing lv with
  | nil =>
    intro g hg
    simp [groupStrs] at hg
  | cons l rest ih =>
    intro g hg
    simp only [groupStrs] at hg
    rcases List.mem_append.mp hg with hg1 | hg2
    · by_cases hl : l.length > 0
      · rw [if_pos hl] at hg1
        have hge : g = joinCh ',' l ++ '=' :: natDigits lv := by simpa using hg1
        subst hge
        have hnames : ∀ n ∈ l, classNameClean n = true := hcls l (by simp)
        have hdig : ∀ x ∈ natDigits lv, '0' ≤ x ∧ x ≤ '9' := natDigits_digits lv
        refine ⟨by simp, ?_, ?_, ?_, ?_, ?_⟩
        · rw [contains_false_iff]
          intro hx
          rcases List.mem_append.mp hx with hj | hr
          · rcases mem_joinCh ',' l '\t' hj with he | ⟨n, hn, hxn⟩
            · exact absurd he (by decide)
            · exact absurd hxn
                ((contains_false_iff _ _).mp (classNameClean_parts n (hnames n hn)).1)
          · rcases List.mem_cons.mp hr with he | hd
            · exact absurd he (by decide)
            · exact absurd rfl (digit_facts '\t' (hdig _ hd)).2.1
        · rw [contains_false_iff]
          intro hx
          rcases List.mem_append.mp hx with hj | hr
          · rcases mem_joinCh ',' l '|' hj with he | ⟨n, hn, hxn⟩
            · exact absurd he (by decide)
            · exact absurd hxn
                ((contains_false_iff _ _).mp (classNameClean_parts n (hnames n hn)).2.2.1)
          · rcases List.mem_cons.mp hr with he | hd
            · exact absurd he (by decide)
            · exact absurd rfl (digit_facts '|' (hdig _ hd)).2.2.2.1
        · refine hasSub_append_sep_parts _ '=' _ _ (by decide) (by decide) ?_ ?_
          · exact hasSub_joinCh _ ',' l (by decide) (by decide)
              fun n hn => (classNameClean_parts n (hnames n hn)).2.2.2.2.1
          · exact hasSub_head_not_mem '.' _ (natDigits lv)
              fun hd => absurd rfl (digit_facts '.' (hdig _ hd)).2.2.2.2.2.2.2.1
        · refine hasSub_append_sep_parts _ '=' _ _ (by decide) (by decide) ?_ ?_
          · exact hasSub_joinCh _ ',' l (by decide) (by decide)
              fun n hn => (classNameClean_parts n (hnames n hn)).2.2.2.2.2
          · exact hasSub_head_not_mem 'S' _ (natDigits lv)
              fun hd => absurd rfl (digit_facts 'S' (hdig _ hd)).2.2.2.2.2.2.2.2
        · obtain ⟨front, hfr⟩ := natDigits_last lv
          rw [getLastD_append_of_ne_nil _ _ _ (by simp), List.getLastD_cons, hfr,
            getLastD_append_of_ne_nil _ _ _ (by simp), List.getLastD_cons]
          exact (digit_facts _ (digitChar_bounds _ (Nat.mod_lt _ (by omega)))).1
      · rw [if_neg hl] at hg1
        simp at hg1
    · exact ih (lv + 1) (fun slot hs => hcls slot (List.mem_cons_of_mem l hs)) g hg2

theorem groupStrs_ne_nil (cls : List (List Str)) (lv : Nat)
    (h : cls.any (fun l => l.length > 0) = true) : groupStrs cls lv ≠ [] := by
  induction cls generalizing lv with
  | nil => simp at h
  | cons l rest ih =>
    simp only [List.any_cons, Bool.or_eq_true] at h
    simp only [groupStrs]
    by_cases hl : l.length > 0
    · rw [if_pos hl]
      simp
    · rw [if_neg hl]
      rcases h with h1 | h2
      · exact absurd (of_decide_eq_true h1) hl
      · simpa using ih (lv + 1) h2

theorem joinCh_ne_nil (sep : Char) (parts : List Str) (hp : parts ≠ [])
    (hne : ∀ p ∈ parts, p ≠ []) : joinCh sep parts ≠ [] := by
  cases parts with
  | nil => exact absurd rfl hp
  | cons p ps =>
    cases ps with
    | nil => exact hne p (by simp)
    | cons q qs =>
      rw [show joinCh sep (p :: q :: qs) = p ++ sep :: joinCh sep (q :: qs) from rfl]
      simp

theorem classGroups_facts (cls : List (List Str))
    (hcls : ∀ slot ∈ cls, ∀ n ∈ slot, classNameClean n = true) :
    (classGroupsGo cls 0 true).contains '\t' = false ∧
      hasSub (chars ".MOD") (classGroupsGo cls 0 true) = false ∧
      hasSub (chars "SOURCELONG") (classGroupsGo cls 0 true) = false ∧
      (classGroupsGo cls 0 true ≠ [] →
        pyIsSpace ((classGroupsGo cls 0 true).getLastD ' ') = false) := by
  rw [(classGroupsGo_rep cls 0).1]
  have hg := groupStrs_facts cls 0 hcls
  refine ⟨?_, ?_, ?_, ?_⟩
  · rw [contains_false_iff]
    intro hx
    rcases mem_joinCh '|' _ '\t' hx with he | ⟨p, hp, hxp⟩
    · exact absurd he (by decide)
    · exact absurd hxp ((contains_false_iff _ _).mp (hg p hp).2.1)
  · exact hasSub_joinCh _ '|' _ (by decide) (by decide) fun p hp => (hg p hp).2.2.2.1
  · exact hasSub_joinCh _ '|' _ (by decide) (by decide) fun p hp => (hg p hp).2.2.2.2.1
  · intro hne
    exact Or.resolve_left
      (joinCh_last '|' (by decide) _ fun p hp _ => (hg p hp).2.2.2.2.2) hne

theorem classGroups_ne_nil (cls : List (List Str))
    (hcls : ∀ slot ∈ cls, ∀ n ∈ slot, classNameClean n = true)
    (hany : cls.any (fun l => l.length > 0) = true) :
    classGroupsGo cls 0 true ≠ [] := by
  rw [(classGroupsGo_rep cls 0).1]
  exact joinCh_ne_nil '|' _ (groupStrs_ne_nil cls 0 hany)
    fun p hp => (groupStrs_facts cls 0 hcls p hp).1

theorem classesBody_TokOk (s : Spell)
    (hcls : ∀ slot ∈ s.classes, ∀ n ∈ slot, classNameClean n = true)
    (hsufC : strClean s.class_suffix = true)
    (hsufS : s.class_suffix ≠ [] → suffixStructOK s.class_suffix = true) :
    TokOk (chars "CLASSES" ++ ':' :: (classGroupsGo s.classes 0 true ++
      (if s.class_suffix.length > 0 then s.class_suffix else []))) := by
  obtain ⟨hg1, hg2, hg3, hg4⟩ := classGroups_facts s.classes hcls
  obtain ⟨hsc1, hsc2, hsc3, hsc4⟩ := strClean_parts _ hsufC
  by_cases hsu : s.class_suffix.length > 0
  · rw [if_pos hsu]
    have hsne : s.class_suffix ≠ [] := by
      intro he
      rw [he] at hsu
      simp at hsu
    have hso := hsufS hsne
    unfold suffixStructOK at hso
    simp only [Bool.and_eq_true, beq_iff_eq, Bool.not_eq_true'] at hso
    obtain ⟨⟨hhead, hlastB⟩, hmid⟩ := hso
    have hdecomp : s.class_suffix = '[' :: s.class_suffix.tail := by
      cases hcs : s.class_suffix with
      | nil => exact absurd hcs hsne
      | cons x xs =>
        have hx : x = '[' := by
          rw [hcs] at hhead
          simpa using hhead
        rw [hx]
        simp
    refine tagTokOkV _ _ (by decide) (by decide) (by decide)
      (contains_append_false _ _ _ hg1 hsc2) ?_ ?_ ?_
    · rw [hdecomp]
      exact hasSub_append_sep_parts _ '[' _ _ (by decide) (by decide) hg2
        (hasSub_cons_false _ '[' _ (by rw [← hdecomp]; exact hsc3))
    · rw [hdecomp]
      exact hasSub_append_sep_parts _ '[' _ _ (by decide) (by decide) hg3
        (hasSub_cons_false _ '[' _ (by rw [← hdecomp]; exact hsc4))
    · intro _
      rw [getLastD_append_of_ne_nil _ _ _ hsne]
      exact pyStrip_last_not_space _ hsc1 hsne
  · rw [if_neg hsu, List.append_nil]
    exact tagTokOkV _ _ (by decide) (by decide) (by decide) hg1 hg2 hg3 hg4

theorem descriptorBody_TokOk (s : Spell)
    (hd : ∀ d ∈ s.descriptors, descriptorClean d = true) :
    TokOk (chars "DESCRIPTOR" ++ ':' :: joinCh '|' s.descriptors) := by
  have hp : ∀ d ∈ s.descriptors, strClean d = true := by
    intro d hdm
    have hdd := hd d hdm
    unfold descriptorClean at hdd
    exact ((Bool.and_eq_true _ _).mp hdd).1
  refine tagTokOkV _ _ (by decide) (by decide) (by decide) ?_ ?_ ?_ ?_
  · rw [contains_false_iff]
    intro hx
    rcases mem_joinCh '|' _ '\t' hx with he | ⟨p, hpm, hxp⟩
    · exact absurd he (by decide)
    · exact absurd hxp ((contains_false_iff _ _).mp (strClean_parts p (hp p hpm)).2.1)
  · exact hasSub_joinCh _ '|' _ (by decide) (by decide)
      fun p hpm => (strClean_parts p (hp p hpm)).2.2.1
  · exact hasSub_joinCh _ '|' _ (by decide) (by decide)
      fun p hpm => (strClean_parts p (hp p hpm)).2.2.2
  · intro hne
    exact Or.resolve_left
      (joinCh_last '|' (by decide) _ fun p hpm hpne =>
        pyStrip_last_not_space p (strClean_parts p (hp p hpm)).1 hpne) hne

theorem typeToken_TokOk (s : Spell) (hm : s.mode = chars "Pathfinder 1e") :
    TokOk (typeToken s).1 := by
  simp only [typeToken, hm]
  cases s.arcane <;> cases s.divine <;> cases s.psychic <;> decide

theorem compsToken_split (s : Spell) (hm : s.mode = chars "Pathfinder 1e") :
    compsToken s = '\t' :: (compsToken s).tail ∧ TokOk ((compsToken s).tail) := by
  simp only [compsToken, hm, pf_beq_5e, Bool.and_false, Bool.false_eq_true, if_false]
  cases s.verbal <;> cases s.somatic <;> cases s.material <;>
    cases s.focus <;> cases s.divine_focus <;> exact ⟨by decide, by decide⟩

/-! ## Walking Spell.str: the encoded line has exactly the expected tokens -/

theorem cleanSpell_parts (s : Spell) (h : CleanSpell s = true) :
    s.name ≠ [] ∧ strClean s.name = true ∧ s.name.headD '#' ≠ '#' ∧
      strClean s.school = true ∧ strClean s.subschool = true ∧
      strClean s.casting_time = true ∧ strClean s.range = true ∧
      strClean s.save = true ∧ strClean s.target = true ∧
      strClean s.duration = true ∧ strClean s.sr = true ∧ strClean s.desc = true ∧
      strClean s.class_suffix = true ∧ s.classes.length = 10 ∧
      (∀ slot ∈ s.classes, ∀ n ∈ slot, classNameClean n = true) ∧
      (s.class_suffix ≠ [] → suffixStructOK s.class_suffix = true) ∧
      (s.class_suffix ≠ [] → (s.classes.any fun l => l.length > 0) = true) ∧
      (∀ d ∈ s.descriptors, descriptorClean d = true) ∧
      (∀ f ∈ s.other_fields, otherFieldClean f = true) := by
  unfold CleanSpell at h
  simp only [Bool.and_eq_true] at h
  obtain ⟨⟨⟨⟨⟨⟨⟨⟨⟨⟨⟨⟨⟨⟨⟨⟨⟨⟨h1, h2⟩, h3⟩, h4⟩, h5⟩, h6⟩, h7⟩, h8⟩, h9⟩, h10⟩,
    h11⟩, h12⟩, h13⟩, h14⟩, h15⟩, h16⟩, h16b⟩, h17⟩, h18⟩ := h
  simp only [Bool.not_eq_true'] at h1
  simp only [List.all_eq_true] at h15 h17 h18
  refine ⟨?_, h2, bne_iff_ne.mp h3, h4, h5, h6, h7, h8, h9, h10, h11, h12, h13,
    beq_iff_eq.mp h14, h15, ?_, ?_, h17, h18⟩
  · intro he
    rw [he] at h1
    simp at h1
  · intro hne
    have hie : s.class_suffix.isEmpty = false := by
      cases hcs2 : s.class_suffix with
      | nil => exact absurd hcs2 hne
      | cons x xs => rfl
    rw [hie] at h16
    simp only [Bool.false_eq_true, if_false] at h16
    exact ((Bool.and_eq_true _ _).mp h16).1
  · intro hne
    have hie : s.class_suffix.isEmpty = false := by
      cases hcs2 : s.class_suffix with
      | nil => exact absurd hcs2 hne
      | cons x xs => rfl
    rw [hie] at h16b
    simpa using h16b

theorem step_opt_tokR {nm prev : Str} {toks2 : List Str} {tok : Str} {c : Prop}
    [Decidable c] {x e y f : Int} (htok : TokOk tok) (toks : List Str)
    (h : lineShape nm prev toks)
    (heq : toks2 = toks ++ if c then [tok] else []) :
    lineShape nm
      (if c then payAndPad (prev ++ '\t' :: tok) x e else payAndPad prev y f).1
      toks2 := by
  rw [heq]
  obtain ⟨t1, t2, t3, t4, t5⟩ := htok
  by_cases hc : c
  · rw [if_pos hc, if_pos hc]
    exact lineShape_pad _ _ _ _ _ (lineShape_tok _ _ _ _ h t1 t2 t3 t4 t5)
  · rw [if_neg hc, if_neg hc, List.append_nil]
    exact lineShape_pad _ _ _ _ _ h

theorem step_tagTokR {nm prev : Str} {toks2 : List Str} {c : Prop}
    [Decidable c] {x e y f : Int} (tg v tok : Str)
    (htg : tg ++ v = '\t' :: tok) (hok : TokOk tok) (toks : List Str)
    (h : lineShape nm prev toks)
    (heq : toks2 = toks ++ if c then [tok] else []) :
    lineShape nm
      (if c then payAndPad (prev ++ tg ++ v) x e else payAndPad prev y f).1
      toks2 := by
  rw [List.append_assoc, htg]
  exact step_opt_tokR hok toks h heq

theorem step_emitFieldR {nm : Str} {toks2 : List Str} {tag value : Str} {w : Nat}
    {st : Str × Int} (hok : TokOk (tag ++ value)) (toks : List Str)
    (h : lineShape nm st.1 toks)
    (heq : toks2 = toks ++ if value.length > 0 then [tag ++ value] else []) :
    lineShape nm (emitField tag value w st).1 toks2 := by
  rw [heq]
  obtain ⟨t1, t2, t3, t4, t5⟩ := hok
  unfold emitField
  by_cases hv : value.length > 0
  · rw [if_pos hv, if_pos hv]
    exact lineShape_pad _ _ _ _ _ (lineShape_tok _ _ _ _ h t1 t2 t3 t4 t5)
  · rw [if_neg hv, if_neg hv, List.append_nil]
    exact lineShape_pad _ _ _ _ _ h

theorem step_descR {nm prev : Str} {toks2 : List Str} {v : Str}
    (hok : TokOk (chars "DESC:" ++ v)) (toks : List Str)
    (h : lineShape nm prev toks)
    (heq : toks2 = toks ++ if v.length > 0 then [chars "DESC:" ++ v] else []) :
    lineShape nm (prev ++ (if v.length > 0 then chars "\t\tDESC:" ++ v else []))
      toks2 := by
  rw [heq]
  obtain ⟨t1, t2, t3, t4, t5⟩ := hok
  by_cases hv : v.length > 0
  · rw [if_pos hv, if_pos hv]
    exact lineShape_tok2 _ _ _ _ h t1 t2 t3 t4 t5
  · rw [if_neg hv, if_neg hv, List.append_nil, List.append_nil]
    exact h

theorem lineShape_otherFields (nm : Str) (fs : List Str) :
    ∀ (out : Str) (toks : List Str), lineShape nm out toks →
      (∀ f ∈ fs, otherFieldClean f = true) →
      lineShape nm (out ++ otherFieldsStr fs)
        (toks ++ (fs.filter fun f => (pyStrip f).length > 0).map pyStrip) := by
  induction fs with
  | nil =>
    intro out toks h _
    simpa [otherFieldsStr] using h
  | cons f fs ih =>
    intro out toks h hfs
    have hf := hfs f (by simp)
    have hcl : strClean f = true := by
      unfold otherFieldClean at hf
      simp only [Bool.and_eq_true] at hf
      exact hf.1.1.2
    obtain ⟨hstrip, hnotab, hmodf, hsrcf⟩ := strClean_parts f hcl
    simp only [otherFieldsStr]
    by_cases hp : (pyStrip f).length > 0
    · have hpne : pyStrip f ≠ [] := by
        intro he
        rw [he] at hp
        simp at hp
      have hlast : pyIsSpace ((pyStrip f).getLastD ' ') = false := by
        rw [hstrip]
        exact pyStrip_last_not_space f hstrip (by rw [← hstrip]; exact hpne)
      have hnt2 : (pyStrip f).contains '\t' = false := by
        rw [hstrip]
        exact hnotab
      have h2 := lineShape_tok2 nm out (pyStrip f) toks h hnt2 hpne hlast
        (by rw [hstrip]; exact hmodf) (by rw [hstrip]; exact hsrcf)
      have h3 := ih (out ++ '\t' :: '\t' :: pyStrip f) (toks ++ [pyStrip f]) h2
        (fun g hg => hfs g (List.mem_cons_of_mem f hg))
      rw [if_pos hp, List.filter_cons, if_pos (decide_eq_true hp), List.map_cons]
      rw [show chars "\t\t" ++ pyStrip f = '\t' :: '\t' :: pyStrip f from rfl]
      simp only [List.append_assoc, List.cons_append, List.nil_append] at h3 ⊢
      exact h3
    · rw [if_neg hp, List.filter_cons, if_neg (by simpa using hp)]
      simp only [List.nil_append]
      exact ih out toks h (fun g hg => hfs g (List.mem_cons_of_mem f hg))

theorem lineShape_otherFieldsR {nm out : Str} {toks2 : List Str} {fs : List Str}
    (hfs : ∀ f ∈ fs, otherFieldClean f = true) (toks : List Str)
    (h : lineShape nm out toks)
    (heq : toks2 = toks ++ (fs.filter fun f => (pyStrip f).length > 0).map pyStrip) :
    lineShape nm (out ++ otherFieldsStr fs) toks2 := by
  rw [heq]
  exact lineShape_otherFields nm fs out toks h hfs

theorem lineShape_spellStr (s : Spell) (hcs : CleanSpell s = true)
    (hm : s.mode = chars "Pathfinder 1e") :
    lineShape s.name (spellStr s) (pfTokens s) := by
  obtain ⟨hnne, hnameC, hhash, hschool, hsub, hcast, hrange, hsave, htarget,
    hdur, hsr, hdescC, hsufC, hlen, hnames, hsufS, hsufAny, hdescr, hof⟩ :=
    cleanSpell_parts s hcs
  obtain ⟨hns, hnt, hnmod, hnsrc⟩ := strClean_parts _ hnameC
  obtain ⟨hcomps_eq, hcomps_ok⟩ := compsToken_split s hm
  have htype := typeToken_TokOk s hm
  have hclbody : TokOk ((classesToken s).tail) :=
    classesBody_TokOk s hnames hsufC hsufS
  have hdbody : TokOk (chars "DESCRIPTOR:" ++ joinCh '|' s.descriptors) :=
    descriptorBody_TokOk s hdescr
  have hTde : TokOk (chars "DESC:" ++ s.desc) :=
    tagTokOk (chars "DESC") s.desc (by decide) (by decide) (by decide) hdescC
  have hTta : TokOk (chars "TARGETAREA:" ++ s.target) :=
    tagTokOk (chars "TARGETAREA") s.target (by decide) (by decide) (by decide) htarget
  have hTsr : TokOk (chars "SPELLRES:" ++ s.sr) :=
    tagTokOk (chars "SPELLRES") s.sr (by decide) (by decide) (by decide) hsr
  have hTsv : TokOk (chars "SAVEINFO:" ++ s.save) :=
    tagTokOk (chars "SAVEINFO") s.save (by decide) (by decide) (by decide) hsave
  have hTdu : TokOk (chars "DURATION:" ++ s.duration) :=
    tagTokOk (chars "DURATION") s.duration (by decide) (by decide) (by decide) hdur
  have hTra : TokOk (chars "RANGE:" ++ s.range) :=
    tagTokOk (chars "RANGE") s.range (by decide) (by decide) (by decide) hrange
  have hTct : TokOk (chars "CASTTIME:" ++ s.casting_time) :=
    tagTokOk (chars "CASTTIME") s.casting_time (by decide) (by decide) (by decide) hcast
  have hTss : TokOk (chars "SUBSCHOOL:" ++ s.subschool) :=
    tagTokOk (chars "SUBSCHOOL") s.subschool (by decide) (by decide) (by decide) hsub
  have hTsc : TokOk (chars "SCHOOL:" ++ s.school) :=
    tagTokOk (chars "SCHOOL") s.school (by decide) (by decide) (by decide) hschool
  simp only [spellStr, hm, pf_beq_5e, Bool.false_eq_true, if_false,
    Bool.not_false, eq_self_iff_true, if_true]
  rw [hcomps_eq]
  apply lineShape_otherFieldsR hof
  case h =>
    apply step_descR hTde
    case h =>
      apply step_opt_tokR hdbody
      case h =>
        apply step_opt_tokR hclbody
        case h =>
          apply step_opt_tokR hcomps_ok
          case h =>
            apply step_emitFieldR hTta
            case h =>
              apply step_emitFieldR hTsr
              case h =>
                apply step_emitFieldR hTsv
                case h =>
                  apply step_emitFieldR hTdu
                  case h =>
                    apply step_emitFieldR hTra
                    case h =>
                      apply step_emitFieldR hTct
                      case h =>
                        apply step_tagTokR (chars "\tSUBSCHOOL:") s.subschool
                          (chars "SUBSCHOOL:" ++ s.subschool) rfl hTss
                        case h =>
                          apply step_tagTokR (chars "\tSCHOOL:") s.school
                            (chars "SCHOOL:" ++ s.school) rfl hTsc
                          case h =>
                            apply step_opt_tokR htype
                            case h =>
                              exact lineShape_init _ _ hnne hns hnt hnmod hnsrc
                            rfl
                          rfl
                        rfl
                      rfl
                    rfl
                  rfl
                rfl
              rfl
            rfl
          rfl
        rfl
      rfl
    rfl
  simp only [pfTokens, List.append_assoc, List.nil_append]

theorem cleanSpell_name_parts (s : Spell) (hcs : CleanSpell s = true) :
    s.name ≠ [] ∧ pyStrip s.name = s.name ∧
      pyIsSpace (s.name.headD ' ') = false ∧ s.name.headD '#' ≠ '#' := by
  obtain ⟨hnne, hnameC, hhash, _⟩ := cleanSpell_parts s hcs
  obtain ⟨hns, _, _, _⟩ := strClean_parts _ hnameC
  exact ⟨hnne, hns, pyStrip_head_not_space s.name hns hnne, hhash⟩

theorem pfTokens_line (s : Spell) (hcs : CleanSpell s = true)
    (hm : s.mode = chars "Pathfinder 1e") :
    tokensOf (pyStrip (spellStr s)) = s.name :: pfTokens s := by
  obtain ⟨hnne, _, hhd, _⟩ := cleanSpell_name_parts s hcs
  exact lineShape_strip s.name (spellStr s) (pfTokens s)
    (lineShape_spellStr s hcs hm) hnne hhd

/-! ## Parsing the encoded tokens back -/

theorem foldRes_append (f : β → α → Res β) (b : β) (l1 l2 : List α) :
    foldRes f b (l1 ++ l2) =
      (foldRes f b l1).bind fun b2 => foldRes f b2 l2 := by
  induction l1 generalizing b with
  | nil => rfl
  | cons a as ih =>
    rw [List.cons_append, foldRes, foldRes]
    cases f b a with
    | ok b2 => exact ih b2
    | err e => rfl

theorem pyStrip_of_ends (x : Str) (hh : pyIsSpace (x.headD ' ') = false)
    (hl : pyIsSpace (x.getLastD ' ') = false) : pyStrip x = x := by
  cases hx : x with
  | nil => rfl
  | cons c rest =>
    rw [hx] at hh hl
    have hc : pyIsSpace c = false := by simpa using hh
    unfold pyStrip
    rw [pyStripLeft_cons c rest hc]
    unfold pyStripRight
    cases hrev : (c :: rest).reverse with
    | nil => simp at hrev
    | cons y ys =>
      have hy : pyIsSpace y = false := by
        have hcr : (c :: rest) = (y :: ys).reverse := by
          rw [← hrev]
          simp
        rw [hcr] at hl
        simpa [List.getLastD_eq_getLast?] using hl
      rw [pyStripLeft_cons y ys hy, ← hrev]
      simp

theorem pyIdx_coe_lt (j len : Nat) (h : j < len) : pyIdx len (j : Int) = some j := by
  unfold pyIdx
  rw [if_pos (by omega : (0:Int) ≤ (j : Int)), if_pos (by exact_mod_cast h)]
  simp

theorem take_succ_set (acc : List (List Str)) (lv : Nat) (l : List Str)
    (h : lv < acc.length) :
    (acc.set lv l).take (lv + 1) = acc.take lv ++ [l] := by
  induction acc generalizing lv with
  | nil => simp at h
  | cons a as ih =>
    cases lv with
    | zero => simp
    | succ k =>
      simp only [List.set_cons_succ, List.take_succ_cons]
      rw [ih k (by simpa using h)]
      simp

theorem take_succ_empty (acc : List (List Str)) (lv : Nat) (h : lv < acc.length)
    (he : acc.getD lv [] = []) :
    acc.take (lv + 1) = acc.take lv ++ [([] : List Str)] := by
  induction acc generalizing lv with
  | nil => simp at h
  | cons a as ih =>
    cases lv with
    | zero =>
      simp only [List.getD_cons_zero] at he
      rw [he]
      simp
    | succ k =>
      simp only [List.take_succ_cons]
      rw [ih k (by simpa using h) (by simpa using he)]
      simp

theorem parseClassesGroups_rebuild (cls : List (List Str)) :
    ∀ (lv : Nat) (acc : List (List Str)),
      acc.length = lv + cls.length →
      (∀ i, lv ≤ i → acc.getD i [] = []) →
      (∀ slot ∈ cls, ∀ n ∈ slot, classNameClean n = true) →
      lv + cls.length ≤ 10 →
      parseClassesGroups (groupStrs cls lv) acc = .ok (acc.take lv ++ cls) := by
  induction cls with
  | nil =>
    intro lv acc hlen _ _ _
    simp only [List.length_nil] at hlen
    simp only [groupStrs, parseClassesGroups, List.append_nil]
    rw [List.take_of_length_le (by omega)]
  | cons l rest ih =>
    intro lv acc hlen hemp hnames hle
    simp only [List.length_cons] at hlen hle
    have hnamesl : ∀ n ∈ l, classNameClean n = true := hnames l (by simp)
    simp only [groupStrs]
    by_cases hl : l.length > 0
    · rw [if_pos hl]
      rw [show ([joinCh ',' l ++ '=' :: natDigits lv] ++ groupStrs rest (lv + 1)) =
        (joinCh ',' l ++ '=' :: natDigits lv) :: groupStrs rest (lv + 1) from rfl]
      have hje : (joinCh ',' l).contains '=' = false := by
        rw [contains_false_iff]
        intro hx
        rcases mem_joinCh ',' l '=' hx with he | ⟨n, hn, hxn⟩
        · exact absurd he (by decide)
        · exact absurd hxn
            ((contains_false_iff _ _).mp (classNameClean_parts n (hnamesl n hn)).2.2.2.1)
      have hnoc : ∀ n ∈ l, n.contains ',' = false :=
        fun n hn => (classNameClean_parts n (hnamesl n hn)).2.1
      have hg1 : splitFirst '=' (joinCh ',' l ++ '=' :: natDigits lv) =
          (joinCh ',' l, some (natDigits lv)) := splitFirst_marker _ _ _ hje
      have hlne : l ≠ [] := by
        intro he
        rw [he] at hl
        simp at hl
      have hsc : splitCh ',' (joinCh ',' l) = l := splitCh_joinCh ',' l hlne hnoc
      have hset : pySetL acc ((lv : Nat) : Int) l = some (acc.set lv l) := by
        unfold pySetL
        rw [pyIdx_coe_lt lv acc.length (by omega)]
      have hpi : pyInt (natDigits lv) = some ((lv : Nat) : Int) :=
        (pyInt_natDigits lv (by omega)).trans rfl
      have hstep : parseClassesGroups
          ((joinCh ',' l ++ '=' :: natDigits lv) :: groupStrs rest (lv + 1)) acc =
          parseClassesGroups (groupStrs rest (lv + 1)) (acc.set lv l) := by
        simp only [parseClassesGroups, hg1, hpi, hsc, hset]
      rw [hstep]
      rw [ih (lv + 1) (acc.set lv l) (by simp only [List.length_set]; omega)
        (fun i hi => by
          rw [getD_set_other acc i lv l [] (by omega)]
          exact hemp i (by omega))
        (fun slot hs => hnames slot (by simp [hs])) (by omega)]
      rw [take_succ_set acc lv l (by omega)]
      simp
    · rw [if_neg hl, List.nil_append]
      have hl0 : l = [] := List.eq_nil_of_length_eq_zero (by omega)
      rw [ih (lv + 1) acc (by omega)
        (fun i hi => hemp i (by omega))
        (fun slot hs => hnames slot (by simp [hs])) (by omega)]
      rw [take_succ_empty acc lv (by omega) (hemp lv (Nat.le_refl lv)), hl0]
      simp

theorem getLastD_reverse_head (t : Str) (y : Char) (ys : Str)
    (h : t.reverse = y :: ys) : t.getLastD ' ' = y := by
  have hcr : t = (y :: ys).reverse := by
    rw [← h]
    simp
  rw [hcr]
  simp [List.getLastD_eq_getLast?]

theorem classesSuffixFalse (t : Str) (h : t.getLastD ' ' ≠ ':') :
    (chars "CLASSES:").isSuffixOf t = false := by
  cases hrev : t.reverse with
  | nil =>
    have ht : t = [] := by simpa using congrArg List.reverse hrev
    rw [ht]
    decide
  | cons y ys =>
    have hy : y ≠ ':' := by
      rw [← getLastD_reverse_head t y ys hrev]
      exact h
    show ((chars "CLASSES:").reverse.isPrefixOf t.reverse) = false
    rw [hrev, show (chars "CLASSES:").reverse = ':' :: chars "SESSALC" from by decide]
    exact isPrefixOf_ne_head (fun he => hy he.symm) _ _

theorem recStep_type (s : Spell) (hm : s.mode = chars "Pathfinder 1e") (sd : SD) :
    recStep sd (typeToken s).1 =
      .ok { sd with arcane := s.arcane, divine := s.divine, psychic := s.psychic } := by
  unfold recStep
  simp only [typeToken, hm]
  cases s.arcane <;> cases s.divine <;> cases s.psychic <;> rfl

theorem recStep_school (sd : SD) (v : Str)
    (hstrip : pyStrip (chars "SCHOOL:" ++ v) = chars "SCHOOL:" ++ v) :
    recStep sd (chars "SCHOOL:" ++ v) = .ok { sd with school := v } := by
  unfold recStep
  rw [hstrip]
  unfold recStepT
  simp only [isPrefixOf_append_right]
  rfl

theorem recStep_subschool (sd : SD) (v : Str)
    (hstrip : pyStrip (chars "SUBSCHOOL:" ++ v) = chars "SUBSCHOOL:" ++ v) :
    recStep sd (chars "SUBSCHOOL:" ++ v) = .ok { sd with subschool := v } := by
  unfold recStep
  rw [hstrip]
  unfold recStepT
  simp only [isPrefixOf_append_right]
  rfl

theorem recStep_casttime (sd : SD) (v : Str)
    (hstrip : pyStrip (chars "CASTTIME:" ++ v) = chars "CASTTIME:" ++ v) :
    recStep sd (chars "CASTTIME:" ++ v) = .ok { sd with casting_time := v } := by
  unfold recStep
  rw [hstrip]
  unfold recStepT
  simp only [isPrefixOf_append_right]
  rfl

theorem recStep_range (sd : SD) (v : Str)
    (hstrip : pyStrip (chars "RANGE:" ++ v) = chars "RANGE:" ++ v) :
    recStep sd (chars "RANGE:" ++ v) = .ok { sd with range := v } := by
  unfold recStep
  rw [hstrip]
  unfold recStepT
  simp only [isPrefixOf_append_right]
  rfl

theorem recStep_duration (sd : SD) (v : Str)
    (hstrip : pyStrip (chars "DURATION:" ++ v) = chars "DURATION:" ++ v) :
    recStep sd (chars "DURATION:" ++ v) = .ok { sd with duration := v } := by
  unfold recStep
  rw [hstrip]
  unfold recStepT
  simp only [isPrefixOf_append_right]
  rfl

theorem recStep_targetarea (sd : SD) (v : Str)
    (hstrip : pyStrip (chars "TARGETAREA:" ++ v) = chars "TARGETAREA:" ++ v) :
    recStep sd (chars "TARGETAREA:" ++ v) = .ok { sd with target := v } := by
  unfold recStep
  rw [hstrip]
  unfold recStepT
  simp only [isPrefixOf_append_right]
  rfl

theorem recStep_saveinfo (sd : SD) (v : Str)
    (hstrip : pyStrip (chars "SAVEINFO:" ++ v) = chars "SAVEINFO:" ++ v) :
    recStep sd (chars "SAVEINFO:" ++ v) = .ok { sd with save := v } := by
  unfold recStep
  rw [hstrip]
  unfold recStepT
  simp only [isPrefixOf_append_right]
  rfl

theorem recStep_spellres (sd : SD) (v : Str)
    (hstrip : pyStrip (chars "SPELLRES:" ++ v) = chars "SPELLRES:" ++ v) :
    recStep sd (chars "SPELLRES:" ++ v) = .ok { sd with sr := v } := by
  unfold recStep
  rw [hstrip]
  unfold recStepT
  simp only [isPrefixOf_append_right]
  rfl

theorem recStep_descTag (sd : SD) (v : Str)
    (hstrip : pyStrip (chars "DESC:" ++ v) = chars "DESC:" ++ v) :
    recStep sd (chars "DESC:" ++ v) = .ok { sd with desc := v } := by
  unfold recStep
  rw [hstrip]
  unfold recStepT
  simp only [isPrefixOf_append_right]
  rfl

theorem recStep_descriptorTag (sd : SD) (v : Str)
    (hstrip : pyStrip (chars "DESCRIPTOR:" ++ v) = chars "DESCRIPTOR:" ++ v) :
    recStep sd (chars "DESCRIPTOR:" ++ v) =
      .ok { sd with descriptors := splitCh '|' v } := by
  unfold recStep
  rw [hstrip]
  unfold recStepT
  simp only [isPrefixOf_append_right]
  rfl

theorem recStep_comps (s : Spell) (hm : s.mode = chars "Pathfinder 1e") (sd : SD)
    (h1 : sd.verbal = false) (h2 : sd.somatic = false) (h3 : sd.material = false)
    (h4 : sd.focus = false) (h5 : sd.divine_focus = false) :
    recStep sd ((compsToken s).tail) =
      .ok { sd with verbal := s.verbal, somatic := s.somatic, material := s.material,
                    focus := s.focus, divine_focus := s.divine_focus } := by
  have hres : recStep sd ((compsToken s).tail) =
      .ok { sd with verbal := sd.verbal || s.verbal, somatic := sd.somatic || s.somatic,
                    material := sd.material || s.material, focus := sd.focus || s.focus,
                    divine_focus := sd.divine_focus || s.divine_focus } := by
    unfold recStep
    simp only [compsToken, hm, pf_beq_5e, Bool.and_false, Bool.false_eq_true, if_false]
    cases s.verbal <;> cases s.somatic <;> cases s.material <;>
      cases s.focus <;> cases s.divine_focus <;>
      (simp only [Bool.or_true, Bool.or_false]; rfl)
  rw [hres, h1, h2, h3, h4, h5]
  simp only [Bool.false_or]

theorem contains_true_of_mem (l : Str) (c : Char) (h : c ∈ l) :
    l.contains c = true := by
  cases hc : l.contains c with
  | false => exact absurd h ((contains_false_iff l c).mp hc)
  | true => rfl

theorem digit_ne_colon (c : Char) (h : '0' ≤ c ∧ c ≤ '9') : c ≠ ':' := by
  obtain ⟨h1, h2⟩ := h
  rw [Char.le_def] at h1 h2
  intro hc
  rw [hc] at h2
  revert h2
  decide

theorem groupStrs_mem (cls : List (List Str)) :
    ∀ (lv : Nat) (g : Str), g ∈ groupStrs cls lv →
      ∃ l lv2, l ∈ cls ∧ g = joinCh ',' l ++ '=' :: natDigits lv2 := by
  induction cls with
  | nil =>
    intro lv g hg
    simp [groupStrs] at hg
  | cons l rest ih =>
    intro lv g hg
    simp only [groupStrs] at hg
    rcases List.mem_append.mp hg with hg1 | hg2
    · by_cases hl : l.length > 0
      · rw [if_pos hl] at hg1
        exact ⟨l, lv, by simp, by simpa using hg1⟩
      · rw [if_neg hl] at hg1
        simp at hg1
    · obtain ⟨l2, lv2, hmem, he⟩ := ih (lv + 1) g hg2
      exact ⟨l2, lv2, by simp [hmem], he⟩

theorem classGroupsGo_contains_false (cls : List (List Str)) (c : Char)
    (hc1 : c ≠ ',') (hc2 : c ≠ '=') (hc3 : c ≠ '|')
    (hc4 : ∀ d, ('0' ≤ d ∧ d ≤ '9') → c ≠ d)
    (hn : ∀ slot ∈ cls, ∀ n ∈ slot, n.contains c = false) :
    (classGroupsGo cls 0 true).contains c = false := by
  rw [(classGroupsGo_rep cls 0).1, contains_false_iff]
  intro hx
  rcases mem_joinCh '|' _ c hx with he | ⟨g, hg, hxg⟩
  · exact hc3 he
  · obtain ⟨l, lv2, hmem, hge⟩ := groupStrs_mem cls 0 g hg
    rw [hge] at hxg
    rcases List.mem_append.mp hxg with hj | hr
    · rcases mem_joinCh ',' l c hj with he2 | ⟨n, hn2, hxn⟩
      · exact hc1 he2
      · exact absurd hxn ((contains_false_iff _ _).mp (hn l hmem n hn2))
    · rcases List.mem_cons.mp hr with he2 | hd
      · exact hc2 he2
      · exact hc4 c (natDigits_digits lv2 c hd) rfl

theorem joinCh_last_prop (c : Char) (P : Char → Prop) (hc : P c) (parts : List Str)
    (h : ∀ p ∈ parts, p ≠ [] → P (p.getLastD ' ')) :
    joinCh c parts = [] ∨ P ((joinCh c parts).getLastD ' ') := by
  induction parts with
  | nil => exact Or.inl rfl
  | cons p ps ih =>
    cases ps with
    | nil =>
      by_cases hp : p = []
      · exact Or.inl (by rw [show joinCh c [p] = p from rfl, hp])
      · right
        rw [show joinCh c [p] = p from rfl]
        exact h p (by simp) hp
    | cons q qs =>
      right
      rw [show joinCh c (p :: q :: qs) = p ++ c :: joinCh c (q :: qs) from rfl]
      rw [getLastD_append_of_ne_nil _ _ _ (by simp)]
      rcases ih (fun r hr => h r (by simp [List.mem_cons] at hr ⊢; tauto)) with hnil | hlast
      · rw [hnil, List.getLastD_cons]
        exact hc
      · rw [List.getLastD_cons]
        cases hj : joinCh c (q :: qs) with
        | nil => exact hc
        | cons y ys =>
          rw [getLastD_irrel (y :: ys) (by simp) c ' ']
          first
          | exact hlast
          | exact hj ▸ hlast

theorem groupStrs_last_digit (cls : List (List Str)) :
    ∀ (lv : Nat) (g : Str), g ∈ groupStrs cls lv →
      '0' ≤ g.getLastD ' ' ∧ g.getLastD ' ' ≤ '9' := by
  intro lv g hg
  obtain ⟨l, lv2, _, hge⟩ := groupStrs_mem cls lv g hg
  rw [hge]
  obtain ⟨front, hfr⟩ := natDigits_last lv2
  rw [getLastD_append_of_ne_nil _ _ _ (by simp), List.getLastD_cons, hfr,
    getLastD_append_of_ne_nil _ _ _ (by simp), List.getLastD_cons]
  exact digitChar_bounds _ (Nat.mod_lt _ (by omega))

theorem cleanSpell_brackets (s : Spell) (h : CleanSpell s = true) :
    (s.class_suffix = [] →
      (∀ slot ∈ s.classes, ∀ n ∈ slot, n.contains '[' = false) ∨
      (∀ slot ∈ s.classes, ∀ n ∈ slot, n.contains ']' = false)) ∧
    (s.class_suffix ≠ [] →
      ∀ slot ∈ s.classes, ∀ n ∈ slot,
        n.contains '[' = false ∧ n.contains ']' = false) := by
  unfold CleanSpell at h
  simp only [Bool.and_eq_true] at h
  have h16 := h.1.1.1.2
  constructor
  · intro hse
    rw [hse] at h16
    simp only [List.isEmpty_nil, if_true] at h16
    rcases (Bool.or_eq_true _ _).mp h16 with ha | hb
    · left
      simp only [List.all_eq_true, Bool.not_eq_true'] at ha
      exact ha
    · right
      simp only [List.all_eq_true, Bool.not_eq_true'] at hb
      exact hb
  · intro hne
    have hie : s.class_suffix.isEmpty = false := by
      cases hcs2 : s.class_suffix with
      | nil => exact absurd hcs2 hne
      | cons x xs => rfl
    rw [hie] at h16
    simp only [Bool.false_eq_true, if_false, Bool.and_eq_true] at h16
    have h162 := h16.2
    simp only [List.all_eq_true, Bool.and_eq_true, Bool.not_eq_true'] at h162
    exact h162

theorem recStep_classes (s : Spell) (sd : SD)
    (hsdc : sd.classes = [[], [], [], [], [], [], [], [], [], []])
    (hsds : sd.class_suffix = [])
    (hlen : s.classes.length = 10)
    (hnames : ∀ slot ∈ s.classes, ∀ n ∈ slot, classNameClean n = true)
    (hsufS : s.class_suffix ≠ [] → suffixStructOK s.class_suffix = true)
    (hbrE : s.class_suffix = [] →
      (∀ slot ∈ s.classes, ∀ n ∈ slot, n.contains '[' = false) ∨
      (∀ slot ∈ s.classes, ∀ n ∈ slot, n.contains ']' = false))
    (hbrN : s.class_suffix ≠ [] →
      ∀ slot ∈ s.classes, ∀ n ∈ slot, n.contains '[' = false ∧ n.contains ']' = false)
    (hany : s.classes.any (fun l => l.length > 0) = true)
    (hok : TokOk ((classesToken s).tail)) :
    recStep sd ((classesToken s).tail) =
      .ok { sd with classes := s.classes, class_suffix := s.class_suffix } := by
  have hgf := groupStrs_facts s.classes 0 hnames
  have hrep := (classGroupsGo_rep s.classes 0).1
  have hGne : classGroupsGo s.classes 0 true ≠ [] :=
    classGroups_ne_nil s.classes hnames hany
  have hGlast : (classGroupsGo s.classes 0 true).getLastD ' ' ≠ ':' := by
    rw [hrep]
    exact Or.resolve_left
      (joinCh_last_prop '|' (fun ch => ch ≠ ':') (by decide) _
        (fun p hp _ => digit_ne_colon _ (groupStrs_last_digit s.classes 0 p hp)))
      (hrep ▸ hGne)
  have hsplitG : splitCh '|' (classGroupsGo s.classes 0 true) = groupStrs s.classes 0 := by
    rw [hrep]
    exact splitCh_joinCh '|' _ (groupStrs_ne_nil s.classes 0 hany)
      (fun g hg => (hgf g hg).2.2.1)
  have hparse : parseClassesGroups (groupStrs s.classes 0) sd.classes = .ok s.classes := by
    rw [hsdc]
    have hreb := parseClassesGroups_rebuild s.classes 0
      [[], [], [], [], [], [], [], [], [], []]
      (by simp [hlen])
      (fun i _ => by
        rcases Nat.lt_or_ge i 10 with hi | hi
        · interval_cases i <;> rfl
        · exact List.getD_eq_default _ _ (by simpa using hi))
      hnames (by simp [hlen])
    simpa using hreb
  have hstrip : pyStrip ((classesToken s).tail) = (classesToken s).tail :=
    pyStrip_of_ends _ rfl hok.2.2.1
  unfold recStep
  rw [hstrip]
  by_cases hsu : s.class_suffix.length > 0
  · have hsne : s.class_suffix ≠ [] := by
      intro he
      rw [he] at hsu
      simp at hsu
    have hso := hsufS hsne
    unfold suffixStructOK at hso
    simp only [Bool.and_eq_true, beq_iff_eq, Bool.not_eq_true'] at hso
    obtain ⟨⟨hhead, hlastB⟩, hmid⟩ := hso
    have hbrk := hbrN hsne
    have htok : (classesToken s).tail =
        chars "CLASSES:" ++ (classGroupsGo s.classes 0 true ++ s.class_suffix) := by
      show chars "CLASSES:" ++ (classGroupsGo s.classes 0 true ++
        (if s.class_suffix.length > 0 then s.class_suffix else [])) = _
      rw [if_pos hsu]
    rw [htok]
    have hdec1 : s.class_suffix = '[' :: s.class_suffix.tail := by
      cases hcs : s.class_suffix with
      | nil => exact absurd hcs hsne
      | cons x xs =>
        have hx : x = '[' := by
          rw [hcs] at hhead
          simpa using hhead
        rw [hx]
        simp
    have hglast : s.class_suffix.getLast hsne = ']' := by
      rw [List.getLastD_eq_getLast?, List.getLast?_eq_getLast _ hsne] at hlastB
      simpa using hlastB
    have hdec2 : s.class_suffix = s.class_suffix.dropLast ++ [']'] := by
      conv_lhs => rw [← List.dropLast_append_getLast hsne]
      rw [hglast]
    have hGnb1 : (classGroupsGo s.classes 0 true).contains '[' = false :=
      classGroupsGo_contains_false s.classes '[' (by decide) (by decide) (by decide)
        (fun d hd => Ne.symm (digit_facts d hd).2.2.2.2.2.1)
        (fun slot hs n hn => (hbrk slot hs n hn).1)
    have hGnb2 : (classGroupsGo s.classes 0 true).contains ']' = false :=
      classGroupsGo_contains_false s.classes ']' (by decide) (by decide) (by decide)
        (fun d hd => Ne.symm (digit_facts d hd).2.2.2.2.2.2.1)
        (fun slot hs n hn => (hbrk slot hs n hn).2)
    have hsuf2 : (chars "CLASSES:").isSuffixOf (chars "CLASSES:" ++
        (classGroupsGo s.classes 0 true ++ s.class_suffix)) = false := by
      apply classesSuffixFalse
      rw [getLastD_append_of_ne_nil _ _ _
        (by simp [hsne] : classGroupsGo s.classes 0 true ++ s.class_suffix ≠ [])]
      rw [getLastD_append_of_ne_nil _ _ _ hsne, hlastB]
      decide
    have hcond : ((classGroupsGo s.classes 0 true ++ s.class_suffix).contains '[' &&
        (classGroupsGo s.classes 0 true ++ s.class_suffix).contains ']') = true := by
      rw [contains_true_of_mem _ '['
        (List.mem_append.mpr (Or.inr (by rw [hdec1]; simp)))]
      rw [contains_true_of_mem _ ']'
        (List.mem_append.mpr (Or.inr (by rw [hdec2]; simp)))]
      rfl
    have hidx1 : idxOfCh '[' (classGroupsGo s.classes 0 true ++ s.class_suffix) =
        (classGroupsGo s.classes 0 true).length := by
      rw [idxOfCh_append_not_mem '[' _ _ hGnb1]
      have h0 : idxOfCh '[' s.class_suffix = 0 := by
        conv_lhs => rw [hdec1]
        exact idxOfCh_cons_self '[' _
      rw [h0]
      omega
    have hidx2 : idxOfCh ']' (classGroupsGo s.classes 0 true ++ s.class_suffix) =
        (classGroupsGo s.classes 0 true).length + s.class_suffix.dropLast.length := by
      rw [idxOfCh_append_not_mem ']' _ _ hGnb2]
      have h0 : idxOfCh ']' s.class_suffix = s.class_suffix.dropLast.length := by
        conv_lhs => rw [hdec2]
        rw [idxOfCh_append_not_mem ']' _ _ hmid, idxOfCh_cons_self]
        omega
      rw [h0]
    have hs1 : pySlice (classGroupsGo s.classes 0 true ++ s.class_suffix)
        (classGroupsGo s.classes 0 true).length
        ((classGroupsGo s.classes 0 true).length + s.class_suffix.dropLast.length + 1) =
        s.class_suffix := by
      rw [show (classGroupsGo s.classes 0 true).length + s.class_suffix.dropLast.length + 1 =
        (classGroupsGo s.classes 0 true).length + s.class_suffix.length from by
          rw [List.length_dropLast]
          have : 1 ≤ s.class_suffix.length := by
            cases hcs : s.class_suffix with
            | nil => exact absurd hcs hsne
            | cons x xs => simp
          omega]
      exact pySlice_middle _ _
    have hs2 : pySlice (classGroupsGo s.classes 0 true ++ s.class_suffix) 0
        (classGroupsGo s.classes 0 true).length = classGroupsGo s.classes 0 true :=
      pySlice_left _ _
    have hbrq : stripBracketSq (classGroupsGo s.classes 0 true ++ s.class_suffix) =
        (some s.class_suffix, classGroupsGo s.classes 0 true) := by
      unfold stripBracketSq
      rw [if_pos hcond]
      simp only [hidx1, hidx2, hs1, hs2]
    unfold recStepT
    have hT : (chars "TYPE:").isPrefixOf (chars "CLASSES:" ++
        (classGroupsGo s.classes 0 true ++ s.class_suffix)) = false := rfl
    rw [if_neg (by simp [hT])]
    have hcls_cond : ((chars "CLASSES:").isPrefixOf (chars "CLASSES:" ++
        (classGroupsGo s.classes 0 true ++ s.class_suffix)) &&
        !((chars "CLASSES:").isSuffixOf (chars "CLASSES:" ++
          (classGroupsGo s.classes 0 true ++ s.class_suffix)))) = true := by
      rw [isPrefixOf_append_right, hsuf2]
      rfl
    rw [if_pos hcls_cond]
    have hsp : (splitFirst ':' (chars "CLASSES:" ++
        (classGroupsGo s.classes 0 true ++ s.class_suffix))).2 =
        some (classGroupsGo s.classes 0 true ++ s.class_suffix) := rfl
    simp only [hsp, hbrq, hsplitG]
    rw [hparse]
    rfl
  · have hs0 : s.class_suffix = [] := by
      cases hc0 : s.class_suffix with
      | nil => rfl
      | cons x xs =>
        rw [hc0] at hsu
        simp at hsu
    have hbrE2 := hbrE hs0
    have htok : (classesToken s).tail =
        chars "CLASSES:" ++ classGroupsGo s.classes 0 true := by
      show chars "CLASSES:" ++ (classGroupsGo s.classes 0 true ++
        (if s.class_suffix.length > 0 then s.class_suffix else [])) = _
      rw [if_neg hsu, List.append_nil]
    rw [htok]
    have hsuf2 : (chars "CLASSES:").isSuffixOf (chars "CLASSES:" ++
        classGroupsGo s.classes 0 true) = false := by
      apply classesSuffixFalse
      rw [getLastD_append_of_ne_nil _ _ _ hGne]
      exact hGlast
    have hcond : ((classGroupsGo s.classes 0 true).contains '[' &&
        (classGroupsGo s.classes 0 true).contains ']') = false := by
      rcases hbrE2 with hA | hB
      · rw [classGroupsGo_contains_false s.classes '[' (by decide) (by decide) (by decide)
          (fun d hd => Ne.symm (digit_facts d hd).2.2.2.2.2.1) hA]
        rfl
      · rw [classGroupsGo_contains_false s.classes ']' (by decide) (by decide) (by decide)
          (fun d hd => Ne.symm (digit_facts d hd).2.2.2.2.2.2.1) hB]
        simp
    have hbrq : stripBracketSq (classGroupsGo s.classes 0 true) =
        (none, classGroupsGo s.classes 0 true) := by
      unfold stripBracketSq
      rw [if_neg (by rw [hcond]; simp)]
    unfold recStepT
    have hT : (chars "TYPE:").isPrefixOf (chars "CLASSES:" ++
        classGroupsGo s.classes 0 true) = false := rfl
    rw [if_neg (by simp [hT])]
    have hcls_cond : ((chars "CLASSES:").isPrefixOf (chars "CLASSES:" ++
        classGroupsGo s.classes 0 true) &&
        !((chars "CLASSES:").isSuffixOf (chars "CLASSES:" ++
          classGroupsGo s.classes 0 true))) = true := by
      rw [isPrefixOf_append_right, hsuf2]
      rfl
    rw [if_pos hcls_cond]
    have hsp : (splitFirst ':' (chars "CLASSES:" ++ classGroupsGo s.classes 0 true)).2 =
        some (classGroupsGo s.classes 0 true) := rfl
    simp only [hsp, hbrq, hsplitG]
    rw [hparse, hs0, ← hsds]
    rfl

theorem recStep_other (sd : SD) (t : Str) (hof : otherFieldClean t = true) :
    recStep sd t = .ok { sd with other_fields := sd.other_fields ++ [t] } := by
  unfold otherFieldClean at hof
  simp only [tagList, List.all_cons, List.all_nil, Bool.and_eq_true,
    Bool.not_eq_true', Bool.and_true] at hof
  obtain ⟨⟨⟨hne, hcl⟩, h1, h2, h3, h4, h5, h6, h7, h8, h9, h10, h11, h12, h13⟩,
    hsuf⟩ := hof
  obtain ⟨hstr, _, _, _⟩ := strClean_parts t hcl
  unfold recStep
  rw [hstr]
  unfold recStepT
  rw [if_neg (by simp [h1]), if_neg (by simp [h2]), if_neg (by simp [h3]),
    if_neg (by simp [h4]), if_neg (by simp [h5]), if_neg (by simp [h6]),
    if_neg (by simp [h7]), if_neg (by simp [h8]), if_neg (by simp [h9]),
    if_neg (by simp [h10]), if_neg (by simp [h11]), if_neg (by simp [h12]),
    if_neg (by simp [h13]), if_pos (by simp [hsuf])]

theorem foldRes_otherList (fs : List Str) :
    ∀ (b : SD), (∀ f ∈ fs, otherFieldClean f = true) →
      foldRes recStep b ((fs.filter fun f => (pyStrip f).length > 0).map pyStrip) =
        .ok { b with other_fields := b.other_fields ++ fs } := by
  induction fs with
  | nil =>
    intro b _
    simp only [List.filter_nil, List.map_nil, List.append_nil]
    rfl
  | cons f fs ih =>
    intro b hfs
    have hf := hfs f (by simp)
    have hcl : strClean f = true := by
      unfold otherFieldClean at hf
      simp only [Bool.and_eq_true] at hf
      exact hf.1.1.2
    have hstr : pyStrip f = f := (strClean_parts f hcl).1
    have hfne : f ≠ [] := by
      unfold otherFieldClean at hf
      simp only [Bool.and_eq_true, Bool.not_eq_true'] at hf
      have := hf.1.1.1
      cases f with
      | nil => simp at this
      | cons a as => simp
    have hpos : (pyStrip f).length > 0 := by
      rw [hstr]
      cases f with
      | nil => exact absurd rfl hfne
      | cons a as => simp
    rw [List.filter_cons, if_pos (decide_eq_true hpos), List.map_cons, hstr]
    simp only [foldRes, recStep_other b f hf]
    rw [ih _ (fun g hg => hfs g (List.mem_cons_of_mem f hg))]
    simp only [List.append_assoc, List.cons_append, List.nil_append]

theorem foldRes_optTok (c : Prop) [Decidable c] (t : Str) (rest : List Str)
    (b b2 : SD) (hThen : c → recStep b t = .ok b2) (hElse : ¬c → b = b2) :
    foldRes recStep b ((if c then [t] else []) ++ rest) = foldRes recStep b2 rest := by
  by_cases hc : c
  · rw [if_pos hc]
    rw [show (([t] : List Str) ++ rest) = t :: rest from rfl]
    simp only [foldRes, hThen hc]
  · rw [if_neg hc, List.nil_append, hElse hc]

theorem len_zero_nil {α : Type _} {x : List α} (hc : ¬ x.length > 0) : x = [] := by
  cases hx : x with
  | nil => rfl
  | cons a as =>
    rw [hx] at hc
    simp at hc

theorem eq_ten_empties (cls : List (List Str)) (hlen : cls.length = 10)
    (h : ∀ l ∈ cls, l.length = 0) :
    cls = [[], [], [], [], [], [], [], [], [], []] := by
  apply List.ext_getElem (by simp [hlen])
  intro i h1 h2
  have h3 : cls[i] = [] :=
    List.eq_nil_of_length_eq_zero (h _ (List.getElem_mem h1))
  rw [h3]
  have hi : i < 10 := by
    rw [hlen] at h1
    exact h1
  interval_cases i <;> rfl

theorem foldB (s : Spell) (hcs : CleanSpell s = true)
    (hm : s.mode = chars "Pathfinder 1e") :
    foldRes recStep (initSD s.name) (pfTokens s) = .ok (sdFinal s) := by
  obtain ⟨hnne, hnameC, hhash, hschool, hsub, hcast, hrange, hsave, htarget,
    hdur, hsr, hdescC, hsufC, hlen, hnames, hsufS, hsufAny, hdescr, hof⟩ :=
    cleanSpell_parts s hcs
  obtain ⟨hbrE, hbrN⟩ := cleanSpell_brackets s hcs
  have hTokSC : TokOk (chars "SCHOOL:" ++ s.school) :=
    tagTokOk (chars "SCHOOL") s.school (by decide) (by decide) (by decide) hschool
  have hTokSS : TokOk (chars "SUBSCHOOL:" ++ s.subschool) :=
    tagTokOk (chars "SUBSCHOOL") s.subschool (by decide) (by decide) (by decide) hsub
  have hTokCT : TokOk (chars "CASTTIME:" ++ s.casting_time) :=
    tagTokOk (chars "CASTTIME") s.casting_time (by decide) (by decide) (by decide) hcast
  have hTokRA : TokOk (chars "RANGE:" ++ s.range) :=
    tagTokOk (chars "RANGE") s.range (by decide) (by decide) (by decide) hrange
  have hTokDU : TokOk (chars "DURATION:" ++ s.duration) :=
    tagTokOk (chars "DURATION") s.duration (by decide) (by decide) (by decide) hdur
  have hTokSV : TokOk (chars "SAVEINFO:" ++ s.save) :=
    tagTokOk (chars "SAVEINFO") s.save (by decide) (by decide) (by decide) hsave
  have hTokSR : TokOk (chars "SPELLRES:" ++ s.sr) :=
    tagTokOk (chars "SPELLRES") s.sr (by decide) (by decide) (by decide) hsr
  have hTokTA : TokOk (chars "TARGETAREA:" ++ s.target) :=
    tagTokOk (chars "TARGETAREA") s.target (by decide) (by decide) (by decide) htarget
  have hTokDE : TokOk (chars "DESC:" ++ s.desc) :=
    tagTokOk (chars "DESC") s.desc (by decide) (by decide) (by decide) hdescC
  have hTokDR : TokOk (chars "DESCRIPTOR:" ++ joinCh '|' s.descriptors) :=
    descriptorBody_TokOk s hdescr
  have hclbody : TokOk ((classesToken s).tail) :=
    classesBody_TokOk s hnames hsufC hsufS
  unfold pfTokens
  simp only [List.append_assoc]
  have hB0 : initSD s.name = (SD.mk (s.name) ([[], [], [], [], [], [], [], [], [], []]) ([]) (false) (false) (false) (false) (false) (false) (false) (false) ([]) ([]) ([]) ([]) ([]) ([]) ([]) ([]) ([]) ([]) ([]) ([])) := rfl
  rw [hB0]
  rw [foldRes_optTok ((s.arcane || s.divine || s.psychic) = true) _ _
    (SD.mk (s.name) ([[], [], [], [], [], [], [], [], [], []]) ([]) (false) (false) (false) (false) (false) (false) (false) (false) ([]) ([]) ([]) ([]) ([]) ([]) ([]) ([]) ([]) ([]) ([]) ([]))
    (SD.mk (s.name) ([[], [], [], [], [], [], [], [], [], []]) ([]) (false) (false) (false) (false) (false) (s.arcane) (s.divine) (s.psychic) ([]) ([]) ([]) ([]) ([]) ([]) ([]) ([]) ([]) ([]) ([]) ([]))
    (fun hc => recStep_type s hm (SD.mk (s.name) ([[], [], [], [], [], [], [], [], [], []]) ([]) (false) (false) (false) (false) (false) (false) (false) (false) ([]) ([]) ([]) ([]) ([]) ([]) ([]) ([]) ([]) ([]) ([]) ([])))
    (fun hc => by
      simp only [Bool.or_eq_true, not_or, Bool.not_eq_true] at hc
      rw [hc.1.1, hc.1.2, hc.2])]
  rw [foldRes_optTok (s.school.length > 0) _ _
    (SD.mk (s.name) ([[], [], [], [], [], [], [], [], [], []]) ([]) (false) (false) (false) (false) (false) (s.arcane) (s.divine) (s.psychic) ([]) ([]) ([]) ([]) ([]) ([]) ([]) ([]) ([]) ([]) ([]) ([]))
    (SD.mk (s.name) ([[], [], [], [], [], [], [], [], [], []]) ([]) (false) (false) (false) (false) (false) (s.arcane) (s.divine) (s.psychic) (s.school) ([]) ([]) ([]) ([]) ([]) ([]) ([]) ([]) ([]) ([]) ([]))
    (fun hc => recStep_school (SD.mk (s.name) ([[], [], [], [], [], [], [], [], [], []]) ([]) (false) (false) (false) (false) (false) (s.arcane) (s.divine) (s.psychic) ([]) ([]) ([]) ([]) ([]) ([]) ([]) ([]) ([]) ([]) ([]) ([])) s.school (pyStrip_of_ends _ rfl hTokSC.2.2.1))
    (fun hc => by rw [len_zero_nil hc])]
  rw [foldRes_optTok (s.subschool.length > 0) _ _
    (SD.mk (s.name) ([[], [], [], [], [], [], [], [], [], []]) ([]) (false) (false) (false) (false) (false) (s.arcane) (s.divine) (s.psychic) (s.school) ([]) ([]) ([]) ([]) ([]) ([]) ([]) ([]) ([]) ([]) ([]))
    (SD.mk (s.name) ([[], [], [], [], [], [], [], [], [], []]) ([]) (false) (false) (false) (false) (false) (s.arcane) (s.divine) (s.psychic) (s.school) ([]) ([]) ([]) ([]) ([]) ([]) ([]) ([]) (s.subschool) ([]) ([]))
    (fun hc => recStep_subschool (SD.mk (s.name) ([[], [], [], [], [], [], [], [], [], []]) ([]) (false) (false) (false) (false) (false) (s.arcane) (s.divine) (s.psychic) (s.school) ([]) ([]) ([]) ([]) ([]) ([]) ([]) ([]) ([]) ([]) ([])) s.subschool (pyStrip_of_ends _ rfl hTokSS.2.2.1))
    (fun hc => by rw [len_zero_nil hc])]
  rw [foldRes_optTok (s.casting_time.length > 0) _ _
    (SD.mk (s.name) ([[], [], [], [], [], [], [], [], [], []]) ([]) (false) (false) (false) (false) (false) (s.arcane) (s.divine) (s.psychic) (s.school) ([]) ([]) ([]) ([]) ([]) ([]) ([]) ([]) (s.subschool) ([]) ([]))
    (SD.mk (s.name) ([[], [], [], [], [], [], [], [], [], []]) ([]) (false) (false) (false) (false) (false) (s.arcane) (s.divine) (s.psychic) (s.school) (s.casting_time) ([]) ([]) ([]) ([]) ([]) ([]) ([]) (s.subschool) ([]) ([]))
    (fun hc => recStep_casttime (SD.mk (s.name) ([[], [], [], [], [], [], [], [], [], []]) ([]) (false) (false) (false) (false) (false) (s.arcane) (s.divine) (s.psychic) (s.school) ([]) ([]) ([]) ([]) ([]) ([]) ([]) ([]) (s.subschool) ([]) ([])) s.casting_time (pyStrip_of_ends _ rfl hTokCT.2.2.1))
    (fun hc => by rw [len_zero_nil hc])]
  rw [foldRes_optTok (s.range.length > 0) _ _
    (SD.mk (s.name) ([[], [], [], [], [], [], [], [], [], []]) ([]) (false) (false) (false) (false) (false) (s.arcane) (s.divine) (s.psychic) (s.school) (s.casting_time) ([]) ([]) ([]) ([]) ([]) ([]) ([]) (s.subschool) ([]) ([]))
    (SD.mk (s.name) ([[], [], [], [], [], [], [], [], [], []]) ([]) (false) (false) (false) (false) (false) (s.arcane) (s.divine) (s.psychic) (s.school) (s.casting_time) (s.range) ([]) ([]) ([]) ([]) ([]) ([]) (s.subschool) ([]) ([]))
    (fun hc => recStep_range (SD.mk (s.name) ([[], [], [], [], [], [], [], [], [], []]) ([]) (false) (false) (false) (false) (false) (s.arcane) (s.divine) (s.psychic) (s.school) (s.casting_time) ([]) ([]) ([]) ([]) ([]) ([]) ([]) (s.subschool) ([]) ([])) s.range (pyStrip_of_ends _ rfl hTokRA.2.2.1))
    (fun hc => by rw [len_zero_nil hc])]
  rw [foldRes_optTok (s.duration.length > 0) _ _
    (SD.mk (s.name) ([[], [], [], [], [], [], [], [], [], []]) ([]) (false) (false) (false) (false) (false) (s.arcane) (s.divine) (s.psychic) (s.school) (s.casting_time) (s.range) ([]) ([]) ([]) ([]) ([]) ([]) (s.subschool) ([]) ([]))
    (SD.mk (s.name) ([[], [], [], [], [], [], [], [], [], []]) ([]) (false) (false) (false) (false) (false) (s.arcane) (s.divine) (s.psychic) (s.school) (s.casting_time) (s.range) (s.duration) ([]) ([]) ([]) ([]) ([]) (s.subschool) ([]) ([]))
    (fun hc => recStep_duration (SD.mk (s.name) ([[], [], [], [], [], [], [], [], [], []]) ([]) (false) (false) (false) (false) (false) (s.arcane) (s.divine) (s.psychic) (s.school) (s.casting_time) (s.range) ([]) ([]) ([]) ([]) ([]) ([]) (s.subschool) ([]) ([])) s.duration (pyStrip_of_ends _ rfl hTokDU.2.2.1))
    (fun hc => by rw [len_zero_nil hc])]
  rw [foldRes_optTok (s.save.length > 0) _ _
    (SD.mk (s.name) ([[], [], [], [], [], [], [], [], [], []]) ([]) (false) (false) (false) (false) (false) (s.arcane) (s.divine) (s.psychic) (s.school) (s.casting_time) (s.range) (s.duration) ([]) ([]) ([]) ([]) ([]) (s.subschool) ([]) ([]))
    (SD.mk (s.name) ([[], [], [], [], [], [], [], [], [], []]) ([]) (false) (false) (false) (false) (false) (s.arcane) (s.divine) (s.psychic) (s.school) (s.casting_time) (s.range) (s.duration) ([]) ([]) (s.save) ([]) ([]) (s.subschool) ([]) ([]))
    (fun hc => recStep_saveinfo (SD.mk (s.name) ([[], [], [], [], [], [], [], [], [], []]) ([]) (false) (false) (false) (false) (false) (s.arcane) (s.divine) (s.psychic) (s.school) (s.casting_time) (s.range) (s.duration) ([]) ([]) ([]) ([]) ([]) (s.subschool) ([]) ([])) s.save (pyStrip_of_ends _ rfl hTokSV.2.2.1))
    (fun hc => by rw [len_zero_nil hc])]
  rw [foldRes_optTok (s.sr.length > 0) _ _
    (SD.mk (s.name) ([[], [], [], [], [], [], [], [], [], []]) ([]) (false) (false) (false) (false) (false) (s.arcane) (s.divine) (s.psychic) (s.school) (s.casting_time) (s.range) (s.duration) ([]) ([]) (s.save) ([]) ([]) (s.subschool) ([]) ([]))
    (SD.mk (s.name) ([[], [], [], [], [], [], [], [], [], []]) ([]) (false) (false) (false) (false) (false) (s.arcane) (s.divine) (s.psychic) (s.school) (s.casting_time) (s.range) (s.duration) ([]) (s.sr) (s.save) ([]) ([]) (s.subschool) ([]) ([]))
    (fun hc => recStep_spellres (SD.mk (s.name) ([[], [], [], [], [], [], [], [], [], []]) ([]) (false) (false) (false) (false) (false) (s.arcane) (s.divine) (s.psychic) (s.school) (s.casting_time) (s.range) (s.duration) ([]) ([]) (s.save) ([]) ([]) (s.subschool) ([]) ([])) s.sr (pyStrip_of_ends _ rfl hTokSR.2.2.1))
    (fun hc => by rw [len_zero_nil hc])]
  rw [foldRes_optTok (s.target.length > 0) _ _
    (SD.mk (s.name) ([[], [], [], [], [], [], [], [], [], []]) ([]) (false) (false) (false) (false) (false) (s.arcane) (s.divine) (s.psychic) (s.school) (s.casting_time) (s.range) (s.duration) ([]) (s.sr) (s.save) ([]) ([]) (s.subschool) ([]) ([]))
    (SD.mk (s.name) ([[], [], [], [], [], [], [], [], [], []]) ([]) (false) (false) (false) (false) (false) (s.arcane) (s.divine) (s.psychic) (s.school) (s.casting_time) (s.range) (s.duration) ([]) (s.sr) (s.save) (s.target) ([]) (s.subschool) ([]) ([]))
    (fun hc => recStep_targetarea (SD.mk (s.name) ([[], [], [], [], [], [], [], [], [], []]) ([]) (false) (false) (false) (false) (false) (s.arcane) (s.divine) (s.psychic) (s.school) (s.casting_time) (s.range) (s.duration) ([]) (s.sr) (s.save) ([]) ([]) (s.subschool) ([]) ([])) s.target (pyStrip_of_ends _ rfl hTokTA.2.2.1))
    (fun hc => by rw [len_zero_nil hc])]
  rw [foldRes_optTok ((s.verbal || s.somatic || s.material || s.focus ||
      s.divine_focus) = true) _ _
    (SD.mk (s.name) ([[], [], [], [], [], [], [], [], [], []]) ([]) (false) (false) (false) (false) (false) (s.arcane) (s.divine) (s.psychic) (s.school) (s.casting_time) (s.range) (s.duration) ([]) (s.sr) (s.save) (s.target) ([]) (s.subschool) ([]) ([]))
    (SD.mk (s.name) ([[], [], [], [], [], [], [], [], [], []]) ([]) (s.verbal) (s.somatic) (s.material) (s.focus) (s.divine_focus) (s.arcane) (s.divine) (s.psychic) (s.school) (s.casting_time) (s.range) (s.duration) ([]) (s.sr) (s.save) (s.target) ([]) (s.subschool) ([]) ([]))
    (fun hc => recStep_comps s hm (SD.mk (s.name) ([[], [], [], [], [], [], [], [], [], []]) ([]) (false) (false) (false) (false) (false) (s.arcane) (s.divine) (s.psychic) (s.school) (s.casting_time) (s.range) (s.duration) ([]) (s.sr) (s.save) (s.target) ([]) (s.subschool) ([]) ([])) rfl rfl rfl rfl rfl)
    (fun hc => by
      simp only [Bool.or_eq_true, not_or, Bool.not_eq_true] at hc
      rw [hc.1.1.1.1, hc.1.1.1.2, hc.1.1.2, hc.1.2, hc.2])]
  rw [foldRes_optTok ((s.classes.any fun l => l.length > 0) = true) _ _
    (SD.mk (s.name) ([[], [], [], [], [], [], [], [], [], []]) ([]) (s.verbal) (s.somatic) (s.material) (s.focus) (s.divine_focus) (s.arcane) (s.divine) (s.psychic) (s.school) (s.casting_time) (s.range) (s.duration) ([]) (s.sr) (s.save) (s.target) ([]) (s.subschool) ([]) ([]))
    (SD.mk (s.name) (s.classes) (s.class_suffix) (s.verbal) (s.somatic) (s.material) (s.focus) (s.divine_focus) (s.arcane) (s.divine) (s.psychic) (s.school) (s.casting_time) (s.range) (s.duration) ([]) (s.sr) (s.save) (s.target) ([]) (s.subschool) ([]) ([]))
    (fun hc => recStep_classes s (SD.mk (s.name) ([[], [], [], [], [], [], [], [], [], []]) ([]) (s.verbal) (s.somatic) (s.material) (s.focus) (s.divine_focus) (s.arcane) (s.divine) (s.psychic) (s.school) (s.casting_time) (s.range) (s.duration) ([]) (s.sr) (s.save) (s.target) ([]) (s.subschool) ([]) ([])) rfl rfl hlen hnames hsufS hbrE hbrN hc hclbody)
    (fun hc => by
      have hall : ∀ l ∈ s.classes, l.length = 0 := by
        intro l hl
        by_contra hne2
        exact hc (List.any_eq_true.mpr ⟨l, hl, by simp; omega⟩)
      have hsfx0 : s.class_suffix = [] := by
        by_contra hne2
        exact hc (hsufAny hne2)
      rw [hsfx0, eq_ten_empties s.classes hlen hall])]
  rw [foldRes_optTok (s.descriptors.length > 0) _ _
    (SD.mk (s.name) (s.classes) (s.class_suffix) (s.verbal) (s.somatic) (s.material) (s.focus) (s.divine_focus) (s.arcane) (s.divine) (s.psychic) (s.school) (s.casting_time) (s.range) (s.duration) ([]) (s.sr) (s.save) (s.target) ([]) (s.subschool) ([]) ([]))
    (SD.mk (s.name) (s.classes) (s.class_suffix) (s.verbal) (s.somatic) (s.material) (s.focus) (s.divine_focus) (s.arcane) (s.divine) (s.psychic) (s.school) (s.casting_time) (s.range) (s.duration) ([]) (s.sr) (s.save) (s.target) (s.descriptors) (s.subschool) ([]) ([]))
    (fun hc => by
      rw [recStep_descriptorTag (SD.mk (s.name) (s.classes) (s.class_suffix) (s.verbal) (s.somatic) (s.material) (s.focus) (s.divine_focus) (s.arcane) (s.divine) (s.psychic) (s.school) (s.casting_time) (s.range) (s.duration) ([]) (s.sr) (s.save) (s.target) ([]) (s.subschool) ([]) ([])) (joinCh '|' s.descriptors)
        (pyStrip_of_ends _ rfl hTokDR.2.2.1)]
      rw [splitCh_joinCh '|' s.descriptors
        (by intro he; rw [he] at hc; simp at hc)
        (fun d hd => by
          have hdd := hdescr d hd
          unfold descriptorClean at hdd
          simp only [Bool.and_eq_true, Bool.not_eq_true'] at hdd
          exact hdd.2)])
    (fun hc => by rw [len_zero_nil hc])]
  rw [foldRes_optTok (s.desc.length > 0) _ _
    (SD.mk (s.name) (s.classes) (s.class_suffix) (s.verbal) (s.somatic) (s.material) (s.focus) (s.divine_focus) (s.arcane) (s.divine) (s.psychic) (s.school) (s.casting_time) (s.range) (s.duration) ([]) (s.sr) (s.save) (s.target) (s.descriptors) (s.subschool) ([]) ([]))
    (SD.mk (s.name) (s.classes) (s.class_suffix) (s.verbal) (s.somatic) (s.material) (s.focus) (s.divine_focus) (s.arcane) (s.divine) (s.psychic) (s.school) (s.casting_time) (s.range) (s.duration) (s.desc) (s.sr) (s.save) (s.target) (s.descriptors) (s.subschool) ([]) ([]))
    (fun hc => recStep_descTag (SD.mk (s.name) (s.classes) (s.class_suffix) (s.verbal) (s.somatic) (s.material) (s.focus) (s.divine_focus) (s.arcane) (s.divine) (s.psychic) (s.school) (s.casting_time) (s.range) (s.duration) ([]) (s.sr) (s.save) (s.target) (s.descriptors) (s.subschool) ([]) ([])) s.desc (pyStrip_of_ends _ rfl hTokDE.2.2.1))
    (fun hc => by rw [len_zero_nil hc])]
  rw [foldRes_otherList s.other_fields (SD.mk (s.name) (s.classes) (s.class_suffix) (s.verbal) (s.somatic) (s.material) (s.focus) (s.divine_focus) (s.arcane) (s.divine) (s.psychic) (s.school) (s.casting_time) (s.range) (s.duration) (s.desc) (s.sr) (s.save) (s.target) (s.descriptors) (s.subschool) ([]) ([])) hof]
  rfl

/-! ## Claim theorems -/

/-! ## Decode-encode-decode round trip (claim C1) -/

theorem parseSpellLine_roundTrip (s : Spell) (hcs : CleanSpell s = true)
    (hm : s.mode = chars "Pathfinder 1e") :
    parseSpellLine (pyStrip (spellStr s)) = .ok (mkSpell (sdFinal s)) := by
  unfold parseSpellLine
  rw [pfTokens_line s hcs hm]
  show (foldRes recStep (initSD s.name) (pfTokens s)).map mkSpell = _
  rw [foldB s hcs hm]
  rfl

theorem spellLine_classify (s : Spell) (hcs : CleanSpell s = true)
    (hm : s.mode = chars "Pathfinder 1e") :
    hasSub (chars "SOURCELONG") (pyStrip (spellStr s)) = false ∧
      hasSub (chars ".MOD") (pyStrip (spellStr s)) = false ∧
      ∃ c rest, pyStrip (spellStr s) = c :: rest ∧ c ≠ '#' := by
  obtain ⟨hnne, hns, hhd, hhash⟩ := cleanSpell_name_parts s hcs
  obtain ⟨hne, hhead, hmodF, hsrcF⟩ :=
    lineShape_stripped s.name (spellStr s) (pfTokens s)
      (lineShape_spellStr s hcs hm) hnne hhd
  refine ⟨hsrcF, hmodF, ?_⟩
  cases hline : pyStrip (spellStr s) with
  | nil => exact absurd hline hne
  | cons c rest =>
    refine ⟨c, rest, rfl, ?_⟩
    rw [hline] at hhead
    cases hn : s.name with
    | nil => exact absurd hn hnne
    | cons n0 nr =>
      rw [hn] at hhead hhash
      simp only [List.headD_cons] at hhead hhash
      rw [hhead]
      exact hhash

theorem processLine_record (st : DState) (s : Spell) (hcs : CleanSpell s = true)
    (hm : s.mode = chars "Pathfinder 1e") :
    processLine st (spellStr s) =
      .ok { st with spells := st.spells ++ [mkSpell (sdFinal s)] } := by
  obtain ⟨hsrcF, hmodF, c, rest, hline, hc⟩ := spellLine_classify s hcs hm
  have hp := parseSpellLine_roundTrip s hcs hm
  rw [hline] at hp hsrcF hmodF
  simp only [processLine, hline, hsrcF, hmodF, Bool.false_eq_true, if_false, hp]
  rw [if_neg hc]

theorem processLine_blank (st : DState) : processLine st [] = .ok st := rfl

theorem processLine_beginMods (st : DState) :
    processLine st (chars "# BEGIN MODS") = .ok st := rfl

theorem processLine_header (st : DState) (hdr : Str) (hstrip : pyStrip hdr = hdr)
    (hsrc : hasSub (chars "SOURCELONG") hdr = true) :
    processLine st hdr = .ok { st with header := hdr } := by
  simp only [processLine, hstrip, hsrc, if_true]

theorem processLine_modInert (st : DState) (mo : Str)
    (hok : ModLineOK mo (st.spells.map Spell.name) = true) :
    processLine st mo = .ok { st with mods := st.mods ++ [mo] } := by
  have hok2 := hok
  unfold ModLineOK at hok2
  simp only [Bool.and_eq_true, beq_iff_eq, Bool.not_eq_true', decide_eq_true_eq] at hok2
  obtain ⟨⟨⟨⟨⟨hstrip, hmod⟩, hsrc⟩, hlen2⟩, hjoin⟩, hmatch⟩ := hok2
  rw [processLine_modBranch st mo (by rw [hstrip]; exact hsrc)
    (by rw [hstrip]; exact hmod)]
  cases htoks : tokensOf mo with
  | nil =>
    rw [htoks] at hmatch
    exact absurd hmatch (by simp)
  | cons t0 ts =>
    rw [htoks] at hmatch hjoin hlen2
    have hnm : ∀ sp ∈ st.spells, sp.name ≠ replaceAll (chars ".MOD") [] t0 := by
      intro sp hsp
      have hmem : sp.name ∈ st.spells.map Spell.name := List.mem_map_of_mem _ hsp
      have hall := List.all_eq_true.mp hmatch _ hmem
      simpa using hall
    have hgt : (t0 :: ts).length > 1 := by
      simp only [List.length_cons] at hlen2 ⊢
      omega
    have hproc : processModLine (pyStrip mo) st.spells st.mods =
        .ok (st.spells, st.mods ++ [mo]) := by
      rw [hstrip]
      simp only [processModLine, htoks,
        modSpellsLoop_nomatch st.spells _ _ hnm]
      rw [if_pos hgt, hjoin]
    rw [hproc]

theorem cleanSpell_setMode (s : Spell) (m : Str) :
    CleanSpell (setMode s m) = CleanSpell s := rfl

theorem tupleEq_setMode (s t : Spell) (m : Str) :
    TupleEq (setMode s m) t = TupleEq s t := rfl

theorem genSpellLines_eq (rs : List Spell) (m : Str) :
    genSpellLines rs m =
      (rs.map fun r => spellStr (setMode r m), rs.map fun r => setMode r m) := by
  induction rs with
  | nil => rfl
  | cons r rest ih => simp only [genSpellLines, ih, List.map_cons]

theorem pyStrip_nil : pyStrip ([] : Str) = [] := rfl

theorem map_pyStrip_id (l : List Str) (h : ∀ x ∈ l, pyStrip x = x) :
    l.map pyStrip = l := by
  induction l with
  | nil => rfl
  | cons x xs ih =>
    rw [List.map_cons, h x (by simp), ih fun y hy => h y (by simp [hy])]

theorem descriptorClean_str (d : Str) (h : descriptorClean d = true) :
    strClean d = true := by
  unfold descriptorClean at h
  simp only [Bool.and_eq_true] at h
  exact h.1

theorem otherFieldClean_str (f : Str) (h : otherFieldClean f = true) :
    strClean f = true := by
  unfold otherFieldClean at h
  simp only [Bool.and_eq_true] at h
  exact h.1.1.2

theorem tupleEq_mkSpell (s : Spell) (hcs : CleanSpell s = true) :
    TupleEq s (mkSpell (sdFinal s)) = true := by
  obtain ⟨hnne, hnameC, hhash, hschool, hsub, hcast, hrange, hsave, htarget,
    hdur, hsr, hdescC, hsufC, hlen, hnames, hsufS, hsufAny, hdescr, hof⟩ :=
    cleanSpell_parts s hcs
  have hdm : s.descriptors.map pyStrip = s.descriptors :=
    map_pyStrip_id _ fun d hd =>
      (strClean_parts d (descriptorClean_str d (hdescr d hd))).1
  have hom : s.other_fields.map pyStrip = s.other_fields :=
    map_pyStrip_id _ fun f hf =>
      (strClean_parts f (otherFieldClean_str f (hof f hf))).1
  simp only [TupleEq, mkSpell, sdFinal, hdm, hom, pyStrip_nil,
    (strClean_parts _ hnameC).1, (strClean_parts _ hschool).1,
    (strClean_parts _ hsub).1, (strClean_parts _ hcast).1,
    (strClean_parts _ hrange).1, (strClean_parts _ hsave).1,
    (strClean_parts _ htarget).1, (strClean_parts _ hdur).1,
    (strClean_parts _ hsr).1, (strClean_parts _ hdescC).1,
    (strClean_parts _ hsufC).1]
  simp

theorem names_mkSpell (rs : List Spell) (hclean : ∀ r ∈ rs, CleanSpell r = true) :
    (rs.map fun r =>
        mkSpell (sdFinal (setMode r (chars "Pathfinder 1e")))).map Spell.name =
      rs.map Spell.name := by
  induction rs with
  | nil => rfl
  | cons r rest ih =>
    obtain ⟨_, hnameC, _⟩ := cleanSpell_parts r (hclean r (by simp))
    simp only [List.map_cons]
    rw [ih fun x hx => hclean x (by simp [hx])]
    congr 1
    exact (strClean_parts _ hnameC).1

theorem tupleEq_all (rs : List Spell) (hclean : ∀ r ∈ rs, CleanSpell r = true) :
    List.Forall₂ (fun r r2 => TupleEq r r2 = true) rs
      (rs.map fun r => mkSpell (sdFinal (setMode r (chars "Pathfinder 1e")))) := by
  induction rs with
  | nil => exact List.Forall₂.nil
  | cons r rest ih =>
    refine List.Forall₂.cons ?_ (ih fun x hx => hclean x (by simp [hx]))
    rw [← tupleEq_setMode r _ (chars "Pathfinder 1e")]
    exact tupleEq_mkSpell (setMode r (chars "Pathfinder 1e"))
      (by rw [cleanSpell_setMode]; exact hclean r (by simp))

theorem foldRecords (rs : List Spell) (hclean : ∀ r ∈ rs, CleanSpell r = true) :
    ∀ st : DState,
      foldRes processLine st
          (rs.map fun r => spellStr (setMode r (chars "Pathfinder 1e"))) =
        .ok { st with
          spells := st.spells ++
            rs.map (fun r => mkSpell (sdFinal (setMode r (chars "Pathfinder 1e")))) } := by
  induction rs with
  | nil =>
    intro st
    simp only [List.map_nil, List.append_nil]
    rfl
  | cons r rest ih =>
    intro st
    have hc : CleanSpell (setMode r (chars "Pathfinder 1e")) = true := by
      rw [cleanSpell_setMode]
      exact hclean r (by simp)
    simp only [List.map_cons, foldRes,
      processLine_record st (setMode r (chars "Pathfinder 1e")) hc rfl]
    rw [ih fun x hx => hclean x (by simp [hx])]
    simp [List.append_assoc]

theorem foldMods (ms : List Str) :
    ∀ st : DState, (∀ mo ∈ ms, ModLineOK mo (st.spells.map Spell.name) = true) →
      foldRes processLine st ms = .ok { st with mods := st.mods ++ ms } := by
  induction ms with
  | nil =>
    intro st _
    simp only [List.append_nil]
    rfl
  | cons mo ms ih =>
    intro st hms
    simp only [foldRes, processLine_modInert st mo (hms mo (by simp))]
    rw [ih { st with mods := st.mods ++ [mo] } fun x hx => hms x (by simp [hx])]
    simp [List.append_assoc]

/-- Claim C9 (confirmed): decoding the Fireball line yields exactly one
record with name Fireball, only the arcane type flag, Wizard and Sorcerer
at level 3 and no class anywhere else, school Evocation, exactly the
verbal, somatic and material component flags, and the given description;
re-encoding that record produces a line whose nonempty tab-separated
tokens are a permutation of the input line's tokens (so the same tag-value
pairs, differing only in padding and column order). -/
theorem c9_fireball_scenario :
    load_spell_lst [fireballLine] = .ok ⟨[], [fireballSpell], []⟩ ∧
      ((splitCh '\t' (pyStrip (spellStr fireballSpell))).filter (fun t => !t.isEmpty)).Perm
        ((splitCh '\t' fireballLine).filter (fun t => !t.isEmpty)) := by
  decide

/-- Claim C2 counterexample: the record line X with classes-token
CLASSES:Wizard=-1 has a level outside 0-9, yet decoding succeeds and the
class list is silently stored in the level-9 slot (Python negative
indexing), contradicting the claim that such a line is a fatal decode
error and is never silently merged into some other level slot. -/
theorem c2_counterexample :
    load_spell_lst [chars "X\tCLASSES:Wizard=-1"] =
      .ok ⟨[], [{ (mkSpell (initSD (chars "X"))) with
        classes := [[], [], [], [], [], [], [], [], [], [chars "Wizard"]] }], []⟩ := by
  decide

/-- Claim C3 counterexample: the names Fireball and FIREBALL agree
case-insensitively (so Spell.eq equates the records), yet the directive
FIREBALL.MOD does not merge into the decoded record Fireball: the merge
lookup compares names with the case-sensitive operator, the level-3 slot
stays empty, and the whole directive is preserved as a modification line
instead. -/
theorem c3_counterexample :
    pyUpper (chars "Fireball") = pyUpper (chars "FIREBALL") ∧
      load_spell_lst
          [chars "Fireball\tSCHOOL:Evocation", chars "FIREBALL.MOD\tCLASSES:Witch=3"] =
        .ok ⟨[], [{ (mkSpell (initSD (chars "Fireball"))) with school := chars "Evocation" }],
          [chars "FIREBALL.MOD\tCLASSES:Witch=3"]⟩ := by
  decide

/-- Claim C5 counterexample: a directive whose target Ghost matches no
record leaves the classes-token in place: the stored modification line is
the whole directive, classes-token included, not just the remaining
unconsumed tokens. -/
theorem c5_counterexample :
    load_spell_lst [chars "Ghost.MOD\tCLASSES:Witch=3"] =
        .ok ⟨[], [], [chars "Ghost.MOD\tCLASSES:Witch=3"]⟩ ∧
      hasSub (chars "CLASSES:Witch=3") (chars "Ghost.MOD\tCLASSES:Witch=3") = true := by
  decide

/-- Claim C7 counterexample: the school token of longSchoolSpell is 59
characters, exceeding its nominal width 4 times the tab unit by 5 tab
units, yet no debt is recorded for it (the school block of Spell.str
computes its padding inline and never touches excess_tabs): the encoded
line carries the full 74 trailing padding tabs (0 school + 5 subschool +
6 casttime + 5 range + 11 duration + 8 save + 5 sr + 11 target + 4 comps +
11 classes + 8 descriptor), whereas the claim predicts the immediately
following subschool padding reduced by min(5, 5), i.e. 69 tabs. -/
theorem c7_counterexample :
    (pyStrip (chars "SCHOOL:" ++ longSchoolSpell.school)).length > 4 * tabSize ∧
      (pyStrip (chars "SCHOOL:" ++ longSchoolSpell.school)).length / tabSize - 4 = 5 ∧
      spellStr longSchoolSpell =
        chars "Y" ++ List.replicate 12 '\t' ++
          chars "SCHOOL:AbcdefghijklmnopqrstuvwxyzAbcdefghijklmnopqrstuvwxyz" ++
          List.replicate 74 '\t' := by
  decide

/-- Claim C8 counterexample: writing a spell list is not mutation-free:
generate_spell_lst assigns the requested rule-system variant to the mode
field of every input record, so encoding fireballSpell (a Pathfinder 1e
record) under D&D 5e leaves the stored record list changed. -/
theorem c8_counterexample :
    (generate_spell_lst [fireballSpell] [] (chars "H") (chars "D&D 5e")).2 ≠
        [fireballSpell] ∧
      (generate_spell_lst [fireballSpell] [] (chars "H") (chars "D&D 5e")).2 =
        [{ fireballSpell with mode := chars "D&D 5e" }] := by
  decide

/-- Claim C7 amended (proved): for tokens that go through
calculate_tabs_raw, overflow past the nominal width is recorded as debt of
exactly floor(len/tabUnit) - nominalWidth; the pay-down loop reduces the
next computed padding by exactly min(debt, padding), and the padding
actually appended is the (never negative) truncation of what survives.
(The school, subschool and TYPE blocks bypass this accounting - see the
counterexample.) -/
theorem c7_debt_arithmetic (token : Str) (w : Nat) (out : Str) (t e : Int)
    (hover : (pyStrip token).length > w * tabSize) (ht : 0 ≤ t) (he : 0 ≤ e) :
    (calculate_tabs_raw token w).2 = (pyStrip token).length / tabSize - w ∧
      payDebt t e = (t - min t e, e - min t e) ∧
      (payAndPad out t e).1 = out ++ List.replicate (t - min t e).toNat '\t' ∧
      (payAndPad out t e).2 = e - min t e := by
  refine ⟨?_, payDebt_spec t e ht he, ?_, ?_⟩
  · unfold calculate_tabs_raw
    simp only []
    rw [if_pos hover]
  · unfold payAndPad tabMul
    rw [payDebt_spec t e ht he]
  · unfold payAndPad
    rw [payDebt_spec t e ht he]

/-- Witness for c7_debt_arithmetic: the token ABCDEFGHIJKLM (13 chars) in
a column of nominal width 2, with computed padding 3 and pending debt 2. -/
theorem c7_debt_arithmetic_witness :
    (calculate_tabs_raw (chars "ABCDEFGHIJKLM") 2).2 =
        (pyStrip (chars "ABCDEFGHIJKLM")).length / tabSize - 2 ∧
      payDebt 3 2 = (3 - min 3 2, 2 - min 3 2) ∧
      (payAndPad [] 3 2).1 = [] ++ List.replicate ((3 : Int) - min 3 2).toNat '\t' ∧
      (payAndPad [] 3 2).2 = 2 - min 3 2 :=
  c7_debt_arithmetic (chars "ABCDEFGHIJKLM") 2 [] 3 2 (by decide) (by decide) (by decide)

/-- Claim C8 amended (proved): generate_spell_lst is pure except for one
mutation: it assigns the requested rule-system variant to each record's
mode field (leaving every other field untouched), and each output record
line is a function of that single record alone - the debt counter never
carries from one record's line to the next. -/
theorem c8_encode_frame (spells : List Spell) (mods : List Str) (header m : Str) :
    generate_spell_lst spells mods header m =
        (header :: [] :: (spells.map fun s => spellStr (setMode s m)) ++
            [[], chars "# BEGIN MODS"] ++ mods,
          spells.map fun s => setMode s m) ∧
      ∀ s : Spell, (setMode s m).name = s.name ∧ (setMode s m).school = s.school ∧
        (setMode s m).subschool = s.subschool ∧
        (setMode s m).casting_time = s.casting_time ∧
        (setMode s m).range = s.range ∧ (setMode s m).save = s.save ∧
        (setMode s m).target = s.target ∧ (setMode s m).duration = s.duration ∧
        (setMode s m).sr = s.sr ∧ (setMode s m).desc = s.desc ∧
        (setMode s m).material_desc = s.material_desc ∧
        (setMode s m).class_suffix = s.class_suffix ∧
        (setMode s m).classes = s.classes ∧ (setMode s m).arcane = s.arcane ∧
        (setMode s m).divine = s.divine ∧ (setMode s m).psychic = s.psychic ∧
        (setMode s m).verbal = s.verbal ∧ (setMode s m).somatic = s.somatic ∧
        (setMode s m).material = s.material ∧ (setMode s m).focus = s.focus ∧
        (setMode s m).divine_focus = s.divine_focus ∧
        (setMode s m).descriptors = s.descriptors ∧
        (setMode s m).other_fields = s.other_fields ∧
        (setMode s m).mode = m := by
  constructor
  · have key : ∀ sp : List Spell,
        genSpellLines sp m = (sp.map fun s => spellStr (setMode s m), sp.map fun s => setMode s m) := by
      intro sp
      induction sp with
      | nil => rfl
      | cons s rest ih => simp [genSpellLines, ih]
    unfold generate_spell_lst
    rw [key]
  · intro s
    refine ⟨rfl, rfl, rfl, rfl, rfl, rfl, rfl, rfl, rfl, rfl, rfl, rfl, rfl, rfl, rfl,
      rfl, rfl, rfl, rfl, rfl, rfl, rfl, rfl, rfl⟩

theorem processLine_mod_additive (st : DState) (raw : Str) (st2 : DState)
    (hmod : hasSub (chars ".MOD") (pyStrip raw) = true)
    (hsrc : hasSub (chars "SOURCELONG") (pyStrip raw) = false)
    (hok : processLine st raw = .ok st2) :
    st2.header = st.header ∧ st2.spells.length = st.spells.length ∧
      ∀ i, i < st.spells.length →
        spellExtends (st.spells.getD i defaultSpell) (st2.spells.getD i defaultSpell) := by
  rw [processLine_modBranch st raw hsrc hmod] at hok
  cases hp : processModLine (pyStrip raw) st.spells st.mods with
  | err e =>
    rw [hp] at hok
    exact Res.noConfusion hok
  | ok pr =>
    rw [hp] at hok
    cases hok
    obtain ⟨hlen, hext, _⟩ := processModLine_spec _ _ _ _ hp
    exact ⟨rfl, hlen, hext⟩

/-- Claim C4 (confirmed): any modification directive that decode applies
successfully is additive only: the header is untouched, no record is added
or removed, and every record is related to its old value by spellExtends -
identical in every field except that class_suffix may only be extended on
the right and each classes-by-level slot may only have entries appended on
the right (nothing is removed or replaced). -/
theorem c4_merge_additive (st : DState) (raw : Str) (st2 : DState)
    (hmod : hasSub (chars ".MOD") (pyStrip raw) = true)
    (hsrc : hasSub (chars "SOURCELONG") (pyStrip raw) = false)
    (hok : processLine st raw = .ok st2) :
    st2.header = st.header ∧ st2.spells.length = st.spells.length ∧
      ∀ i, i < st.spells.length →
        spellExtends (st.spells.getD i defaultSpell) (st2.spells.getD i defaultSpell) :=
  processLine_mod_additive st raw st2 hmod hsrc hok

/-- Witness for c4_merge_additive: a directive adding Witch at level 3 to
the decoded Fireball record. -/
theorem c4_merge_additive_witness :
    DState.header ⟨[], [{ fireballSpell with
          classes := [[], [], [],
            [chars "Wizard", chars "Sorcerer", chars "Witch"], [], [], [], [], [], []] }],
        []⟩ = DState.header ⟨[], [fireballSpell], []⟩ ∧
      (DState.spells ⟨[], [{ fireballSpell with
          classes := [[], [], [],
            [chars "Wizard", chars "Sorcerer", chars "Witch"], [], [], [], [], [], []] }],
        []⟩).length = (DState.spells ⟨[], [fireballSpell], []⟩).length ∧
      ∀ i, i < (DState.spells ⟨[], [fireballSpell], []⟩).length →
        spellExtends ((DState.spells ⟨[], [fireballSpell], []⟩).getD i defaultSpell)
          ((DState.spells ⟨[], [{ fireballSpell with
              classes := [[], [], [],
                [chars "Wizard", chars "Sorcerer", chars "Witch"], [], [], [], [], [], []] }],
            []⟩).getD i defaultSpell) :=
  c4_merge_additive ⟨[], [fireballSpell], []⟩ (chars "Fireball.MOD\tCLASSES:Witch=3")
    ⟨[], [{ fireballSpell with
      classes := [[], [], [],
        [chars "Wizard", chars "Sorcerer", chars "Witch"], [], [], [], [], [], []] }], []⟩
    (by decide) (by decide) (by decide)

/-- Claim C10 (confirmed): any stripped line that contains .MOD anywhere
and does not contain the header marker SOURCELONG is routed to the
modification-directive branch, and whenever that processing succeeds the
record list has the same length and the same names as before and the
header is untouched: such a line is never parsed as a standalone record,
even when .MOD occurs only inside a field value. -/
theorem c10_dot_mod_classification (st : DState) (raw : Str)
    (hmod : hasSub (chars ".MOD") (pyStrip raw) = true)
    (hsrc : hasSub (chars "SOURCELONG") (pyStrip raw) = false) :
    (processLine st raw =
        match processModLine (pyStrip raw) st.spells st.mods with
        | .err e => .err e
        | .ok pr => .ok ⟨st.header, pr.1, pr.2⟩) ∧
      ∀ st2, processLine st raw = .ok st2 →
        st2.spells.length = st.spells.length ∧
          st2.spells.map Spell.name = st.spells.map Spell.name ∧
          st2.header = st.header := by
  refine ⟨processLine_modBranch st raw hsrc hmod, ?_⟩
  intro st2 hok
  obtain ⟨hh, hlen, hext⟩ := processLine_mod_additive st raw st2 hmod hsrc hok
  exact ⟨hlen, map_name_of_extends _ _ hlen hext, hh⟩

/-- Witness for c10_dot_mod_classification: a line whose .MOD occurs only
inside the DESC value; it is treated as a directive targeting a record
named Y (none exists), so it lands in the modification lines and no record
is created. -/
theorem c10_dot_mod_classification_witness :
    (processLine ⟨[], [], []⟩ (chars "Y\tDESC:see .MOD below") =
        match processModLine (pyStrip (chars "Y\tDESC:see .MOD below")) [] [] with
        | .err e => .err e
        | .ok pr => .ok ⟨[], pr.1, pr.2⟩) ∧
      ∀ st2, processLine ⟨[], [], []⟩ (chars "Y\tDESC:see .MOD below") = .ok st2 →
        st2.spells.length = ([] : List Spell).length ∧
          st2.spells.map Spell.name = ([] : List Spell).map Spell.name ∧
          st2.header = [] :=
  c10_dot_mod_classification ⟨[], [], []⟩ (chars "Y\tDESC:see .MOD below")
    (by decide) (by decide)

/-- Claim C5 amended (proved): a modification directive whose target name
matches no decoded record modifies and creates nothing, and its token list
is left entirely untouched: when the directive has at least two nonempty
tokens they are ALL preserved (classes-token included) re-joined as one
modification-lines entry; a single-token directive contributes nothing. -/
theorem c5_unmatched_directive (st : DState) (raw : Str) (t0 : Str) (rest : List Str)
    (hmod : hasSub (chars ".MOD") (pyStrip raw) = true)
    (hsrc : hasSub (chars "SOURCELONG") (pyStrip raw) = false)
    (htok : tokensOf (pyStrip raw) = t0 :: rest)
    (hnom : ∀ sp, sp ∈ st.spells → sp.name ≠ replaceAll (chars ".MOD") [] t0) :
    processLine st raw = .ok ⟨st.header, st.spells,
      if rest.isEmpty then st.mods
      else st.mods ++ [joinCh '\t' (t0 :: rest)]⟩ := by
  rw [processLine_modBranch st raw hsrc hmod]
  have hloop := modSpellsLoop_nomatch st.spells (replaceAll (chars ".MOD") [] t0)
    (t0 :: rest) hnom
  cases rest with
  | nil => simp only [processModLine, htok, hloop, List.length_cons, List.length_nil,
      List.isEmpty_nil, if_true, gt_iff_lt, Nat.lt_irrefl, if_false]
  | cons r rs =>
    simp only [processModLine, htok, hloop, List.length_cons, List.isEmpty_cons,
      Bool.false_eq_true, if_false, gt_iff_lt]
    rw [if_pos (by omega)]

/-- Witness for c5_unmatched_directive: the Ghost directive with an
unmatched target and two tokens. -/
theorem c5_unmatched_directive_witness :
    processLine ⟨[], [], []⟩ (chars "Ghost.MOD\tCLASSES:Witch=3") =
      .ok ⟨[], [],
        if ([chars "CLASSES:Witch=3"] : List Str).isEmpty then ([] : List Str)
        else [] ++ [joinCh '\t' (chars "Ghost.MOD" :: [chars "CLASSES:Witch=3"])]⟩ :=
  c5_unmatched_directive ⟨[], [], []⟩ (chars "Ghost.MOD\tCLASSES:Witch=3")
    (chars "Ghost.MOD") [chars "CLASSES:Witch=3"]
    (by decide) (by decide) (by decide) (fun sp h => absurd h (List.not_mem_nil sp))

/-- Claim C6 (confirmed): a modification directive made of a name token
plus a classes-token, whose target record exists, has the classes-token
fully consumed: its class/level pairs are merged (mergeClassesValue) into
the first record whose name matches the target exactly, every other record
is untouched, and the directive contributes a modification-lines entry iff
tokens besides the name remain after extraction, namely the remaining
tokens re-joined with the column separator. -/
theorem c6_classes_directive_consumed (st : DState) (raw : Str) (n c : Str)
    (rest : List Str) (v : Str) (j : Nat) (sp2 : Spell)
    (hmod : hasSub (chars ".MOD") (pyStrip raw) = true)
    (hsrc : hasSub (chars "SOURCELONG") (pyStrip raw) = false)
    (htok : tokensOf (pyStrip raw) = n :: c :: rest)
    (hn : (chars "CLASSES:").isPrefixOf n = false)
    (hc1 : (chars "CLASSES:").isPrefixOf c = true)
    (hc2 : (chars "CLASSES:").isSuffixOf c = false)
    (hrest : ∀ t, t ∈ rest → (chars "CLASSES:").isPrefixOf t = false)
    (hv : (splitFirst ':' c).2 = some v)
    (hj : j < st.spells.length)
    (hname : (st.spells.getD j defaultSpell).name = replaceAll (chars ".MOD") [] n)
    (hbefore : ∀ i, i < j →
      (st.spells.getD i defaultSpell).name ≠ replaceAll (chars ".MOD") [] n)
    (hmerge : mergeClassesValue v (st.spells.getD j defaultSpell) = .ok sp2) :
    processLine st raw = .ok ⟨st.header, st.spells.set j sp2,
      if rest.isEmpty then st.mods
      else st.mods ++ [joinCh '\t' (n :: rest)]⟩ := by
  rw [processLine_modBranch st raw hsrc hmod]
  have hloop := modSpellsLoop_consume st.spells (replaceAll (chars ".MOD") [] n)
    n c rest v j sp2 hn hc1 hc2 hrest hv hj hname hbefore hmerge
  cases rest with
  | nil => simp only [processModLine, htok, hloop, List.length_cons, List.length_nil,
      List.isEmpty_nil, if_true, gt_iff_lt, Nat.lt_irrefl, if_false]
  | cons r rs =>
    simp only [processModLine, htok, hloop, List.length_cons, List.isEmpty_cons,
      Bool.false_eq_true, if_false, gt_iff_lt]
    rw [if_pos (by omega)]

/-- Witness for c6_classes_directive_consumed: the spec's own example -
Fireball.MOD with CLASSES:Witch=3 against the decoded Fireball record adds
Witch at level 3 and produces no modification-lines entry. -/
theorem c6_classes_directive_consumed_witness :
    processLine ⟨[], [fireballSpell], []⟩ (chars "Fireball.MOD\tCLASSES:Witch=3") =
      .ok ⟨[], [fireballSpell].set 0 { fireballSpell with
          classes := [[], [], [],
            [chars "Wizard", chars "Sorcerer", chars "Witch"], [], [], [], [], [], []] },
        if ([] : List Str).isEmpty then ([] : List Str)
        else [] ++ [joinCh '\t' (chars "Fireball.MOD" :: ([] : List Str))]⟩ :=
  c6_classes_directive_consumed ⟨[], [fireballSpell], []⟩
    (chars "Fireball.MOD\tCLASSES:Witch=3") (chars "Fireball.MOD")
    (chars "CLASSES:Witch=3") [] (chars "Witch=3") 0
    { fireballSpell with
      classes := [[], [], [],
        [chars "Wizard", chars "Sorcerer", chars "Witch"], [], [], [], [], [], []] }
    (by decide) (by decide) (by decide) (by decide) (by decide) (by decide)
    (fun t ht => absurd ht (List.not_mem_nil t)) (by decide) (by decide) (by decide)
    (fun i hi => absurd hi (Nat.not_lt_zero i)) (by decide)

/-- Claim C2 amended (proved): on a record line (not a header, not a
directive, not blank or comment), a classes-token containing a level group
with no level, a non-integer level, or an integer level outside -10..9
makes the whole decode of that line raise an error - nothing is silently
dropped.  (An integer level in -10..-1 is the exception the counterexample
exhibits: Python's negative indexing silently stores it in slot
level + 10.) -/
theorem c2_bad_level_error (st : DState) (raw : Str) (t v g : Str)
    (hsrc : hasSub (chars "SOURCELONG") (pyStrip raw) = false)
    (hmod : hasSub (chars ".MOD") (pyStrip raw) = false)
    (hhead : (pyStrip raw).headD '#' ≠ '#')
    (hmem : t ∈ (tokensOf (pyStrip raw)).tail)
    (hc1 : (chars "CLASSES:").isPrefixOf (pyStrip t) = true)
    (hc2 : (chars "CLASSES:").isSuffixOf (pyStrip t) = false)
    (hv : (splitFirst ':' (pyStrip t)).2 = some v)
    (hg : g ∈ splitCh '|' (stripBracketSq v).2)
    (hbad : badLevelB g = true) :
    ∃ e, processLine st raw = .err e := by
  cases htoks : tokensOf (pyStrip raw) with
  | nil =>
    rw [htoks] at hmem
    exact absurd hmem (List.not_mem_nil t)
  | cons t0 rest =>
    have hmem2 : t ∈ rest := by
      rw [htoks] at hmem
      exact hmem
    obtain ⟨e, he⟩ := foldRes_recStep_err rest (initSD t0) t v g hmem2 rfl
      hc1 hc2 hv hg hbad
    refine ⟨e, ?_⟩
    have hparse : parseSpellLine (pyStrip raw) = .err e := by
      unfold parseSpellLine
      simp only [htoks, he, Res.map]
    cases hline : pyStrip raw with
    | nil =>
      exfalso
      apply hhead
      rw [hline]
      rfl
    | cons c rest2 =>
      have hch : ¬c = '#' := by
        rw [hline] at hhead
        simpa using hhead
      rw [hline] at hparse hsrc hmod
      simp only [processLine, hline, hsrc, hmod, Bool.false_eq_true, if_false]
      rw [if_neg hch]
      simp only [hparse]

/-- Witness for c2_bad_level_error: the line X with CLASSES:Wizard=12 -
level 12 is outside every slot, decoding raises. -/
theorem c2_bad_level_error_witness :
    ∃ e, processLine ⟨[], [], []⟩ (chars "X\tCLASSES:Wizard=12") = .err e :=
  c2_bad_level_error ⟨[], [], []⟩ (chars "X\tCLASSES:Wizard=12")
    (chars "CLASSES:Wizard=12") (chars "Wizard=12") (chars "Wizard=12")
    (by decide) (by decide) (by decide) (by decide) (by decide) (by decide)
    (by decide) (by decide) (by decide)

/-- Claim C3 amended (proved): record equality (Spell.eq) is
case-insensitive on names, but the merge lookup of a modification
directive compares the stored name to the target with the case-sensitive
equality operator, so any record whose exact name differs from the target
is left completely unchanged by the directive - even when the two names
agree case-insensitively. -/
theorem c3_case_sensitivity (s t : Spell) (st : DState) (raw : Str) (st2 : DState)
    (t0 : Str) (rest : List Str) (i : Nat)
    (hmod : hasSub (chars ".MOD") (pyStrip raw) = true)
    (hsrc : hasSub (chars "SOURCELONG") (pyStrip raw) = false)
    (htok : tokensOf (pyStrip raw) = t0 :: rest)
    (hok : processLine st raw = .ok st2)
    (hi : i < st.spells.length)
    (hne : (st.spells.getD i defaultSpell).name ≠ replaceAll (chars ".MOD") [] t0) :
    (spellEq s t = true ↔ pyUpper s.name = pyUpper t.name) ∧
      st2.spells.getD i defaultSpell = st.spells.getD i defaultSpell := by
  constructor
  · unfold spellEq
    exact beq_iff_eq
  · rw [processLine_modBranch st raw hsrc hmod] at hok
    cases hp : processModLine (pyStrip raw) st.spells st.mods with
    | err e =>
      rw [hp] at hok
      exact Res.noConfusion hok
    | ok pr =>
      rw [hp] at hok
      cases hok
      obtain ⟨_, _, hunt⟩ := processModLine_spec _ _ _ _ hp
      exact hunt i hi (by simpa [htok] using hne)

/-- Witness for c3_case_sensitivity: FIREBALL.MOD against the record named
Fireball - the names agree case-insensitively yet the record stays
unchanged. -/
theorem c3_case_sensitivity_witness :
    (spellEq fireballSpell { fireballSpell with name := chars "FIREBALL" } = true ↔
        pyUpper fireballSpell.name =
          pyUpper (Spell.name { fireballSpell with name := chars "FIREBALL" })) ∧
      (DState.spells ⟨[], [fireballSpell], [chars "FIREBALL.MOD\tCLASSES:Witch=3"]⟩).getD
          0 defaultSpell =
        (DState.spells ⟨[], [fireballSpell], []⟩).getD 0 defaultSpell :=
  c3_case_sensitivity fireballSpell { fireballSpell with name := chars "FIREBALL" }
    ⟨[], [fireballSpell], []⟩ (chars "FIREBALL.MOD\tCLASSES:Witch=3")
    ⟨[], [fireballSpell], [chars "FIREBALL.MOD\tCLASSES:Witch=3"]⟩
    (chars "FIREBALL.MOD") [chars "CLASSES:Witch=3"] 0
    (by decide) (by decide) (by decide) (by decide) (by decide) (by decide)

/-- Claim C1 counterexample: decoding lossLine yields a record whose
material description is gold; re-encoding under the same (Pathfinder 1e)
variant and decoding again loses that text field entirely, and the
re-encoded COMPS token reads COMPS:V,M — its content differs from the
input token COMPS:M,V (gold) beyond mere tab padding. -/
theorem c1_counterexample :
    load_spell_lst [lossLine] = .ok ⟨[], [lossSpell], []⟩ ∧
      lossSpell.material_desc = chars "gold" ∧
      load_spell_lst ((generate_spell_lst [lossSpell] [] [] (chars "Pathfinder 1e")).1) =
        .ok ⟨[], [{ lossSpell with material_desc := [] }], []⟩ ∧
      hasSub (chars "COMPS:V,M") (spellStr lossSpell) = true ∧
      hasSub (chars "gold") (spellStr lossSpell) = false := by
  decide

/-- Claim C1 (corrected): for a decoded document whose records are clean
(CleanSpell holds of each - as it does for records the decoder builds from
ordinary lines), whose header is empty or a genuine stripped SOURCELONG
line, and whose preserved modification lines are inert well-formed
directives, re-encoding under the Pathfinder 1e rule-system variant and
decoding again reproduces the same header, the same modification lines,
and record for record the same (name, classesByLevel, flags, text-field)
tag-value tuples. The original claim fails in general: the material
description field is dropped outside the D and D 5e variant (see the
counterexample), so tuple preservation additionally pins material_desc to
the empty string. -/
theorem c1_round_trip (lines : List Str) (hdr : Str) (rs : List Spell)
    (ms : List Str)
    (hload : load_spell_lst lines = .ok ⟨hdr, rs, ms⟩)
    (hclean : ∀ r ∈ rs, CleanSpell r = true)
    (hhdr : hdr = [] ∨ (pyStrip hdr = hdr ∧ hasSub (chars "SOURCELONG") hdr = true))
    (hms : ∀ mo ∈ ms, ModLineOK mo (rs.map Spell.name) = true) :
    ∃ rs2 : List Spell,
      load_spell_lst ((generate_spell_lst rs ms hdr (chars "Pathfinder 1e")).1) =
        .ok ⟨hdr, rs2, ms⟩ ∧
      List.Forall₂ (fun r r2 => TupleEq r r2 = true) rs rs2 := by
  refine ⟨rs.map (fun r => mkSpell (sdFinal (setMode r (chars "Pathfinder 1e")))),
    ?_, tupleEq_all rs hclean⟩
  have hstep1 : processLine initDState hdr = .ok ⟨hdr, [], []⟩ := by
    rcases hhdr with rfl | ⟨hstrip, hsrc⟩
    · exact processLine_blank initDState
    · exact processLine_header initDState hdr hstrip hsrc
  have h2 : foldRes processLine (⟨hdr, [], []⟩ : DState)
      (rs.map fun r => spellStr (setMode r (chars "Pathfinder 1e"))) =
        .ok ⟨hdr, rs.map (fun r =>
          mkSpell (sdFinal (setMode r (chars "Pathfinder 1e")))), []⟩ :=
    foldRecords rs hclean ⟨hdr, [], []⟩
  have h3 : foldRes processLine
      (⟨hdr, rs.map (fun r =>
        mkSpell (sdFinal (setMode r (chars "Pathfinder 1e")))), []⟩ : DState) ms =
        .ok ⟨hdr, rs.map (fun r =>
          mkSpell (sdFinal (setMode r (chars "Pathfinder 1e")))), ms⟩ := by
    refine foldMods ms _ fun mo hmo => ?_
    show ModLineOK mo ((rs.map (fun r =>
      mkSpell (sdFinal (setMode r (chars "Pathfinder 1e"))))).map Spell.name) = true
    rw [names_mkSpell rs hclean]
    exact hms mo hmo
  simp only [generate_spell_lst, genSpellLines_eq]
  unfold load_spell_lst
  rw [foldRes_append, foldRes_append]
  simp only [foldRes, hstep1, processLine_blank, processLine_beginMods]
  rw [h2]
  exact h3

/-- Witness for c1_round_trip: the one-record Fireball document with an
empty header and no modification lines round-trips to a tuple-equal
record list. -/
theorem c1_round_trip_witness :
    ∃ rs2 : List Spell,
      load_spell_lst ((generate_spell_lst [fireballSpell] [] []
          (chars "Pathfinder 1e")).1) = .ok ⟨[], rs2, []⟩ ∧
      List.Forall₂ (fun r r2 => TupleEq r r2 = true) [fireballSpell] rs2 :=
  c1_round_trip [fireballLine] [] [fireballSpell] [] (by decide) (by decide)
    (Or.inl rfl) (by decide)

end PCGen
